import Mathlib

/-!
Verification development for `global_ec` (icebin).

Shallow embedding of `src/modele/global_ec.cpp`:

* the chunk partitioner of `main` (planning mode and execution mode),
* the grid-multiple check at the start of `main`,
* the overlap accumulator `ExchAccum`,
* the display down-sampling `make_I2vX`,
* the persistence sequence of `global_ec_section` and the lifetime of its
  operators,
* the text written by `write_chunk_makefile` and its reading by `ParseArgs`,
* the elevation-class arguments and the loop of `new_gcmA_standard`.

Conventions.  C++ `int` scan indices and counters are natural numbers or
integers; the counters stay far below the `int` range on every grid the
program reads, so no wrap-around is modelled.  `double` values are
rationals (exact arithmetic); the not-a-number sentinel of a mask is
`none`.  Two-dimensional arrays are total functions of (row, column);
grid indices are natural numbers.  The threshold `chunk_size` of planning
mode is an argument of the model.  Text is a list of characters; a failing
operator build ends the run of `global_ec_section` where it occurs.
-/

namespace GlobalEc

/-! ## Data read by `main` -/

/-- The coarse (O) grid, the block multipliers and the fields `main` scans.
`jm`, `im` are `hspecO.jm`, `hspecO.im`; `fgiceO` is the regridded ice
fraction on the coarse grid; `fgiceI` and `elevI` are the `int16_t` fine
fields. -/
structure Grids where
  jm : Nat
  im : Nat
  mult_j : Nat
  mult_i : Nat
  fgiceO : Nat → Nat → ℚ
  fgiceI : Nat → Nat → Int
  elevI : Nat → Nat → Int

/-- One element of `chunks`: `{chunkno, jO0, iO0, jO, iO}`. -/
structure Chunk where
  chunkno : Nat
  j0 : Nat
  i0 : Nat
  j1 : Nat
  i1 : Nat
deriving DecidableEq, Repr

/-! ## Planning mode (`main`, the `else` branch) -/

/-- The two nested loops over the fine block of coarse cell `(jO, iO)`:
`for jI in [jO*mult_j, (jO+1)*mult_j)`, `for iI in [iO*mult_i, (iO+1)*mult_i)`,
`if (fgiceI(jI,iI)) ++nice`. -/
def countBlock (g : Grids) (jO iO : Nat) (nice : Int) : Int :=
  (List.range' (jO * g.mult_j) g.mult_j).foldl
    (fun acc jI =>
      (List.range' (iO * g.mult_i) g.mult_i).foldl
        (fun acc2 iI => if g.fgiceI jI iI ≠ 0 then acc2 + 1 else acc2) acc)
    nice

/-- The inner loop `for (; iO < hspecO.im; ++iO)` of planning mode in row
`jO`; the first argument is the number of iterations left, `im - iO`.
Returns `(iO, nice, b)` where `b` tells that `goto endscan2` was taken. -/
def scanRow (g : Grids) (thr : Int) (jO : Nat) : Nat → Nat → Int → Nat × Int × Bool
  | 0, iO, nice => (iO, nice, false)
  | k + 1, iO, nice =>
    if g.fgiceO jO iO ≠ 0 then
      if countBlock g jO iO nice ≥ thr then (iO, countBlock g jO iO nice, true)
      else scanRow g thr jO k (iO + 1) (countBlock g jO iO nice)
    else scanRow g thr jO k (iO + 1) nice

/-- The outer loop `for (; jO < hspecO.jm; ++jO)` of planning mode, with
`iO = 0` after each completed row; the first argument is the number of
rows left, `jm - jO`.  Returns `(jO, iO, nice, b)` at label `endscan2`. -/
def scanRows (g : Grids) (thr : Int) : Nat → Nat → Nat → Int → Nat × Nat × Int × Bool
  | 0, jO, iO, nice => (jO, iO, nice, false)
  | k + 1, jO, iO, nice =>
    match scanRow g thr jO (g.im - iO) iO nice with
    | (iO1, nice1, true) => (jO, iO1, nice1, true)
    | (_, nice1, false) => scanRows g thr k (jO + 1) 0 nice1

/-- The chunk loop `for (chunkno=0; (jO < jm) && (iO < im); ++chunkno)`.
The loop has no bound of its own, so the model carries fuel: `none` means
the fuel ran out before the loop condition failed. -/
def planLoop (g : Grids) (thr : Int) : Nat → Nat → Nat → Nat → Option (List Chunk)
  | 0, _, _, _ => none
  | fuel + 1, chunkno, jO, iO =>
    if jO < g.jm ∧ iO < g.im then
      match scanRows g thr (g.jm - jO) jO iO 0 with
      | (jO1, iO1, _, _) =>
        (planLoop g thr fuel (chunkno + 1) jO1 iO1).map
          (fun rest => ⟨chunkno, jO, iO, jO1, iO1⟩ :: rest)
    else some []

/-- Planning mode: the list `chunks` handed to `write_chunk_makefile`. -/
def planChunks (g : Grids) (thr : Int) (fuel : Nat) : Option (List Chunk) :=
  planLoop g thr fuel 0 0 0

/-- The chunk loop watched for at most `n` passes: the descriptors pushed to
`chunks` by then, in order, whether or not the loop has ended by then. -/
def planPasses (g : Grids) (thr : Int) : Nat → Nat → Nat → Nat → List Chunk
  | 0, _, _, _ => []
  | n + 1, chunkno, jO, iO =>
    if jO < g.jm ∧ iO < g.im then
      match scanRows g thr (g.jm - jO) jO iO 0 with
      | (jO1, iO1, _, _) =>
        ⟨chunkno, jO, iO, jO1, iO1⟩ :: planPasses g thr n (chunkno + 1) jO1 iO1
    else []

/-- The module constant `chunk_size`. -/
def chunk_size : Int := 4000000

/-! ## Row-major positions -/

/-- Linear row-major position of coarse cell `(j, i)`, the `ijO` of the source. -/
def pos (im : Nat) (j i : Nat) : Nat := j * im + i

/-- The coarse cell at a row-major position. -/
def cellAt (im : Nat) (p : Nat) : Nat × Nat := (p / im, p % im)

/-- The full scan order `(0,0), (0,1), ..., (jm-1, im-1)`. -/
def scanOrder (jm im : Nat) : List (Nat × Nat) :=
  (List.range jm).flatMap (fun j => (List.range im).map (fun i => (j, i)))

/-- Cells of a descriptor read half-open: from its start up to, not
including, its end, in row-major order. -/
def coveredExcl (im : Nat) (c : Chunk) : List (Nat × Nat) :=
  (List.range' (pos im c.j0 c.i0) (pos im c.j1 c.i1 - pos im c.j0 c.i0)).map (cellAt im)

/-- Cells of a descriptor read closed: from its start through its end
inclusive, in row-major order. -/
def coveredIncl (im : Nat) (c : Chunk) : List (Nat × Nat) :=
  (List.range' (pos im c.j0 c.i0) (pos im c.j1 c.i1 + 1 - pos im c.j0 c.i0)).map (cellAt im)

/-- Ice cells counted for one coarse cell: the fine cells of its block with
`fgiceI` nonzero when `fgiceO` is nonzero there, none otherwise. -/
def cellIce (g : Grids) (c : Nat × Nat) : Int :=
  if g.fgiceO c.1 c.2 ≠ 0 then
    (((List.range' (c.1 * g.mult_j) g.mult_j).flatMap
        (fun jI => (List.range' (c.2 * g.mult_i) g.mult_i).map (fun iI => (jI, iI)))).filter
      (fun f => decide (g.fgiceI f.1 f.2 ≠ 0))).length
  else 0

/-- Running count over the coarse cells at positions `p0 .. p` inclusive. -/
def runCount (g : Grids) (p0 p : Nat) : Int :=
  ((List.range' p0 (p + 1 - p0)).map (fun q => cellIce g (cellAt g.im q))).sum

/-! ### Small test grids and proof devices for the planning scan -/

/-- One row of two coarse cells, one fine cell each, all ice. -/
def g12 : Grids :=
  { jm := 1, im := 2, mult_j := 1, mult_i := 1,
    fgiceO := fun _ _ => 1, fgiceI := fun _ _ => 1, elevI := fun _ _ => 500 }

/-- Linear form of the planning scan: `n` cells from row-major position `p`. -/
def scanPos (g : Grids) (thr : Int) : Nat → Nat → Int → Nat × Int × Bool
  | 0, p, nice => (p, nice, false)
  | n + 1, p, nice =>
    if g.fgiceO (p / g.im) (p % g.im) ≠ 0 then
      if countBlock g (p / g.im) (p % g.im) nice ≥ thr then
        (p, countBlock g (p / g.im) (p % g.im) nice, true)
      else scanPos g thr n (p + 1) (countBlock g (p / g.im) (p % g.im) nice)
    else scanPos g thr n (p + 1) nice

/-- Sum of the per-cell ice counts over `n` positions from `p`. -/
def sumIce (g : Grids) (p n : Nat) : Int :=
  ((List.range' p n).map (fun q => cellIce g (cellAt g.im q))).sum

/-- Crossing property of every descriptor closed by `goto endscan2`. -/
def Crossing (g : Grids) (thr : Int) (c : Chunk) : Prop :=
  c.j1 < g.jm ∧ c.i1 < g.im ∧
  pos g.im c.j0 c.i0 ≤ pos g.im c.j1 c.i1 ∧
  thr ≤ runCount g (pos g.im c.j0 c.i0) (pos g.im c.j1 c.i1) ∧
  ∀ q, pos g.im c.j0 c.i0 ≤ q → q < pos g.im c.j1 c.i1 →
    runCount g (pos g.im c.j0 c.i0) q < thr

/-- A single coarse cell over a single ice-covered fine cell. -/
def g11 : Grids :=
  { jm := 1, im := 1, mult_j := 1, mult_i := 1,
    fgiceO := fun _ _ => 1, fgiceI := fun _ _ => 1, elevI := fun _ _ => 500 }

/-- A single coarse cell over a block of 2000 x 2000 fine cells, all ice:
4,000,000 ice cells under the one coarse cell. -/
def gHeavy : Grids :=
  { jm := 1, im := 1, mult_j := 2000, mult_i := 2000,
    fgiceO := fun _ _ => 1, fgiceI := fun _ _ => 1, elevI := fun _ _ => 500 }

/-! ## Execution mode (`main`, the `if (args.run_chunk)` branch) -/

/-- The array `elevmaskI`: `none` is the not-a-number sentinel, `some v` an
elevation copied from the `int16_t` field `elevI`. -/
abbrev Mask := Nat → Nat → Option Int

/-- The assignment `elevmaskI(jI,iI) = v`. -/
def setMask (m : Mask) (jI iI : Nat) (v : Int) : Mask :=
  fun j i => if j = jI ∧ i = iI then some v else m j i

/-- The two nested loops copying the fine block of coarse cell `(jO, iO)`:
`if (fgiceI(jI,iI)) elevmaskI(jI,iI) = elevI(jI,iI)`. -/
def fillBlock (g : Grids) (jO iO : Nat) (m : Mask) : Mask :=
  (List.range' (jO * g.mult_j) g.mult_j).foldl
    (fun acc jI =>
      (List.range' (iO * g.mult_i) g.mult_i).foldl
        (fun acc2 iI =>
          if g.fgiceI jI iI ≠ 0 then setMask acc2 jI iI (g.elevI jI iI) else acc2) acc)
    m

/-- The inner loop `for (; iO < hspecO.im; ++iO, ++ijO)` of execution mode in
row `jO`, with the exit `if (ijO >= ijO1) goto endscan`; the first argument
is the number of iterations left, `im - iO`.  Returns the mask, `ijO`, and
whether the `goto` was taken. -/
def execRow (g : Grids) (ijO1 jO : Nat) : Nat → Nat → Nat → Mask → Mask × Nat × Bool
  | 0, _, ijO, m => (m, ijO, false)
  | k + 1, iO, ijO, m =>
    if ijO ≥ ijO1 then (m, ijO, true)
    else
      execRow g ijO1 jO k (iO + 1) (ijO + 1)
        (if g.fgiceO jO iO ≠ 0 then fillBlock g jO iO m else m)

/-- The outer loop `for (; jO < args.chunk_range[1][0]; ++jO)` of execution
mode, with `iO = 0` after each completed row; the first argument is the
number of rows left, `jO1 - jO`. -/
def execRows (g : Grids) (ijO1 : Nat) : Nat → Nat → Nat → Nat → Mask → Mask
  | 0, _, _, _, m => m
  | k + 1, jO, iO, ijO, m =>
    match execRow g ijO1 jO (g.im - iO) iO ijO m with
    | (m1, _, true) => m1
    | (m1, ijO2, false) => execRows g ijO1 k (jO + 1) 0 ijO2 m1

/-- The mask `elevmaskI` that execution mode hands to `global_ec_section`
for the descriptor `c` (`chunk_range = {{j0,i0},{j1,i1}}`). -/
def chunkMask (g : Grids) (c : Chunk) : Mask :=
  execRows g (c.j1 * g.im + c.i1) (c.j1 - c.j0) c.j0 c.i0 (c.j0 * g.im + c.i0)
    (fun _ _ => none)

/-- Row-major order on (row, column) pairs: at or after. -/
def rmLe (a b : Nat × Nat) : Prop := a.1 < b.1 ∨ (a.1 = b.1 ∧ a.2 ≤ b.2)

/-- Row-major order on (row, column) pairs: strictly before. -/
def rmLt (a b : Nat × Nat) : Prop := a.1 < b.1 ∨ (a.1 = b.1 ∧ a.2 < b.2)

instance decRmLe (a b : Nat × Nat) : Decidable (rmLe a b) := by unfold rmLe; infer_instance

instance decRmLt (a b : Nat × Nat) : Decidable (rmLt a b) := by unfold rmLt; infer_instance

/-- The fine cell `(jI, iI)` is one the descriptor `c` selects: its coarse
cell lies at or after the start and before the end of `c`, is flagged in
`fgiceO`, and the fine cell is flagged in `fgiceI`. -/
def Selected (g : Grids) (c : Chunk) (jI iI : Nat) : Prop :=
  rmLe (c.j0, c.i0) (jI / g.mult_j, iI / g.mult_i) ∧
  rmLt (jI / g.mult_j, iI / g.mult_i) (c.j1, c.i1) ∧
  g.fgiceO (jI / g.mult_j) (iI / g.mult_i) ≠ 0 ∧ g.fgiceI jI iI ≠ 0

/-- Every non-sentinel value of the mask is a selected cell, in a coarse row
before the end row of the descriptor, holding its elevation. -/
def MaskOK (g : Grids) (c : Chunk) (m : Mask) : Prop :=
  ∀ jI iI, m jI iI ≠ none →
    (Selected g c jI iI ∧ jI / g.mult_j < c.j1) ∧ m jI iI = some (g.elevI jI iI)

/-- The mask holds the elevation of fine cell `(jI, iI)`. -/
def Kept (g : Grids) (m : Mask) (jI iI : Nat) : Prop := m jI iI = some (g.elevI jI iI)

/-! ## The overlap accumulator `ExchAccum` -/

/-- Modelled from the spec: `SparseSet<long,int>` (spsparse) is not part of
the sources at hand.  A registry is the list of recorded pairs
(sparse id, dense index), in the order in which they were allocated. -/
structure SparseSet where
  pairs : List (Nat × Nat)
deriving DecidableEq, Repr

/-- Modelled from the spec: the size of a registry, the count of distinct
sparse ids seen; it is also the next unused dense index. -/
def SparseSet.dense_extent (s : SparseSet) : Nat := s.pairs.length

/-- Modelled from the spec: the dense index recorded for a sparse id, if any. -/
def SparseSet.to_dense (s : SparseSet) (id : Nat) : Option Nat :=
  (s.pairs.find? (fun p => p.1 == id)).map (fun p => p.2)

/-- Modelled from the spec: `add_dense(sparse_id) -> dense_index`.  The first
call for a sparse id allocates the next unused dense index and records the
pair; later calls for the same id return the index allocated before. -/
def SparseSet.add_dense (s : SparseSet) (id : Nat) : Nat × SparseSet :=
  match s.to_dense id with
  | some d => (d, s)
  | none => (s.dense_extent, ⟨s.pairs ++ [(id, s.dense_extent)]⟩)

/-- One overlap event: `(index, area)` with `index = {iO, iI}`. -/
abbrev Event := (Nat × Nat) × ℚ

/-- Modelled from the spec: `ExchangeGrid` (icebin) is not part of the sources
at hand.  The exchange grid is the ordered collection of its entries. -/
structure ExchangeGrid where
  entries : List Event
deriving DecidableEq

/-- Modelled from the spec: `ExchangeGrid::add(index, area)` appends one entry. -/
def ExchangeGrid.add (x : ExchangeGrid) (index : Nat × Nat) (area : ℚ) : ExchangeGrid :=
  ⟨x.entries ++ [(index, area)]⟩

/-- The objects `ExchAccum` holds by reference and updates: `exgrid`, `dimO`,
`dimI`.  The mask `elevmaskI` is constant and passed separately; `none` is
the not-a-number sentinel. -/
structure ExchAccum where
  exgrid : ExchangeGrid
  dimO : SparseSet
  dimI : SparseSet
deriving DecidableEq

/-- The state `new_gcmA_standard` starts from: empty grid, empty registries. -/
def ExchAccum.empty : ExchAccum := ⟨⟨[]⟩, ⟨[]⟩, ⟨[]⟩⟩

/-- The method `ExchAccum::add(index, area)`: when `elevmaskI(iI)` is not the sentinel,
add the entry and register `iO` in `dimO` and `iI` in `dimI`. -/
def ExchAccum.add (elevmaskI : Nat → Option Int) (st : ExchAccum)
    (index : Nat × Nat) (area : ℚ) : ExchAccum :=
  if (elevmaskI index.2).isSome then
    { exgrid := st.exgrid.add index area
      dimO := (st.dimO.add_dense index.1).2
      dimI := (st.dimI.add_dense index.2).2 }
  else st

/-- The accumulator fed with a finite sequence of overlap events, in order. -/
def ExchAccum.addAll (elevmaskI : Nat → Option Int) (st : ExchAccum)
    (events : List Event) : ExchAccum :=
  events.foldl (fun s e => ExchAccum.add elevmaskI s e.1 e.2) st

/-- The events whose I-side index has a non-sentinel mask value. -/
def retained (elevmaskI : Nat → Option Int) (events : List Event) : List Event :=
  events.filter (fun e => (elevmaskI e.1.2).isSome)

/-- The distinct elements of a list in the order of their first occurrence. -/
def firstSeen : List Nat → List Nat
  | [] => []
  | x :: xs => x :: (firstSeen xs).filter (fun y => decide (y ≠ x))

/-- The registry that maps the distinct elements of `ids`, in the order of
their first occurrence, to `0, 1, 2, ...`. -/
def rankPairs (ids : List Nat) : List (Nat × Nat) :=
  (firstSeen ids).zip (List.range (firstSeen ids).length)

/-- A registry fed with a sequence of sparse ids through `add_dense`. -/
def SparseSet.addAll (s : SparseSet) (ids : List Nat) : SparseSet :=
  ids.foldl (fun r id => (r.add_dense id).2) s

/-- The O-side ids of the retained events, in event order. -/
def retainedO (elevmaskI : Nat → Option Int) (events : List Event) : List Nat :=
  (retained elevmaskI events).map (fun e => e.1.1)

/-- The I-side ids of the retained events, in event order. -/
def retainedI (elevmaskI : Nat → Option Int) (events : List Event) : List Nat :=
  (retained elevmaskI events).map (fun e => e.1.2)

/-! ## The grid-multiple check of `main` -/

/-- The stages of `main` that follow the grid check, in program order. -/
inductive Stage
  | readIceFields
  | regridFgiceO
  | buildElevmask
  | runSections
  | planChunkList
  | writeMakefile
deriving DecidableEq, Repr

/-- How a run of `main` ends. -/
inductive Outcome
  | configError
  | finished
deriving DecidableEq, Repr

/-- A run of `main`: how it ended and the stages it performed before that. -/
structure MainRun where
  outcome : Outcome
  stages : List Stage
deriving DecidableEq, Repr

/-- Modelled from the spec: `icebin_error` is not part of the sources at hand;
a call reports the fatal configuration error and ends the run at once, after
the stages `done` performed so far. -/
def icebin_error (done : List Stage) : MainRun := ⟨Outcome.configError, done⟩

/-- The function `main` after argument parsing: `mult_i = hspecI.im / hspecO.im`,
`mult_j = hspecI.jm / hspecO.jm` (C++ `int` division, truncating), the test
`(mult_i * hspecO.im != hspecI.im) || (mult_j * hspecO.jm != hspecI.jm)`
guarding `icebin_error`, and after it the stages in program order: reading
`fgiceI`/`elevI`, regridding to `fgiceO` (the first overlap computation),
reading the fields again, then either the mask construction and
`global_ec_section`, or the chunk planning and `write_chunk_makefile`. -/
def main_run (hspecO_im hspecO_jm hspecI_im hspecI_jm : Int) (run_chunk : Bool) : MainRun :=
  if Int.tdiv hspecI_im hspecO_im * hspecO_im ≠ hspecI_im ∨
      Int.tdiv hspecI_jm hspecO_jm * hspecO_jm ≠ hspecI_jm then
    icebin_error []
  else
    ⟨Outcome.finished,
      [Stage.readIceFields, Stage.regridFgiceO, Stage.readIceFields] ++
        (if run_chunk then [Stage.buildElevmask, Stage.runSections]
         else [Stage.planChunkList, Stage.writeMakefile])⟩

/-! ## Display down-sampling `make_I2vX` -/

/-- The operator type `linear::Weighted_Eigen` with `m` destination rows and
`n` source columns: matrix `M`, row weights `wM`, column weights `Mw`, and
the flag `conservative`. -/
structure Weighted_Eigen (m n : Nat) where
  M : Matrix (Fin m) (Fin n) ℚ
  wM : Fin m → ℚ
  Mw : Fin n → ℚ
  conservative : Bool

/-- Modelled from the spec: the helper `sum(M, 0, '-')` (ibmisc) is not part
of the sources at hand; the spec reads its result as the vector of row sums
of `M`. -/
def rowsum {a b : Nat} (M : Matrix (Fin a) (Fin b) ℚ) : Fin a → ℚ :=
  fun i => ∑ j, M i j

/-- Modelled from the spec: the helper `sum(M, 1, '-')` (ibmisc) is not part
of the sources at hand; the spec reads its result as the vector of column
sums of `M`. -/
def colsum {a b : Nat} (M : Matrix (Fin a) (Fin b) ℚ) : Fin b → ℚ :=
  fun j => ∑ i, M i j

/-- The function `make_I2vX`.  The overlap matrix `I2vI` (rows on the display grid I2,
columns on the ice grid I) comes from the interpolation engine and is an
argument here, as are the two results `sI2vI = sum(I2vI,0,'-')` and
`I2vIs = sum(I2vI,1,'-')` of the absent helper, given as functions of the
matrix; `scale` is `params.scale`. -/
def make_I2vX {a b c : Nat}
    (sum0 : Matrix (Fin a) (Fin b) ℚ → Fin a → ℚ)
    (sum1 : Matrix (Fin a) (Fin b) ℚ → Fin b → ℚ)
    (I2vI : Matrix (Fin a) (Fin b) ℚ) (IvX : Weighted_Eigen b c) (scale : Bool) :
    Weighted_Eigen a c :=
  { conservative := IvX.conservative
    wM := Matrix.mulVec (I2vI * Matrix.diagonal (sum1 I2vI)) IvX.wM
    Mw := IvX.Mw
    M := if scale then Matrix.diagonal (sum0 I2vI) * I2vI * IvX.M
         else I2vI * Matrix.diagonal (fun i => 1 / IvX.wM i) * IvX.M }

/-! ## The persistence sequence of `global_ec_section` -/

/-- The operators of one call of `global_ec_section`: five requested from the
regridder through `matrix_d`, two derived by `make_I2vX`. -/
inductive Op
  | AvI
  | EvI
  | IvE
  | I2vE
  | IvA
  | I2vA
  | AvE
deriving DecidableEq, Repr

/-- What `global_ec_section` puts into the chunk's artifact: the metadata block
(`hspecA`, `hspecI` and the four indexings), the operators, the four
dimension maps. -/
inductive Item
  | metadata
  | matrix (o : Op)
  | dimA
  | dimE
  | dimI
  | dimI2
deriving DecidableEq, Repr

/-- The statements of `global_ec_section` that matter for storage and for the
lifetime of the operators: `NcIO ncio(ofname, 'w')` or `'a'`, a call
`...ncio(ncio, name)`, `ncio.flush()`, `mat(rm->matrix_d(...))` (the operator
is built on the heap and owned by the `unique_ptr` `mat`),
`mat2(make_I2vX(*mat, ...))` (the display operator, held by value in `mat2`),
`mat.release()`, and the closing brace of a block. -/
inductive Cmd
  | openFile (append : Bool)
  | putItem (i : Item)
  | flush
  | matrix_d (o : Op)
  | make_I2vX (o : Op)
  | matRelease
  | closeScope
deriving DecidableEq, Repr

/-- The body of `global_ec_section(gcmA, runtype, args, elevmaskI)`, statement
by statement; it has no branch. -/
def sectionScript : List Cmd :=
  [ Cmd.openFile false, Cmd.putItem Item.metadata,
      Cmd.matrix_d Op.AvI, Cmd.putItem (Item.matrix Op.AvI), Cmd.flush, Cmd.closeScope,
    Cmd.openFile true,
      Cmd.matrix_d Op.EvI, Cmd.putItem (Item.matrix Op.EvI), Cmd.flush, Cmd.closeScope,
    Cmd.openFile true,
      Cmd.matrix_d Op.IvE, Cmd.putItem (Item.matrix Op.IvE), Cmd.flush,
      Cmd.make_I2vX Op.I2vE, Cmd.matRelease, Cmd.putItem (Item.matrix Op.I2vE), Cmd.flush,
      Cmd.closeScope,
    Cmd.openFile true,
      Cmd.matrix_d Op.IvA, Cmd.putItem (Item.matrix Op.IvA), Cmd.flush,
      Cmd.make_I2vX Op.I2vA, Cmd.matRelease, Cmd.putItem (Item.matrix Op.I2vA), Cmd.flush,
      Cmd.closeScope,
    Cmd.openFile true,
      Cmd.matrix_d Op.AvE, Cmd.putItem (Item.matrix Op.AvE), Cmd.flush, Cmd.closeScope,
    Cmd.openFile true,
      Cmd.putItem Item.dimA, Cmd.putItem Item.dimE, Cmd.putItem Item.dimI,
      Cmd.putItem Item.dimI2, Cmd.flush, Cmd.closeScope ]

/-- The statements completed when the script is run and building operator `o`
succeeds exactly when `ok o`: a failing build ends the run there. -/
def runCmds (ok : Op → Bool) : List Cmd → List Cmd
  | [] => []
  | Cmd.matrix_d o :: rest => if ok o then Cmd.matrix_d o :: runCmds ok rest else []
  | Cmd.make_I2vX o :: rest => if ok o then Cmd.make_I2vX o :: runCmds ok rest else []
  | c :: rest => c :: runCmds ok rest

/-- The statements `global_ec_section` completes for one chunk and run type. -/
def global_ec_section (ok : Op → Bool) : List Cmd := runCmds ok sectionScript

/-- Storage state while a trace runs: the items flushed to the artifact, and
the items put since the last flush. -/
def storeStep (s : List Item × List Item) : Cmd → List Item × List Item
  | Cmd.putItem i => (s.1, s.2 ++ [i])
  | Cmd.flush => (s.1 ++ s.2, [])
  | _ => s

/-- The items in the chunk's artifact after a trace: those put and flushed. -/
def stored (tr : List Cmd) : List Item := (tr.foldl storeStep ([], [])).1

/-- The artifact file exists after a trace: it was opened in mode `'w'`. -/
def fileCreated (tr : List Cmd) : Bool := tr.contains (Cmd.openFile false)

/-- The sub-sequence of builds and puts of a trace. -/
def buildsAndPuts (tr : List Cmd) : List Cmd :=
  tr.filter (fun c =>
    match c with
    | Cmd.putItem _ => true
    | Cmd.matrix_d _ => true
    | Cmd.make_I2vX _ => true
    | _ => false)

/-- Scan of a trace checking that at every `matrix_d` request all operators
built before have been put and flushed; `unwritten` are the operators built
and not yet flushed, `pending` those put since the last flush. -/
def requestsAfterWrites : List Cmd → List Op → List Op → Bool
  | [], _, _ => true
  | Cmd.matrix_d o :: rest, unwritten, pending =>
    unwritten.isEmpty && requestsAfterWrites rest [o] pending
  | Cmd.make_I2vX o :: rest, unwritten, pending =>
    requestsAfterWrites rest (unwritten ++ [o]) pending
  | Cmd.putItem (Item.matrix o) :: rest, unwritten, pending =>
    requestsAfterWrites rest unwritten (pending ++ [o])
  | Cmd.flush :: rest, unwritten, pending =>
    requestsAfterWrites rest (unwritten.filter (fun o => !pending.contains o)) []
  | _ :: rest, unwritten, pending => requestsAfterWrites rest unwritten pending

/-- The statement is not the build of operator `o`. -/
def notBuild (o : Op) : Cmd → Bool
  | Cmd.matrix_d o2 => decide (o2 ≠ o)
  | Cmd.make_I2vX o2 => decide (o2 ≠ o)
  | _ => true

/-- The part of a script before the build of operator `o`. -/
def beforeBuild (o : Op) (l : List Cmd) : List Cmd := l.takeWhile (notBuild o)

/-- The items flushed before the build of operator `o` is reached. -/
def storedBefore (o : Op) : List Item := stored (beforeBuild o sectionScript)

/-- The operators in the order in which `global_ec_section` builds them. -/
def buildOrder : List Op :=
  [Op.AvI, Op.EvI, Op.IvE, Op.I2vE, Op.IvA, Op.I2vA, Op.AvE]

/-- The first operator whose build fails, if any. -/
def firstFail (ok : Op → Bool) : Option Op := buildOrder.find? (fun o => !ok o)

/-- Lifetime state: the operator objects alive, the object owned by the
`unique_ptr` `mat`, and the object held by the value `mat2`. -/
structure Owners where
  heap : List Op
  mat : Option Op
  mat2 : Option Op
deriving DecidableEq, Repr

/-- Effect of a statement on the lifetimes.  A build creates the object and
gives it to its owner; `unique_ptr::release()` makes `mat` give up the object
without deleting it; at the closing brace the destructors of `mat2` and
`mat` delete what they still hold. -/
def lifeStep (s : Owners) : Cmd → Owners
  | Cmd.matrix_d o => { heap := s.heap ++ [o], mat := some o, mat2 := s.mat2 }
  | Cmd.make_I2vX o => { heap := s.heap ++ [o], mat := s.mat, mat2 := some o }
  | Cmd.matRelease => { heap := s.heap, mat := none, mat2 := s.mat2 }
  | Cmd.closeScope =>
    { heap := s.heap.filter (fun o => decide (some o ≠ s.mat ∧ some o ≠ s.mat2)),
      mat := none, mat2 := none }
  | _ => s

/-- The operator objects alive after a trace. -/
def liveAfter (tr : List Cmd) : List Op := (tr.foldl lifeStep ⟨[], none, none⟩).heap

/-- The operator objects alive when the request `matrix_d o` is reached. -/
def liveBefore (o : Op) (tr : List Cmd) : List Op :=
  liveAfter (tr.takeWhile (fun c => decide (c ≠ Cmd.matrix_d o)))

/-- The operator objects alive right after the request `matrix_d o`. -/
def liveRightAfter (o : Op) (tr : List Cmd) : List Op :=
  liveAfter (tr.takeWhile (fun c => decide (c ≠ Cmd.matrix_d o)) ++ [Cmd.matrix_d o])

/-! ## Text written by `write_chunk_makefile` and read by `ParseArgs` -/

/-- The newline character written by `endl` and by the escape `\n`. -/
def nl : Char := Char.ofNat 10

/-- The tab character that starts a recipe line. -/
def tab : Char := Char.ofNat 9

/-- The stream output `fout << n` of a non-negative `int`: its decimal digits. -/
def showInt (n : Nat) : List Char := Nat.toDigits 10 n

/-- The format `%02d` of `strprintf` for a non-negative `int`: decimal digits,
padded with a zero to two characters. -/
def fmt02 (n : Nat) : List Char := if n < 10 then '0' :: showInt n else showInt n

/-- The five integers of a chunk, `chunk[0] .. chunk[4]`. -/
def Chunk.fields (c : Chunk) : List Nat := [c.chunkno, c.j0, c.i0, c.j1, c.i1]

/-- The value written after `--runchunk `: `chunk[0]`, then `,` and
`chunk[i]` for `i = 1 .. 4`. -/
def runchunkValue (c : Chunk) : List Char :=
  [c.j0, c.i0, c.j1, c.i1].foldl (fun t n => t ++ ',' :: showInt n) (showInt c.chunkno)

/-- The name `ofname-NN` that `write_chunk_makefile` gives to a chunk. -/
def chunkTarget (ofname : List Char) (c : Chunk) : List Char :=
  ofname ++ "-".toList ++ fmt02 c.chunkno

/-- The function `write_chunk_makefile`: the text streamed to `fout`, statement
by statement. -/
def write_chunk_makefile (ofname : List Char) (arg_strings : List (List Char))
    (chunks : List Chunk) : List Char :=
  let t1 := ".NOTPARALLEL:".toList ++ [nl] ++ ofname ++ " : ".toList ++ ofname ++ ".mk".toList
  let t2 := chunks.foldl
    (fun t c => t ++ " ".toList ++ ofname ++ "-".toList ++ fmt02 c.chunkno) t1
  let t3 := t2 ++ [nl] ++ [tab] ++ "combine_global_ec".toList
  let t4 := chunks.foldl
    (fun t c => t ++ " ".toList ++ ofname ++ "-".toList ++ fmt02 c.chunkno) t3
  let t5 := t4 ++ [nl] ++ [nl]
  chunks.foldl
    (fun t c =>
      (arg_strings.foldl (fun u arg => u ++ arg ++ " ".toList)
        (t ++ ofname ++ "-".toList ++ fmt02 c.chunkno ++ " : ".toList ++ ofname
          ++ ".mk".toList ++ [nl] ++ [tab]))
        ++ "--runchunk ".toList ++ runchunkValue c ++ [nl])
    t5

/-- Words joined by single blanks. -/
def joinWords (ws : List (List Char)) : List Char := " ".toList.intercalate ws

/-- A rule of a build script: `target : prerequisites`, then the recipe on a
line of its own, started by a tab. -/
def renderRule (target : List Char) (prereqs recipe : List (List Char)) : List Char :=
  target ++ " : ".toList ++ joinWords prereqs ++ [nl] ++ [tab] ++ joinWords recipe ++ [nl]

/-- The build script the spec describes: the marker line `.NOTPARALLEL:`, the
aggregate rule (target `ofname`, prerequisites the script itself and every
chunk target, recipe `combine_global_ec` over the chunk targets), a blank
line, and one rule per chunk whose recipe is the argument list followed by
`--runchunk` and the chunk's descriptor. -/
def makefileLayout (ofname : List Char) (arg_strings : List (List Char))
    (chunks : List Chunk) : List Char :=
  ".NOTPARALLEL:".toList ++ [nl]
    ++ renderRule ofname ((ofname ++ ".mk".toList) :: chunks.map (chunkTarget ofname))
        ("combine_global_ec".toList :: chunks.map (chunkTarget ofname))
    ++ [nl]
    ++ chunks.flatMap (fun c =>
        renderRule (chunkTarget ofname c) [ofname ++ ".mk".toList]
          (arg_strings ++ ["--runchunk".toList, runchunkValue c]))

/-- The artifact name `strprintf("%s-%s-%02d", args.ofname, runtype, args.chunk_no)`
of `global_ec_section`. -/
def sectionFile (ofname runtype : List Char) (chunk_no : Nat) : List Char :=
  ofname ++ "-".toList ++ runtype ++ "-".toList ++ fmt02 chunk_no

/-- The artifacts execution mode writes for a chunk: `global_ec_section` is run
with run type `mismatched`, then with run type `standard`. -/
def artifactFiles (ofname : List Char) (chunk_no : Nat) : List (List Char) :=
  [sectionFile ofname "mismatched".toList chunk_no, sectionFile ofname "standard".toList chunk_no]

/-- The value of a decimal digit character. -/
def digitVal (c : Char) : Nat := c.toNat - 48

/-- The leading decimal digits of a text: their value (continuing `v`), their
number (continuing `k`), and the rest of the text. -/
def readDigits : List Char → Nat → Nat → Nat × Nat × List Char
  | [], v, k => (v, k, [])
  | c :: cs, v, k =>
    if c.isDigit then readDigits cs (v * 10 + digitVal c) (k + 1) else (v, k, c :: cs)

/-- The extraction `myString >> val` of a `double` from one field, for plain
decimal numerals: leading white space is skipped, then an optional sign,
digits, and an optional fraction are read; what follows is left unread.
When no digit is found the extraction fails and `val` is 0.  Exponents,
hexadecimal numerals and the words for infinity and not-a-number are not
modelled. -/
def readDouble (s : List Char) : ℚ :=
  let s1 := s.dropWhile Char.isWhitespace
  let neg := s1.head? = some '-'
  let s2 := if s1.head? = some '-' ∨ s1.head? = some '+' then s1.tail else s1
  let ip := readDigits s2 0 0
  let fp := if ip.2.2.head? = some '.' then readDigits ip.2.2.tail 0 0 else (0, 0, ip.2.2)
  if ip.2.1 + fp.2.1 = 0 then 0
  else (if neg then -1 else 1) * ((ip.1 : ℚ) + (fp.1 : ℚ) / 10 ^ fp.2.1)

/-- The function `parse_csv<double>`: the text is split at every comma (empty
fields are kept) and each field is extracted as a `double`. -/
def parse_csv (scsv_str : List Char) : List ℚ :=
  (scsv_str.splitOn ',').map readDouble

/-- The conversion of a `double` to `int`: truncation toward zero. -/
def toInt (q : ℚ) : Int := if 0 ≤ q then ⌊q⌋ else ⌈q⌉

/-- The configuration errors `ParseArgs` reports through `icebin_error`. -/
inductive ArgError
  | ecCount
  | runchunkCount
deriving DecidableEq, Repr

/-- The members `run_chunk`, `chunk_no`, `chunk_range` of `ParseArgs`;
`chunk_range` is not assigned when `run_chunk` is false. -/
structure RunChunkArgs where
  run_chunk : Bool
  chunk_no : Int
  chunk_range : Option ((Int × Int) × (Int × Int))
deriving DecidableEq, Repr

/-- The part of `ParseArgs::ParseArgs` that reads the value of `--runchunk`. -/
def parse_runchunk (srunchunk : List Char) : Except ArgError RunChunkArgs :=
  if srunchunk = [] then Except.ok ⟨false, -1, none⟩
  else
    if (parse_csv srunchunk).length ≠ 5 then Except.error ArgError.runchunkCount
    else
      Except.ok ⟨true, toInt ((parse_csv srunchunk).getD 0 0),
        some ((toInt ((parse_csv srunchunk).getD 1 0), toInt ((parse_csv srunchunk).getD 2 0)),
          (toInt ((parse_csv srunchunk).getD 3 0), toInt ((parse_csv srunchunk).getD 4 0)))⟩

/-- A text made of decimal digits only, with its value read left to right. -/
def digitsValue (l : List Char) : Nat := l.foldl (fun a c => a * 10 + digitVal c) 0

/-! ## Elevation classes: `ParseArgs` and `new_gcmA_standard` -/

/-- The members `ec_range` (a `std::array<double,2>`) and `ec_skip` of
`ParseArgs`. -/
structure EcArgs where
  ec_range : ℚ × ℚ
  ec_skip : ℚ
deriving DecidableEq, Repr

/-- The part of `ParseArgs::ParseArgs` that reads the value of
`--elev-classes`: two or three numbers, the third defaulting to 1. -/
def parse_ec (s : List Char) : Except ArgError EcArgs :=
  if (parse_csv s).length < 2 ∨ (parse_csv s).length > 3 then Except.error ArgError.ecCount
  else
    Except.ok
      { ec_range := ((parse_csv s).getD 0 0, (parse_csv s).getD 1 0)
        ec_skip := if (parse_csv s).length = 3 then (parse_csv s).getD 2 0 else 1 }

/-- Element access `a[i]` on a `std::array<double,2>`: the two elements at
indices 0 and 1; any other index is outside the array. -/
def array2_get (a : ℚ × ℚ) (i : Nat) : Option ℚ :=
  match i with
  | 0 => some a.1
  | 1 => some a.2
  | _ => none

/-- How the loop that fills `hcdefs` ends: with an element access outside
`ec_range` (after the pushes made so far), with the fuel of the model used
up, or with the finished list. -/
inductive HcResult
  | outOfBounds (pushed : List ℚ)
  | outOfFuel
  | done (hcdefs : List ℚ)
deriving DecidableEq, Repr

/-- The loop `for (elev = ...; elev <= args.ec_range[1]; elev += args.ec_range[2])
hcdefs.push_back(elev)` of `new_gcmA_standard`, from the current `elev`
and the list pushed so far.  The loop has no bound of its own, so the model
carries fuel. -/
def hcLoop (ec_range : ℚ × ℚ) : Nat → ℚ → List ℚ → HcResult
  | 0, _, _ => HcResult.outOfFuel
  | fuel + 1, elev, pushed =>
    match array2_get ec_range 1 with
    | none => HcResult.outOfBounds pushed
    | some high =>
      if elev ≤ high then
        match array2_get ec_range 2 with
        | none => HcResult.outOfBounds (pushed ++ [elev])
        | some step => hcLoop ec_range fuel (elev + step) (pushed ++ [elev])
      else HcResult.done pushed

/-- The elevation-class list of `new_gcmA_standard`: `elev` starts at
`args.ec_range[0]`. -/
def new_gcmA_standard_hcdefs (args : EcArgs) (fuel : Nat) : HcResult :=
  match array2_get args.ec_range 0 with
  | none => HcResult.outOfBounds []
  | some low => hcLoop args.ec_range fuel low []

/-- The two values of `ModelE_CouplingType` the contract distinguishes. -/
inductive ModelE_CouplingType
  | DIRICHLET_BC
  | NEUMANN_BC
deriving DecidableEq, Repr

/-- One field of a coupling contract: name, units and description.  For a
field added by its CF name the description comes from a table that is not
part of the sources at hand and is left out (`none`). -/
structure CoupledField where
  name : String
  units : String
  description : Option String
deriving DecidableEq, Repr

/-- A `CouplingContract`, a class that is not part of the sources at hand,
taken as the list of its fields in the order they were added, which is the
order `begin()` to `end()` is taken to run through. -/
structure CouplingContract where
  fields : List CoupledField
deriving DecidableEq, Repr

/-- The call `contract.add_field(field)`. -/
def CouplingContract.add (c : CouplingContract) (f : CoupledField) : CouplingContract :=
  ⟨c.fields ++ [f]⟩

/-- The call `contract.add_field(name, units, description)`. -/
def CouplingContract.add_field (c : CouplingContract) (name units description : String) :
    CouplingContract :=
  c.add ⟨name, units, some description⟩

/-- The call `contract.add_cfname(name, units)`. -/
def CouplingContract.add_cfname (c : CouplingContract) (name units : String) :
    CouplingContract :=
  c.add ⟨name, units, none⟩

/-- The names of the fields of a contract, in order. -/
def CouplingContract.names (c : CouplingContract) : List String :=
  c.fields.map (fun f => f.name)

/-- One call `vt.set(output, input, scalar, val)`. -/
structure Recipe where
  output : String
  input : String
  scalar : String
  val : ℚ
deriving DecidableEq, Repr

/-- A `VarTransformer`, a class that is not part of the sources at hand, taken
as the record of the calls made on it: the names given by `set_names` for
its three dimensions, and the recipes requested by `set`, in order. -/
structure VarTransformer where
  inputs : List String
  outputs : List String
  scalars : List String
  recipes : List Recipe
deriving DecidableEq, Repr

/-- The three `set_names` calls on a transformer. -/
def VarTransformer.set_names (inputs outputs scalars : CouplingContract) : VarTransformer :=
  ⟨inputs.names, outputs.names, scalars.names, []⟩

/-- The call `vt.set(output, input, scalar, val)`. -/
def VarTransformer.set (vt : VarTransformer) (output input scalar : String) (val : ℚ) :
    VarTransformer :=
  { vt with recipes := vt.recipes ++ [⟨output, input, scalar, val⟩] }

/-- The element `(output, input, scalar)` of the transformer, read from the
calls: the value of the last `set` on that element, and zero when there was
none (the transformer is taken to start with every element zero). -/
def VarTransformer.entry (vt : VarTransformer) (output input scalar : String) : ℚ :=
  match vt.recipes.reverse.find?
      (fun r => decide (r.output = output ∧ r.input = input ∧ r.scalar = scalar)) with
  | some r => r.val
  | none => 0

/-- What `setup_contract_modele` leaves behind: the two contracts of the ice
model with their transformers, the new GCM-input contract and the new
contract of output scalars. -/
structure ContractSetup where
  ice_input : CouplingContract
  ice_input_vt : VarTransformer
  ice_output : CouplingContract
  gcm_inputs : CouplingContract
  ice_output_scalars : CouplingContract
  ice_output_vt : VarTransformer
deriving DecidableEq, Repr

/-- The contract with no field, as `new_CouplingContract()` gives it. -/
def new_CouplingContract : CouplingContract := ⟨[]⟩

/-- The loop `for (ii = ice_output.begin(); ii != ice_output.end(); ++ii)
gcm_inputs->add_field(*ii)`. -/
def copyFields (fields : List CoupledField) (gcm_inputs : CouplingContract) :
    CouplingContract :=
  fields.foldl (fun c f => c.add f) gcm_inputs

/-- The loop `for (ii = ...) ice_output_vt.set(ii->name, ii->name, "unit", 1.0)`. -/
def copyRecipes (fields : List CoupledField) (vt : VarTransformer) : VarTransformer :=
  fields.foldl (fun v f => v.set f.name f.name "unit" 1) vt

/-- The function `IceModel_PISM::setup_contract_modele`.  The contracts
`contract[INPUT]` and `contract[OUTPUT]` of the ice model as they are on
entry, the coupler's contracts `gcm_outputs` and `ice_input_scalars`, and the
constant `C2K` come from outside. -/
def setup_contract_modele (coupling_type : ModelE_CouplingType)
    (contract_input contract_output gcm_outputs ice_input_scalars : CouplingContract)
    (C2K : ℚ) : ContractSetup :=
  let ice_input1 := (contract_input.add_cfname
      "land_ice_surface_specific_mass_balance_flux" "kg m-2 s-1").add_cfname
      "surface_downward_latent_heat_flux" "W m-2"
  let ice_input :=
    match coupling_type with
    | ModelE_CouplingType.DIRICHLET_BC => ice_input1.add_cfname "surface_temperature" "K"
    | ModelE_CouplingType.NEUMANN_BC =>
      ice_input1.add_cfname "surface_downward_sensible_heat_flux" "W m-2"
  let ice_input_vt :=
    ((((VarTransformer.set_names gcm_outputs ice_input ice_input_scalars).set
      "land_ice_surface_specific_mass_balance_flux" "smb" "by_dt" 1).set
      "surface_downward_latent_heat_flux" "seb" "by_dt" 1).set
      "surface_temperature" "tg2" "unit" 1).set
      "surface_temperature" "unit" "unit" C2K
  let ice_output :=
    (((((contract_output.add_field "upward_geothermal_flux_sum" "J m-2" "").add_field
      "geothermal_flux_sum" "J m-2" "").add_field
      "basal_frictional_heating_sum" "J m-2" "").add_field
      "strain_heating_sum" "J m-2" "").add_field
      "total_enthalpy" "J m-2" "").add_field "unit" "" ""
  let gcm_inputs := copyFields ice_output.fields new_CouplingContract
  let ice_output_scalars := new_CouplingContract.add_field "unit" "" ""
  let ice_output_vt :=
    copyRecipes ice_output.fields
      (VarTransformer.set_names ice_output gcm_inputs ice_output_scalars)
  { ice_input := ice_input, ice_input_vt := ice_input_vt, ice_output := ice_output,
    gcm_inputs := gcm_inputs, ice_output_scalars := ice_output_scalars,
    ice_output_vt := ice_output_vt }

/-! ## Topography on the model grid: `callZ` -/

/-- The grid constants `IM`, `JM` (model grid) and `IM2`, `JM2` (2-minute
grid).  They are set in the header `z1qx1n_bs1.hpp`, which is not part of the
sources at hand, and come in from outside. -/
structure ZConsts where
  IM : Nat
  JM : Nat
  IM2 : Nat
  JM2 : Nat
deriving DecidableEq, Repr

/-- The arrays `callZ` reads, indexed from 1 as `A(I,J)`, and the area
`g2mx2m.dxyp(J2)` of a 2-minute cell of row `J2`.  `ZSOLDG` holds the values
filled in before the call. -/
structure ZArrays where
  FOCEN2 : Nat → Nat → ℚ
  ZSOLD2 : Nat → Nat → ℚ
  ZSOLG2 : Nat → Nat → ℚ
  FOCEAN : Nat → Nat → ℚ
  FLAKE : Nat → Nat → ℚ
  FGRND : Nat → Nat → ℚ
  ZSOLDG : Nat → Nat → ℚ
  dxyp : Nat → ℚ

/-- First 2-minute row of model row `J`: `J21 = (J-1)*JM2/JM + 1`. -/
def ZConsts.J21 (k : ZConsts) (J : Nat) : Nat := (J - 1) * k.JM2 / k.JM + 1

/-- Last 2-minute row of model row `J`: `J2M = J*JM2/JM`. -/
def ZConsts.J2M (k : ZConsts) (J : Nat) : Nat := J * k.JM2 / k.JM

/-- Number of cells of model row `J`: `IMAX = (J==1 || J==JM ? 1 : IM)`. -/
def ZConsts.IMAX (k : ZConsts) (J : Nat) : Nat := if J = 1 ∨ J = k.JM then 1 else k.IM

/-- First 2-minute column of model column `I`: `I21 = (I-1)*IM2/IM + 1`. -/
def ZConsts.I21 (k : ZConsts) (I : Nat) : Nat := (I - 1) * k.IM2 / k.IM + 1

/-- Last 2-minute column of cell `(I,J)`: `I2M = (IMAX == 1 ? IM2 : I*IM2/IM)`. -/
def ZConsts.I2M (k : ZConsts) (I J : Nat) : Nat :=
  if k.IMAX J = 1 then k.IM2 else I * k.IM2 / k.IM

/-- The 2-minute cells `(I2, J2)` the two nested loops of `callZ` go through
for model cell `(I,J)`, in order: `for (J2=J21; J2 <= J2M; ++J2)` and inside
it `for (I2=J21; I2 <= I2M; ++I2)`.  The column loop starts at `J21`. -/
def scanned (k : ZConsts) (I J : Nat) : List (Nat × Nat) :=
  (List.range' (k.J21 J) (k.J2M J + 1 - k.J21 J)).flatMap
    (fun J2 => (List.range' (k.J21 J) (k.I2M I J + 1 - k.J21 J)).map (fun I2 => (I2, J2)))

/-- The 2-minute cells inside model cell `(I,J)`: columns `I21..I2M`, rows
`J21..J2M`. -/
def insideCell (k : ZConsts) (I J : Nat) (p : Nat × Nat) : Prop :=
  k.I21 I ≤ p.1 ∧ p.1 ≤ k.I2M I J ∧ k.J21 J ≤ p.2 ∧ p.2 ≤ k.J2M J

instance (k : ZConsts) (I J : Nat) (p : Nat × Nat) : Decidable (insideCell k I J p) := by
  unfold insideCell; infer_instance

/-- One 2-minute continental cell: `struct AreaDepth`. -/
structure AreaDepth where
  area : ℚ
  depth : ℚ
deriving DecidableEq, Repr

/-- The errors a model cell can end with: the two calls of `icebin_error`,
naming the cell, an index outside `cells2`, and the fuel of a loop of the
model used up. -/
inductive ZError
  | oceanNoOcean (I J : Nat)
  | continentalNoArea (I J : Nat)
  | outOfBounds
  | outOfFuel
deriving DecidableEq, Repr

/-- The values `callZ` leaves in its seven output arrays at one model cell. -/
structure ZCell where
  ZATMO : ℚ
  dZLAKE : ℚ
  ZSOLDG : ℚ
  ZSGLO : ℚ
  ZLAKE : ℚ
  ZGRND : ℚ
  ZSGHI : ℚ
deriving DecidableEq, Repr

/-- The body of the ocean loop: `if (ZSGLO(I,J) > ZSOLD2(I2,J2) &&
FOCEN2(I2,J2) == 1.) ZSGLO(I,J) = ZSOLD2(I2,J2)`. -/
def oceanStep (a : ZArrays) (z : ℚ) (p : Nat × Nat) : ℚ :=
  if z > a.ZSOLD2 p.1 p.2 ∧ a.FOCEN2 p.1 p.2 = 1 then a.ZSOLD2 p.1 p.2 else z

/-- The ocean branch of `callZ` at cell `(I,J)`. -/
def oceanCell (k : ZConsts) (a : ZArrays) (I J : Nat) : Except ZError ZCell :=
  if (scanned k I J).foldl (oceanStep a) 999999 = 999999 then
    Except.error (ZError.oceanNoOcean I J)
  else
    Except.ok
      { ZATMO := 0, dZLAKE := 0, ZSOLDG := a.ZSOLDG I J,
        ZSGLO := (scanned k I J).foldl (oceanStep a) 999999,
        ZLAKE := 0, ZGRND := 0, ZSGHI := 0 }

/-- The body of the continental loop on the triple `(cells2, SAREA, SAZSG)`:
an ocean cell is skipped, any other cell is pushed with its area and
`ZSOLD2`, and the sums grow. -/
def gatherStep (a : ZArrays) (acc : List AreaDepth × ℚ × ℚ) (p : Nat × Nat) :
    List AreaDepth × ℚ × ℚ :=
  if a.FOCEN2 p.1 p.2 = 1 then acc
  else (acc.1 ++ [⟨a.dxyp p.2, a.ZSOLD2 p.1 p.2⟩], acc.2.1 + a.dxyp p.2,
    acc.2.2 + a.dxyp p.2 * a.ZSOLG2 p.1 p.2)

/-- The continental loop: `(cells2, SAREA, SAZSG)` after all scanned cells. -/
def gather (a : ZArrays) (cells : List (Nat × Nat)) : List AreaDepth × ℚ × ℚ :=
  cells.foldl (gatherStep a) ([], 0, 0)

/-- The call `std::sort(cells2.begin(), cells2.end())`, which orders by
`depth` (the `operator<` of `AreaDepth`); cells of equal depth may come in
any order, here in the order of an insertion sort. -/
def sortCells (cells2 : List AreaDepth) : List AreaDepth :=
  cells2.insertionSort (fun x y => x.depth ≤ y.depth)

/-- The order by depth is total. -/
instance depth_le_total : IsTotal AreaDepth (fun x y => x.depth ≤ y.depth) :=
  ⟨fun x y => le_total x.depth y.depth⟩

/-- The order by depth is transitive. -/
instance depth_le_trans : IsTrans AreaDepth (fun x y => x.depth ≤ y.depth) :=
  ⟨fun _ _ _ h1 h2 => le_trans h1 h2⟩

/-- The element `cells2[i]` for an `int` index: present when
`0 <= i < cells2.size()`. -/
def cellsAt (cells2 : List AreaDepth) (i : Int) : Option AreaDepth :=
  if 0 ≤ i then cells2[i.toNat]? else none

/-- How one of the two index loops of the continental branch ends. -/
inductive LoopEnd
  | outOfBounds
  | outOfFuel
  | done (N : Int) (ANSUM VNSUM : ℚ)
deriving DecidableEq, Repr

/-- The loop `for (NLAKE=0; ; ++NLAKE)`: at `NLAKE == cells2.size()` the index
steps back by one and the loop ends; otherwise the cell's area and volume
are added and the loop ends once `ANSUM > SAREA*FLAKE(I,J)` (the `limit`).
The loop has no bound of its own, so the model carries fuel. -/
def lakeLoop (cells2 : List AreaDepth) (limit : ℚ) : Nat → Int → ℚ → ℚ → LoopEnd
  | 0, _, _, _ => LoopEnd.outOfFuel
  | fuel + 1, NLAKE, ANSUM, VNSUM =>
    if NLAKE = (cells2.length : Int) then LoopEnd.done (NLAKE - 1) ANSUM VNSUM
    else
      match cellsAt cells2 NLAKE with
      | none => LoopEnd.outOfBounds
      | some c =>
        if ANSUM + c.area > limit then
          LoopEnd.done NLAKE (ANSUM + c.area) (VNSUM + c.area * c.depth)
        else lakeLoop cells2 limit fuel (NLAKE + 1) (ANSUM + c.area) (VNSUM + c.area * c.depth)

/-- The loop `for (NGRND=NLAKE; ; ++NGRND)`, of the same shape, with the limit
`SAREA*(FLAKE(I,J)+FGRND(I,J))`; it adds areas only. -/
def groundLoop (cells2 : List AreaDepth) (limit : ℚ) : Nat → Int → ℚ → LoopEnd
  | 0, _, _ => LoopEnd.outOfFuel
  | fuel + 1, NGRND, ANSUM =>
    if NGRND = (cells2.length : Int) then LoopEnd.done (NGRND - 1) ANSUM 0
    else
      match cellsAt cells2 NGRND with
      | none => LoopEnd.outOfBounds
      | some c =>
        if ANSUM + c.area > limit then LoopEnd.done NGRND (ANSUM + c.area) 0
        else groundLoop cells2 limit fuel (NGRND + 1) (ANSUM + c.area)

/-- What the continental branch has at its end: the sorted list, the sums,
the two indices and the values written to the output arrays. -/
structure Continental where
  cells2 : List AreaDepth
  SAREA : ℚ
  SAZSG : ℚ
  NLAKE : Int
  NGRND : Int
  out : ZCell
deriving DecidableEq, Repr

/-- The part of the continental branch after the lake loop has ended with
`NLAKE`, `ANSUM`, `VNSUM`; `c0` is `cells2[0]`. -/
def afterLake (a : ZArrays) (I J : Nat) (cells2 : List AreaDepth) (SAREA SAZSG : ℚ)
    (c0 : AreaDepth) (NLAKE : Int) (ANSUM VNSUM : ℚ) : Except ZError Continental :=
  match cellsAt cells2 NLAKE with
  | none => Except.error ZError.outOfBounds
  | some cl =>
    match groundLoop cells2 (SAREA * (a.FLAKE I J + a.FGRND I J)) (cells2.length + 1)
        NLAKE (ANSUM - cl.area) with
    | LoopEnd.outOfBounds => Except.error ZError.outOfBounds
    | LoopEnd.outOfFuel => Except.error ZError.outOfFuel
    | LoopEnd.done NGRND _ _ =>
      match cellsAt cells2 NGRND, cellsAt cells2 ((cells2.length : Int) - 1) with
      | some cg, some ch =>
        Except.ok
          { cells2 := cells2, SAREA := SAREA, SAZSG := SAZSG, NLAKE := NLAKE, NGRND := NGRND,
            out :=
              { ZATMO :=
                  ((cells2.drop (NLAKE + 1).toNat).foldl
                    (fun s c => s + c.area * c.depth) (ANSUM * cl.depth)) / SAREA
                dZLAKE :=
                  if a.FLAKE I J > 0 then
                    max (cl.depth -
                      (VNSUM - (ANSUM - SAREA * a.FLAKE I J) * cl.depth)
                        / (SAREA * a.FLAKE I J)) 1
                  else 0
                ZSOLDG := SAZSG / SAREA
                ZSGLO := c0.depth
                ZLAKE := cl.depth
                ZGRND := cg.depth
                ZSGHI := ch.depth } }
      | _, _ => Except.error ZError.outOfBounds

/-- The continental branch of `callZ` at cell `(I,J)`. -/
def continentalCell (k : ZConsts) (a : ZArrays) (I J : Nat) : Except ZError Continental :=
  if (gather a (scanned k I J)).2.1 = 0 then Except.error (ZError.continentalNoArea I J)
  else
    match cellsAt (sortCells (gather a (scanned k I J)).1) 0 with
    | none => Except.error ZError.outOfBounds
    | some c0 =>
      match lakeLoop (sortCells (gather a (scanned k I J)).1)
          ((gather a (scanned k I J)).2.1 * a.FLAKE I J)
          ((sortCells (gather a (scanned k I J)).1).length + 1) 0 0 0 with
      | LoopEnd.outOfBounds => Except.error ZError.outOfBounds
      | LoopEnd.outOfFuel => Except.error ZError.outOfFuel
      | LoopEnd.done NLAKE ANSUM VNSUM =>
        afterLake a I J (sortCells (gather a (scanned k I J)).1)
          (gather a (scanned k I J)).2.1 (gather a (scanned k I J)).2.2 c0 NLAKE ANSUM VNSUM

/-- The body of the loops of `callZ` over `J` and `I`, at cell `(I,J)`: the
ocean branch when `FOCEAN(I,J) != 0`, the continental branch otherwise. -/
def callZ_cell (k : ZConsts) (a : ZArrays) (I J : Nat) : Except ZError ZCell :=
  if a.FOCEAN I J ≠ 0 then oceanCell k a I J
  else (continentalCell k a I J).map (fun c => c.out)

/-- The model cells `callZ` goes through: rows `1..JM`, and in row `J` the
columns `1..IMAX`. -/
def visited (k : ZConsts) (I J : Nat) : Prop :=
  1 ≤ J ∧ J ≤ k.JM ∧ 1 ≤ I ∧ I ≤ k.IMAX J

instance (k : ZConsts) (I J : Nat) : Decidable (visited k I J) := by
  unfold visited; infer_instance

/-- The constants of the 1 1/4 x 1 degree model grid (288 x 180) over the
global grid of 2-minute cells (10800 x 5400): the sizes that go with the
2-minute spacing of `g2mx2m` and with the hand-set cells of `z1qx1n_bs1`,
which reach column 275 and row 171. -/
def zconsts_1qx1 : ZConsts := { IM := 288, JM := 180, IM2 := 10800, JM2 := 5400 }

/-- A small pair of grids for evaluation: a 2 x 2 model grid over a 4 x 4
grid of fine cells. -/
def zconsts_small : ZConsts := { IM := 2, JM := 2, IM2 := 4, JM2 := 4 }

/-- Arrays for evaluation, all land: no fine cell is ocean, every fine cell
has area 1 and the height `I2 + J2`; no lake and no ground fraction. -/
def zLand : ZArrays :=
  { FOCEN2 := fun _ _ => 0, ZSOLD2 := fun I2 J2 => (I2 : ℚ) + J2, ZSOLG2 := fun _ _ => 0,
    FOCEAN := fun _ _ => 0, FLAKE := fun _ _ => 0, FGRND := fun _ _ => 0,
    ZSOLDG := fun _ _ => 0, dxyp := fun _ => 1 }

/-- Arrays for evaluation, all ocean: every fine cell and every model cell is
ocean, at height 0, every fine cell with area 1. -/
def zOcean : ZArrays :=
  { FOCEN2 := fun _ _ => 1, ZSOLD2 := fun _ _ => 0, ZSOLG2 := fun _ _ => 0,
    FOCEAN := fun _ _ => 1, FLAKE := fun _ _ => 0, FGRND := fun _ _ => 0,
    ZSOLDG := fun _ _ => 0, dxyp := fun _ => 1 }

/-! ## The Antarctic correction of `z1qx1n_bs1` -/

/-- The values of the six 2-minute arrays `FOCEN2`, `FCONT2`, `FGICE2`,
`dZGIC2`, `ZSOLD2`, `ZSOLG2` at one cell. -/
structure Cell2 where
  FOCEN2 : ℚ
  FCONT2 : ℚ
  FGICE2 : ℚ
  dZGIC2 : ℚ
  ZSOLD2 : ℚ
  ZSOLG2 : ℚ
deriving DecidableEq, Repr

/-- The body of the Antarctic loop at one cell, on the values the six arrays
hold there; `zetop2` is `in.ZETOP2(I2,J2)`.  It reads and writes the arrays
at `(I2,J2)` only. -/
def antarcticBody (zetop2 : ℚ) (c : Cell2) : Cell2 :=
  if c.FOCEN2 = 0 then
    { c with
      FCONT2 := 1
      FGICE2 := 1
      ZSOLD2 := if zetop2 ≥ 100 then zetop2 else c.ZSOLD2
      ZSOLG2 := (if zetop2 ≥ 100 then zetop2 else c.ZSOLD2) - c.dZGIC2 }
  else if c.FGICE2 ≤ 1 / 2 then
    { c with FCONT2 := 0, FGICE2 := 0, dZGIC2 := 0, ZSOLD2 := zetop2, ZSOLG2 := zetop2 }
  else if c.FGICE2 > 1 / 2 then
    { FOCEN2 := 0, FCONT2 := 1, FGICE2 := 1, dZGIC2 := c.ZSOLD2 - zetop2,
      ZSOLD2 := c.ZSOLD2, ZSOLG2 := zetop2 }
  else c

/-- The six arrays with the cell `(I2,J2)` rewritten by `f`. -/
def updateAt (s : Nat → Nat → Cell2) (I2 J2 : Nat) (f : Cell2 → Cell2) : Nat → Nat → Cell2 :=
  fun i j => if i = I2 ∧ j = J2 then f (s i j) else s i j

/-- The inner loop `for (int I2=1; I2<=JM2; ++I2)` of the Antarctic area, in
row `J2`.  Its bound is `JM2`. -/
def antarcticRow (k : ZConsts) (ZETOP2 : Nat → Nat → ℚ) (J2 : Nat) (s : Nat → Nat → Cell2) :
    Nat → Nat → Cell2 :=
  (List.range' 1 k.JM2).foldl (fun s I2 => updateAt s I2 J2 (antarcticBody (ZETOP2 I2 J2))) s

/-- The loop `for (int J2=1; J2<=JM2/6; ++J2)` over the Antarctic area, 90S to
60S.  The arrays come in as they are before it: `FCONT2` was created without
initial values and was set in the rows north of the area only, so in the
area it comes in with arbitrary values. -/
def antarcticArea (k : ZConsts) (ZETOP2 : Nat → Nat → ℚ) (s : Nat → Nat → Cell2) :
    Nat → Nat → Cell2 :=
  (List.range' 1 (k.JM2 / 6)).foldl (fun s J2 => antarcticRow k ZETOP2 J2 s) s

/-- Arrays for evaluation: at every cell ETOPO2 has ocean (`FOCEN2 = 1`), the
interpolated ice fraction is 1/4 and `FCONT2` holds the stray value 7. -/
def fineShelf : Nat → Nat → Cell2 :=
  fun _ _ => { FOCEN2 := 1, FCONT2 := 7, FGICE2 := 1 / 4, dZGIC2 := 0, ZSOLD2 := 0, ZSOLG2 := 0 }

/-! ## Lemmas -/

theorem foldl_count_eq {α : Type} (P : α → Prop) [DecidablePred P] (l : List α) (init : Int) :
    l.foldl (fun acc x => if P x then acc + 1 else acc) init
      = init + ((l.filter (fun x => decide (P x))).length : Int) := by
  induction l generalizing init with
  | nil => simp
  | cons a l ih =>
    simp only [List.foldl_cons, List.filter_cons]
    by_cases h : P a
    · simp only [h, if_true, decide_True, List.length_cons]
      rw [ih]; push_cast; ring
    · simp only [h, if_false, decide_False]
      rw [ih]; simp

theorem countBlock_eq (g : Grids) (jO iO : Nat) (nice : Int) :
    countBlock g jO iO nice
      = nice + ((((List.range' (jO * g.mult_j) g.mult_j).flatMap
        (fun jI => (List.range' (iO * g.mult_i) g.mult_i).map (fun iI => (jI, iI)))).filter
        (fun f => decide (g.fgiceI f.1 f.2 ≠ 0))).length : Int) := by
  unfold countBlock
  generalize List.range' (jO * g.mult_j) g.mult_j = rows
  generalize List.range' (iO * g.mult_i) g.mult_i = cols
  induction rows generalizing nice with
  | nil => simp
  | cons a rows ih =>
    rw [List.foldl_cons, List.flatMap_cons, List.filter_append, List.length_append]
    rw [ih, foldl_count_eq (fun iI => g.fgiceI a iI ≠ 0)]
    simp only [List.filter_map, List.length_map]
    push_cast
    have : (List.filter ((fun f => decide (g.fgiceI f.1 f.2 ≠ 0)) ∘ fun iI => (a, iI)) cols)
        = List.filter (fun x => decide (g.fgiceI a x ≠ 0)) cols := rfl
    rw [this]; ring

theorem countBlock_cellIce (g : Grids) (jO iO : Nat) (nice : Int) (h : g.fgiceO jO iO ≠ 0) :
    countBlock g jO iO nice = nice + cellIce g (jO, iO) := by
  rw [countBlock_eq]; simp [cellIce, h]

theorem cellIce_zero (g : Grids) (jO iO : Nat) (h : ¬ g.fgiceO jO iO ≠ 0) :
    cellIce g (jO, iO) = 0 := by
  simp [cellIce, h]

theorem div_mod_pos (im j i : Nat) (h : i < im) :
    (j * im + i) / im = j ∧ (j * im + i) % im = i := by
  have him : 0 < im := by omega
  constructor
  · rw [Nat.add_comm, Nat.add_mul_div_right _ _ him, Nat.div_eq_of_lt h]; simp
  · rw [Nat.add_comm, Nat.add_mul_mod_self_right, Nat.mod_eq_of_lt h]

theorem scanRow_pos (g : Grids) (thr : Int) (jO : Nat) :
    ∀ (k iO : Nat) (nice : Int), iO + k ≤ g.im →
      scanPos g thr k (jO * g.im + iO) nice
        = (jO * g.im + (scanRow g thr jO k iO nice).1,
            (scanRow g thr jO k iO nice).2.1, (scanRow g thr jO k iO nice).2.2) := by
  intro k
  induction k with
  | zero => intro iO nice _; simp [scanPos, scanRow]
  | succ k ih =>
    intro iO nice h
    obtain ⟨hd, hm⟩ := div_mod_pos g.im jO iO (by omega)
    have ih1 := fun nice => ih (iO + 1) nice (by omega)
    simp only [scanPos, scanRow, hd, hm]
    by_cases h1 : g.fgiceO jO iO ≠ 0
    · simp only [if_pos h1]
      by_cases h2 : countBlock g jO iO nice ≥ thr
      · simp only [if_pos h2]
      · simp only [if_neg h2]
        rw [← ih1]; rfl
    · simp only [if_neg h1]
      rw [← ih1]; rfl

theorem scanRow_exit (g : Grids) (thr : Int) (jO : Nat) :
    ∀ (k iO : Nat) (nice : Int),
      ((scanRow g thr jO k iO nice).2.2 = true → (scanRow g thr jO k iO nice).1 < iO + k) ∧
      ((scanRow g thr jO k iO nice).2.2 = false → (scanRow g thr jO k iO nice).1 = iO + k) := by
  intro k
  induction k with
  | zero => intro iO nice; simp [scanRow]
  | succ k ih =>
    intro iO nice
    simp only [scanRow]
    by_cases h1 : g.fgiceO jO iO ≠ 0
    · simp only [if_pos h1]
      by_cases h2 : countBlock g jO iO nice ≥ thr
      · simp only [if_pos h2]; simp
      · simp only [if_neg h2]
        have := ih (iO + 1) (countBlock g jO iO nice)
        constructor
        · intro hb; have := this.1 hb; omega
        · intro hb; have := this.2 hb; omega
    · simp only [if_neg h1]
      have := ih (iO + 1) nice
      constructor
      · intro hb; have := this.1 hb; omega
      · intro hb; have := this.2 hb; omega

theorem sumIce_zero (g : Grids) (p : Nat) : sumIce g p 0 = 0 := by
  simp [sumIce]

theorem sumIce_succ (g : Grids) (p n : Nat) :
    sumIce g p (n + 1) = cellIce g (cellAt g.im p) + sumIce g (p + 1) n := by
  simp [sumIce, List.range'_succ]

theorem runCount_eq (g : Grids) (p0 p : Nat) : runCount g p0 p = sumIce g p0 (p + 1 - p0) := rfl

theorem scanPos_succ (g : Grids) (thr : Int) (n p : Nat) (nice : Int) :
    scanPos g thr (n + 1) p nice =
      if g.fgiceO (p / g.im) (p % g.im) ≠ 0 ∧ thr ≤ nice + cellIce g (cellAt g.im p) then
        (p, nice + cellIce g (cellAt g.im p), true)
      else scanPos g thr n (p + 1) (nice + cellIce g (cellAt g.im p)) := by
  simp only [scanPos]
  by_cases h1 : g.fgiceO (p / g.im) (p % g.im) ≠ 0
  · have hc := countBlock_cellIce g (p / g.im) (p % g.im) nice h1
    simp only [if_pos h1, hc, cellAt, ge_iff_le, and_iff_right h1]
  · have hz := cellIce_zero g (p / g.im) (p % g.im) h1
    simp only [if_neg h1, cellAt, hz, add_zero, h1, false_and, if_false]

theorem scanPos_spec (g : Grids) (thr : Int) :
    ∀ (n p : Nat) (nice : Int),
      ((scanPos g thr n p nice).2.2 = true →
        p ≤ (scanPos g thr n p nice).1 ∧ (scanPos g thr n p nice).1 < p + n ∧
        (scanPos g thr n p nice).2.1
          = nice + sumIce g p ((scanPos g thr n p nice).1 + 1 - p) ∧
        thr ≤ (scanPos g thr n p nice).2.1) ∧
      ((scanPos g thr n p nice).2.2 = false →
        (scanPos g thr n p nice).1 = p + n ∧
        (scanPos g thr n p nice).2.1 = nice + sumIce g p n) ∧
      (nice < thr → ∀ q, p ≤ q → q < (scanPos g thr n p nice).1 →
        nice + sumIce g p (q + 1 - p) < thr) := by
  intro n
  induction n with
  | zero =>
    intro p nice
    simp only [scanPos, sumIce_zero]
    refine ⟨by simp, by simp, ?_⟩
    intro _ q h1 h2; omega
  | succ n ih =>
    intro p nice
    rw [scanPos_succ]
    by_cases hc : g.fgiceO (p / g.im) (p % g.im) ≠ 0 ∧ thr ≤ nice + cellIce g (cellAt g.im p)
    · rw [if_pos hc]
      refine ⟨fun _ => ⟨le_refl _, by omega, ?_, hc.2⟩, by simp, ?_⟩
      · have : p + 1 - p = 0 + 1 := by omega
        rw [this, sumIce_succ, sumIce_zero]; simp
      · intro _ q h1 h2; simp at h2; omega
    · rw [if_neg hc]
      obtain ⟨ihT, ihF, ihLt⟩ := ih (p + 1) (nice + cellIce g (cellAt g.im p))
      refine ⟨?_, ?_, ?_⟩
      · intro hb
        obtain ⟨a1, a2, a3, a4⟩ := ihT hb
        refine ⟨by omega, by omega, ?_, a4⟩
        rw [a3]
        have : (scanPos g thr n (p + 1) (nice + cellIce g (cellAt g.im p))).1 + 1 - p
            = ((scanPos g thr n (p + 1) (nice + cellIce g (cellAt g.im p))).1 + 1 - (p + 1)) + 1 := by
          omega
        rw [this, sumIce_succ]; ring
      · intro hb
        obtain ⟨a1, a2⟩ := ihF hb
        refine ⟨by omega, ?_⟩
        rw [a2, sumIce_succ]; ring
      · intro hlt q h1 h2
        have hlt2 : nice + cellIce g (cellAt g.im p) < thr := by
          by_cases h0 : g.fgiceO (p / g.im) (p % g.im) ≠ 0
          · have : ¬ thr ≤ nice + cellIce g (cellAt g.im p) := fun h => hc ⟨h0, h⟩
            omega
          · have := cellIce_zero g (p / g.im) (p % g.im) h0
            simp only [cellAt]; omega
        by_cases hq : q = p
        · subst hq
          have : q + 1 - q = 0 + 1 := by omega
          rw [this, sumIce_succ, sumIce_zero]; simpa using hlt2
        · have := ihLt hlt2 q (by omega) h2
          have e : q + 1 - p = (q + 1 - (p + 1)) + 1 := by omega
          rw [e, sumIce_succ]; linarith

theorem scanPos_append (g : Grids) (thr : Int) :
    ∀ (a b p : Nat) (nice : Int),
      scanPos g thr (a + b) p nice =
        if (scanPos g thr a p nice).2.2 = true then scanPos g thr a p nice
        else scanPos g thr b (p + a) (scanPos g thr a p nice).2.1 := by
  intro a
  induction a with
  | zero => intro b p nice; simp [scanPos]
  | succ a ih =>
    intro b p nice
    have e : a + 1 + b = (a + b) + 1 := by omega
    rw [e, scanPos_succ, scanPos_succ]
    by_cases hc : g.fgiceO (p / g.im) (p % g.im) ≠ 0 ∧ thr ≤ nice + cellIce g (cellAt g.im p)
    · simp only [if_pos hc, if_true]
    · simp only [if_neg hc]
      rw [ih]
      have : p + 1 + a = p + (a + 1) := by omega
      rw [this]

theorem scanRows_succ (g : Grids) (thr : Int) (k jO iO : Nat) (nice : Int) :
    scanRows g thr (k + 1) jO iO nice =
      if (scanRow g thr jO (g.im - iO) iO nice).2.2 = true then
        (jO, (scanRow g thr jO (g.im - iO) iO nice).1,
          (scanRow g thr jO (g.im - iO) iO nice).2.1, true)
      else scanRows g thr k (jO + 1) 0 (scanRow g thr jO (g.im - iO) iO nice).2.1 := by
  simp only [scanRows]
  rcases scanRow g thr jO (g.im - iO) iO nice with ⟨a, b, c⟩
  cases c <;> simp

theorem scanRows_exit (g : Grids) (thr : Int) :
    ∀ (k jO iO : Nat) (nice : Int), iO ≤ g.im →
      ((scanRows g thr k jO iO nice).2.2.2 = true →
        (scanRows g thr k jO iO nice).1 < jO + k ∧ (scanRows g thr k jO iO nice).2.1 < g.im) ∧
      ((scanRows g thr k jO iO nice).2.2.2 = false →
        (scanRows g thr k jO iO nice).1 = jO + k ∧
        (0 < k → (scanRows g thr k jO iO nice).2.1 = 0)) := by
  intro k
  induction k with
  | zero => intro jO iO nice _; simp [scanRows]
  | succ k ih =>
    intro jO iO nice hi
    rw [scanRows_succ]
    obtain ⟨eT, eF⟩ := scanRow_exit g thr jO (g.im - iO) iO nice
    by_cases hb : (scanRow g thr jO (g.im - iO) iO nice).2.2 = true
    · rw [if_pos hb]
      have := eT hb
      refine ⟨fun _ => ⟨by omega, by simp only; omega⟩, by simp⟩
    · rw [if_neg hb]
      obtain ⟨iT, iF⟩ := ih (jO + 1) 0 (scanRow g thr jO (g.im - iO) iO nice).2.1 (Nat.zero_le _)
      refine ⟨fun h => ⟨by have := (iT h).1; omega, (iT h).2⟩, fun h => ⟨by have := (iF h).1; omega, fun _ => ?_⟩⟩
      rcases Nat.eq_zero_or_pos k with hk | hk
      · subst hk; simp [scanRows]
      · exact (iF h).2 hk

theorem scanRows_pos (g : Grids) (thr : Int) :
    ∀ (k jO iO : Nat) (nice : Int), iO ≤ g.im →
      scanPos g thr (k * g.im - iO) (pos g.im jO iO) nice
        = (pos g.im (scanRows g thr k jO iO nice).1 (scanRows g thr k jO iO nice).2.1,
            (scanRows g thr k jO iO nice).2.2.1, (scanRows g thr k jO iO nice).2.2.2) := by
  intro k
  induction k with
  | zero => intro jO iO nice _; simp [scanPos, scanRows]
  | succ k ih =>
    intro jO iO nice hi
    have e : (k + 1) * g.im - iO = (g.im - iO) + k * g.im := by
      rw [Nat.add_mul, Nat.one_mul]; omega
    rw [e, scanPos_append, scanRows_succ]
    have hrow := scanRow_pos g thr jO (g.im - iO) iO nice (by omega)
    simp only [pos] at *
    rw [hrow]
    by_cases hb : (scanRow g thr jO (g.im - iO) iO nice).2.2 = true
    · simp only [if_pos hb]; rw [hb]
    · simp only [if_neg hb]
      have := ih (jO + 1) 0 (scanRow g thr jO (g.im - iO) iO nice).2.1 (Nat.zero_le _)
      simp only [Nat.sub_zero, Nat.add_zero] at this
      rw [← this]
      congr 1
      rw [Nat.add_mul, Nat.one_mul]; omega

theorem planLoop_succ (g : Grids) (thr : Int) (fuel n jO iO : Nat) :
    planLoop g thr (fuel + 1) n jO iO =
      if jO < g.jm ∧ iO < g.im then
        (planLoop g thr fuel (n + 1) (scanRows g thr (g.jm - jO) jO iO 0).1
            (scanRows g thr (g.jm - jO) jO iO 0).2.1).map
          (fun rest => ⟨n, jO, iO, (scanRows g thr (g.jm - jO) jO iO 0).1,
            (scanRows g thr (g.jm - jO) jO iO 0).2.1⟩ :: rest)
      else some [] := by
  simp only [planLoop]

/-- One pass of the chunk loop body, seen on row-major positions. -/
theorem scan_step (g : Grids) (thr : Int) (jO iO : Nat) (h : jO < g.jm ∧ iO < g.im) :
    scanPos g thr (g.jm * g.im - pos g.im jO iO) (pos g.im jO iO) 0
        = (pos g.im (scanRows g thr (g.jm - jO) jO iO 0).1 (scanRows g thr (g.jm - jO) jO iO 0).2.1,
            (scanRows g thr (g.jm - jO) jO iO 0).2.2.1,
            (scanRows g thr (g.jm - jO) jO iO 0).2.2.2) ∧
    ((scanRows g thr (g.jm - jO) jO iO 0).2.2.2 = true →
      (scanRows g thr (g.jm - jO) jO iO 0).1 < g.jm ∧
      (scanRows g thr (g.jm - jO) jO iO 0).2.1 < g.im) ∧
    ((scanRows g thr (g.jm - jO) jO iO 0).2.2.2 = false →
      (scanRows g thr (g.jm - jO) jO iO 0).1 = g.jm ∧
      (scanRows g thr (g.jm - jO) jO iO 0).2.1 = 0) := by
  have hp := scanRows_pos g thr (g.jm - jO) jO iO 0 (by omega)
  have he := scanRows_exit g thr (g.jm - jO) jO iO 0 (by omega)
  have e : (g.jm - jO) * g.im - iO = g.jm * g.im - pos g.im jO iO := by
    rw [Nat.sub_mul]; simp only [pos]; omega
  rw [e] at hp
  refine ⟨hp, fun hb => ⟨by have := (he.1 hb).1; omega, (he.1 hb).2⟩, fun hb => ⟨by have := (he.2 hb).1; omega, (he.2 hb).2 (by omega)⟩⟩

theorem pos_lt_total (jm im j i : Nat) (hj : j < jm) (hi : i < im) : pos im j i < jm * im := by
  have : (j + 1) * im ≤ jm * im := Nat.mul_le_mul_right im hj
  rw [Nat.add_mul, Nat.one_mul] at this
  simp only [pos]; omega

theorem planLoop_cover (g : Grids) (thr : Int) :
    ∀ (fuel n jO iO : Nat) (chunks : List Chunk),
      planLoop g thr fuel n jO iO = some chunks →
      (¬ (jO < g.jm ∧ iO < g.im) → chunks = []) ∧
      ((jO < g.jm ∧ iO < g.im) →
        (chunks.map (coveredExcl g.im)).flatten
          = (List.range' (pos g.im jO iO) (g.jm * g.im - pos g.im jO iO)).map (cellAt g.im)) := by
  intro fuel
  induction fuel with
  | zero => intro n jO iO chunks h; simp [planLoop] at h
  | succ fuel ih =>
    intro n jO iO chunks h
    rw [planLoop_succ] at h
    by_cases hc : jO < g.jm ∧ iO < g.im
    · rw [if_pos hc] at h
      obtain ⟨rest, hrest, rfl⟩ := Option.map_eq_some'.1 h
      refine ⟨fun hn => absurd hc hn, fun _ => ?_⟩
      obtain ⟨hp, hT, hF⟩ := scan_step g thr jO iO hc
      obtain ⟨sT, sF, -⟩ := scanPos_spec g thr (g.jm * g.im - pos g.im jO iO) (pos g.im jO iO) 0
      rw [hp] at sT sF
      obtain ⟨ihN, ihC⟩ := ih _ _ _ _ hrest
      have htot := pos_lt_total g.jm g.im jO iO hc.1 hc.2
      simp only [List.map_cons, List.flatten_cons, coveredExcl]
      by_cases hb : (scanRows g thr (g.jm - jO) jO iO 0).2.2.2 = true
      · obtain ⟨a1, a2, -, -⟩ := sT hb
        rw [ihC (hT hb), ← List.map_append]
        congr 1
        have := List.range'_append (pos g.im jO iO)
          (pos g.im (scanRows g thr (g.jm - jO) jO iO 0).1 (scanRows g thr (g.jm - jO) jO iO 0).2.1
            - pos g.im jO iO)
          (g.jm * g.im
            - pos g.im (scanRows g thr (g.jm - jO) jO iO 0).1 (scanRows g thr (g.jm - jO) jO iO 0).2.1) 1
        simp only [Nat.one_mul] at this
        rw [← Nat.add_sub_assoc a1, Nat.add_sub_cancel_left] at this
        rw [this]
        congr 1
        omega
      · have hb2 : (scanRows g thr (g.jm - jO) jO iO 0).2.2.2 = false := by
          simpa using hb
        obtain ⟨e1, e2⟩ := hF hb2
        have hrest0 : rest = [] := ihN (by rw [e1]; omega)
        subst hrest0
        simp only [List.map_nil, List.flatten_nil, List.append_nil]
        rw [e1, e2]
        simp [pos]
    · rw [if_neg hc] at h
      have : chunks = [] := by simpa using h.symm
      exact ⟨fun _ => this, fun hh => absurd hh hc⟩

theorem scanOrder_eq (jm im : Nat) :
    scanOrder jm im = (List.range (jm * im)).map (cellAt im) := by
  induction jm with
  | zero => simp [scanOrder]
  | succ jm ih =>
    have e : (jm + 1) * im = jm * im + im := by rw [Nat.add_mul, Nat.one_mul]
    unfold scanOrder at ih ⊢
    rw [List.range_succ, List.flatMap_append, ih, e, List.range_add, List.map_append]
    congr 1
    simp only [List.flatMap_cons, List.flatMap_nil, List.append_nil, List.map_map]
    apply List.map_congr_left
    intro i hi
    have hi2 : i < im := List.mem_range.1 hi
    have := div_mod_pos im jm i hi2
    simp only [Function.comp, cellAt, this.1, this.2]

theorem cellAt_pos (im j i : Nat) (h : i < im) : cellAt im (pos im j i) = (j, i) := by
  have := div_mod_pos im j i h
  simp only [cellAt, pos, this.1, this.2]

theorem scanOrder_nodup (jm im : Nat) : (scanOrder jm im).Nodup := by
  rw [scanOrder_eq]
  apply List.Nodup.map_on _ (List.nodup_range _)
  intro x _ y _ hxy
  simp only [cellAt, Prod.mk.injEq] at hxy
  have hx := Nat.div_add_mod x im
  have hy := Nat.div_add_mod y im
  rw [hxy.1, hxy.2] at hx
  omega

theorem mem_scanOrder (jm im j i : Nat) : (j, i) ∈ scanOrder jm im ↔ j < jm ∧ i < im := by
  simp only [scanOrder, List.mem_flatMap, List.mem_range, List.mem_map, Prod.mk.injEq]
  constructor
  · rintro ⟨a, ha, b, hb, rfl, rfl⟩; exact ⟨ha, hb⟩
  · rintro ⟨hj, hi⟩; exact ⟨j, hj, i, hi, rfl, rfl⟩

theorem scanOrder_empty (jm im : Nat) (h : ¬ (0 < jm ∧ 0 < im)) : scanOrder jm im = [] := by
  rw [scanOrder_eq]
  have : jm * im = 0 := by
    rcases Nat.eq_zero_or_pos jm with h1 | h1
    · simp [h1]
    · rcases Nat.eq_zero_or_pos im with h2 | h2
      · simp [h2]
      · exact absurd ⟨h1, h2⟩ h
  simp [this]

theorem planChunks_cover (g : Grids) (thr : Int) (fuel : Nat) (chunks : List Chunk)
    (h : planChunks g thr fuel = some chunks) :
    (chunks.map (coveredExcl g.im)).flatten = scanOrder g.jm g.im := by
  obtain ⟨hN, hC⟩ := planLoop_cover g thr fuel 0 0 0 chunks h
  by_cases hc : 0 < g.jm ∧ 0 < g.im
  · rw [hC hc, scanOrder_eq]
    simp [pos, List.range_eq_range']
  · rw [hN hc, scanOrder_empty _ _ hc]; rfl

theorem planLoop_crossing (g : Grids) (thr : Int) (hthr : 1 ≤ thr) :
    ∀ (fuel n jO iO : Nat) (chunks : List Chunk),
      planLoop g thr fuel n jO iO = some chunks →
      ∀ c ∈ chunks.dropLast, Crossing g thr c := by
  intro fuel
  induction fuel with
  | zero => intro n jO iO chunks h; simp [planLoop] at h
  | succ fuel ih =>
    intro n jO iO chunks h
    rw [planLoop_succ] at h
    by_cases hc : jO < g.jm ∧ iO < g.im
    · rw [if_pos hc] at h
      obtain ⟨rest, hrest, rfl⟩ := Option.map_eq_some'.1 h
      obtain ⟨hp, hT, hF⟩ := scan_step g thr jO iO hc
      obtain ⟨sT, -, sLt⟩ := scanPos_spec g thr (g.jm * g.im - pos g.im jO iO) (pos g.im jO iO) 0
      rw [hp] at sT sLt
      obtain ⟨ihN, -⟩ := planLoop_cover g thr _ _ _ _ _ hrest
      intro c hcm
      cases rest with
      | nil => simp at hcm
      | cons r rest =>
        rw [List.dropLast_cons₂, List.mem_cons] at hcm
        rcases hcm with rfl | hcm
        · have hb : (scanRows g thr (g.jm - jO) jO iO 0).2.2.2 = true := by
            by_contra hb
            have hb2 : (scanRows g thr (g.jm - jO) jO iO 0).2.2.2 = false := by simpa using hb
            obtain ⟨e1, -⟩ := hF hb2
            have := ihN (by rw [e1]; omega)
            simp at this
          obtain ⟨a1, -, a3, a4⟩ := sT hb
          refine ⟨(hT hb).1, (hT hb).2, a1, ?_, ?_⟩
          · simp only [runCount_eq]
            simp only [zero_add] at a3
            rw [← a3]; exact a4
          · intro q h1 h2
            have := sLt (by omega) q h1 h2
            simpa [runCount_eq] using this
        · exact ih _ _ _ _ hrest c hcm
    · rw [if_neg hc] at h
      have : chunks = [] := by simpa using h.symm
      subst this
      intro c hcm; simp at hcm

theorem planLoop_g11 : ∀ (fuel n : Nat), planLoop g11 1 fuel n 0 0 = none := by
  intro fuel
  induction fuel with
  | zero => intro n; rfl
  | succ fuel ih =>
    intro n
    rw [planLoop_succ]
    have hs : scanRows g11 1 (g11.jm - 0) 0 0 0 = (0, 0, 1, true) := by decide
    have hc : 0 < g11.jm ∧ 0 < g11.im := by decide
    rw [if_pos hc, hs]
    simp only []
    rw [ih]; rfl

theorem fillCols_apply (g : Grids) (jI : Nat) (cols : List Nat) (m : Mask) (j i : Nat) :
    (cols.foldl (fun acc2 iI =>
        if g.fgiceI jI iI ≠ 0 then setMask acc2 jI iI (g.elevI jI iI) else acc2) m) j i
      = if j = jI ∧ i ∈ cols ∧ g.fgiceI j i ≠ 0 then some (g.elevI j i) else m j i := by
  induction cols generalizing m with
  | nil => simp
  | cons a cols ih =>
    rw [List.foldl_cons, ih]
    by_cases h1 : j = jI ∧ i ∈ cols ∧ g.fgiceI j i ≠ 0
    · rw [if_pos h1, if_pos ⟨h1.1, List.mem_cons_of_mem _ h1.2.1, h1.2.2⟩]
    · rw [if_neg h1]
      by_cases h2 : g.fgiceI jI a ≠ 0
      · rw [if_pos h2]
        simp only [setMask]
        by_cases h3 : j = jI ∧ i = a
        · obtain ⟨rfl, rfl⟩ := h3
          rw [if_pos ⟨rfl, rfl⟩, if_pos ⟨rfl, List.mem_cons_self _ _, h2⟩]
        · rw [if_neg h3]
          have : ¬ (j = jI ∧ i ∈ a :: cols ∧ g.fgiceI j i ≠ 0) := by
            rintro ⟨e1, e2, e3⟩
            rcases List.mem_cons.1 e2 with e | e
            · exact h3 ⟨e1, e⟩
            · exact h1 ⟨e1, e, e3⟩
          rw [if_neg this]
      · rw [if_neg h2]
        have : ¬ (j = jI ∧ i ∈ a :: cols ∧ g.fgiceI j i ≠ 0) := by
          rintro ⟨e1, e2, e3⟩
          rcases List.mem_cons.1 e2 with e | e
          · subst e1; subst e; exact h2 e3
          · exact h1 ⟨e1, e, e3⟩
        rw [if_neg this]

theorem fillRows_apply (g : Grids) (rows cols : List Nat) (m : Mask) (j i : Nat) :
    (rows.foldl (fun acc jI =>
        cols.foldl (fun acc2 iI =>
          if g.fgiceI jI iI ≠ 0 then setMask acc2 jI iI (g.elevI jI iI) else acc2) acc) m) j i
      = if j ∈ rows ∧ i ∈ cols ∧ g.fgiceI j i ≠ 0 then some (g.elevI j i) else m j i := by
  induction rows generalizing m with
  | nil => simp
  | cons a rows ih =>
    rw [List.foldl_cons, ih, fillCols_apply]
    by_cases h1 : j ∈ rows ∧ i ∈ cols ∧ g.fgiceI j i ≠ 0
    · rw [if_pos h1, if_pos ⟨List.mem_cons_of_mem _ h1.1, h1.2⟩]
    · rw [if_neg h1]
      by_cases h2 : j = a ∧ i ∈ cols ∧ g.fgiceI j i ≠ 0
      · rw [if_pos h2, if_pos ⟨by rw [h2.1]; exact List.mem_cons_self _ _, h2.2⟩]
      · rw [if_neg h2]
        have : ¬ (j ∈ a :: rows ∧ i ∈ cols ∧ g.fgiceI j i ≠ 0) := by
          rintro ⟨e1, e2⟩
          rcases List.mem_cons.1 e1 with e | e
          · exact h2 ⟨e, e2⟩
          · exact h1 ⟨e, e2⟩
        rw [if_neg this]

theorem fillBlock_apply (g : Grids) (jO iO : Nat) (m : Mask) (j i : Nat) :
    fillBlock g jO iO m j i
      = if (jO * g.mult_j ≤ j ∧ j < jO * g.mult_j + g.mult_j) ∧
            (iO * g.mult_i ≤ i ∧ i < iO * g.mult_i + g.mult_i) ∧ g.fgiceI j i ≠ 0
        then some (g.elevI j i) else m j i := by
  unfold fillBlock
  rw [fillRows_apply]
  simp only [List.mem_range'_1]

theorem block_div (mult x O : Nat) (h1 : O * mult ≤ x) (h2 : x < O * mult + mult) :
    x / mult = O := by
  have := (div_mod_pos mult O (x - O * mult) (by omega)).1
  rwa [Nat.add_sub_cancel' h1] at this

theorem fillBlock_ok (g : Grids) (c : Chunk) (jO iO : Nat) (m : Mask) (hm : MaskOK g c m)
    (h1 : rmLe (c.j0, c.i0) (jO, iO)) (h2 : jO < c.j1) (h3 : g.fgiceO jO iO ≠ 0) :
    MaskOK g c (fillBlock g jO iO m) := by
  intro jI iI hne
  rw [fillBlock_apply] at hne ⊢
  by_cases hb : (jO * g.mult_j ≤ jI ∧ jI < jO * g.mult_j + g.mult_j) ∧
      (iO * g.mult_i ≤ iI ∧ iI < iO * g.mult_i + g.mult_i) ∧ g.fgiceI jI iI ≠ 0
  · rw [if_pos hb]
    have ej := block_div g.mult_j jI jO hb.1.1 hb.1.2
    have ei := block_div g.mult_i iI iO hb.2.1.1 hb.2.1.2
    refine ⟨⟨⟨?_, ?_, ?_, hb.2.2⟩, ?_⟩, rfl⟩
    · rw [ej, ei]; exact h1
    · rw [ej, ei]; exact Or.inl h2
    · rw [ej, ei]; exact h3
    · rw [ej]; exact h2
  · rw [if_neg hb] at hne ⊢
    exact hm jI iI hne

theorem execRow_ok (g : Grids) (c : Chunk) (ijO1 jO : Nat) (h2 : jO < c.j1) :
    ∀ (k iO ijO : Nat) (m : Mask), MaskOK g c m → rmLe (c.j0, c.i0) (jO, iO) →
      MaskOK g c (execRow g ijO1 jO k iO ijO m).1 := by
  intro k
  induction k with
  | zero => intro iO ijO m hm _; simpa [execRow] using hm
  | succ k ih =>
    intro iO ijO m hm h1
    simp only [execRow]
    by_cases hx : ijO ≥ ijO1
    · rw [if_pos hx]; exact hm
    · rw [if_neg hx]
      apply ih
      · by_cases h3 : g.fgiceO jO iO ≠ 0
        · rw [if_pos h3]; exact fillBlock_ok g c jO iO m hm h1 h2 h3
        · rw [if_neg h3]; exact hm
      · simp only [rmLe] at h1 ⊢
        omega

theorem execRows_ok (g : Grids) (c : Chunk) (ijO1 : Nat) :
    ∀ (k jO iO ijO : Nat) (m : Mask), MaskOK g c m → rmLe (c.j0, c.i0) (jO, iO) →
      jO + k ≤ c.j1 → MaskOK g c (execRows g ijO1 k jO iO ijO m) := by
  intro k
  induction k with
  | zero => intro jO iO ijO m hm _ _; simpa [execRows] using hm
  | succ k ih =>
    intro jO iO ijO m hm h1 h2
    have hrow := execRow_ok g c ijO1 jO (by omega) (g.im - iO) iO ijO m hm h1
    simp only [execRows]
    rcases hr : execRow g ijO1 jO (g.im - iO) iO ijO m with ⟨m1, ijO2, b⟩
    rw [hr] at hrow
    cases b with
    | true => exact hrow
    | false =>
      apply ih _ _ _ _ hrow
      · simp only [rmLe] at h1 ⊢
        omega
      · omega

theorem chunkMask_ok (g : Grids) (c : Chunk) : MaskOK g c (chunkMask g c) := by
  unfold chunkMask
  by_cases h : c.j0 ≤ c.j1
  · apply execRows_ok
    · intro jI iI hne; exact absurd rfl hne
    · exact Or.inr ⟨rfl, le_refl _⟩
    · omega
  · have : c.j1 - c.j0 = 0 := by omega
    rw [this]
    intro jI iI hne
    simp [execRows] at hne

theorem add_sentinel (mask : Nat → Option Int) (st : ExchAccum) (index : Nat × Nat) (area : ℚ)
    (h : mask index.2 = none) : ExchAccum.add mask st index area = st := by
  simp [ExchAccum.add, h]

theorem addAll_entries (mask : Nat → Option Int) (events : List Event) :
    ∀ st : ExchAccum,
      (ExchAccum.addAll mask st events).exgrid.entries
        = st.exgrid.entries ++ retained mask events := by
  induction events with
  | nil => intro st; simp [ExchAccum.addAll, retained]
  | cons e events ih =>
    intro st
    have hstep : ExchAccum.addAll mask st (e :: events)
        = ExchAccum.addAll mask (ExchAccum.add mask st e.1 e.2) events := rfl
    rw [hstep, ih]
    unfold retained ExchAccum.add
    by_cases hk : (mask e.1.2).isSome = true
    · simp [hk, ExchangeGrid.add]
    · simp [hk]

theorem addAll_dims (mask : Nat → Option Int) (events : List Event) :
    ∀ st : ExchAccum,
      (ExchAccum.addAll mask st events).dimO = st.dimO.addAll (retainedO mask events) ∧
      (ExchAccum.addAll mask st events).dimI = st.dimI.addAll (retainedI mask events) := by
  induction events with
  | nil => intro st; simp [ExchAccum.addAll, SparseSet.addAll, retainedO, retainedI, retained]
  | cons e events ih =>
    intro st
    have hstep : ExchAccum.addAll mask st (e :: events)
        = ExchAccum.addAll mask (ExchAccum.add mask st e.1 e.2) events := rfl
    rw [hstep]
    obtain ⟨h1, h2⟩ := ih (ExchAccum.add mask st e.1 e.2)
    rw [h1, h2]
    unfold retainedO retainedI retained ExchAccum.add
    by_cases hk : (mask e.1.2).isSome = true
    · simp [hk, SparseSet.addAll]
    · simp [hk]

theorem to_dense_zip (id : Nat) :
    ∀ (l : List Nat) (k : Nat),
      ((l.zip (List.range' k l.length)).find? (fun p => p.1 == id)).map (fun p => p.2)
        = if id ∈ l then some (k + l.indexOf id) else none := by
  intro l
  induction l with
  | nil => intro k; simp
  | cons a l ih =>
    intro k
    simp only [List.length_cons, List.range'_succ, List.zip_cons_cons, List.find?_cons]
    by_cases h : a = id
    · subst h; simp
    · have h2 : (a == id) = false := by simpa using h
      have h3 : ¬ id = a := fun e => h e.symm
      rw [h2]
      simp only [ih, List.mem_cons, h3, false_or]
      by_cases hm : id ∈ l
      · rw [if_pos hm, if_pos hm, List.indexOf_cons_ne _ h]
        congr 1; omega
      · rw [if_neg hm, if_neg hm]

theorem add_dense_ranked (acc : List Nat) (x : Nat) :
    ((SparseSet.mk (acc.zip (List.range acc.length))).add_dense x).2
      = if x ∈ acc then SparseSet.mk (acc.zip (List.range acc.length))
        else SparseSet.mk ((acc ++ [x]).zip (List.range (acc ++ [x]).length)) := by
  have hl := to_dense_zip x acc 0
  rw [← List.range_eq_range'] at hl
  unfold SparseSet.add_dense SparseSet.to_dense
  simp only [hl]
  by_cases hm : x ∈ acc
  · simp [hm]
  · simp only [hm, if_false, SparseSet.dense_extent, List.length_append, List.length_singleton,
      List.range_succ]
    rw [List.zip_append (by simp)]
    simp

theorem addAll_ranked :
    ∀ (l acc : List Nat),
      ((SparseSet.mk (acc.zip (List.range acc.length))).addAll l).pairs
        = (acc ++ (firstSeen l).filter (fun y => decide (y ∉ acc))).zip
            (List.range (acc ++ (firstSeen l).filter (fun y => decide (y ∉ acc))).length) := by
  intro l
  induction l with
  | nil => intro acc; simp [SparseSet.addAll, firstSeen]
  | cons x xs ih =>
    intro acc
    have hstep : (SparseSet.mk (acc.zip (List.range acc.length))).addAll (x :: xs)
        = (((SparseSet.mk (acc.zip (List.range acc.length))).add_dense x).2).addAll xs := rfl
    rw [hstep, add_dense_ranked]
    by_cases hm : x ∈ acc
    · rw [if_pos hm, ih]
      have : (firstSeen (x :: xs)).filter (fun y => decide (y ∉ acc))
          = (firstSeen xs).filter (fun y => decide (y ∉ acc)) := by
        simp only [firstSeen, List.filter_cons, List.filter_filter]
        have hx : decide (x ∉ acc) = false := by simpa using hm
        rw [hx]
        simp only [Bool.false_eq_true, if_false]
        apply List.filter_congr
        intro y _
        by_cases hy : y ∈ acc
        · simp [hy]
        · have : y ≠ x := fun e => hy (e ▸ hm)
          simp [hy, this]
      rw [this]
    · rw [if_neg hm, ih]
      have : (acc ++ [x]) ++ (firstSeen xs).filter (fun y => decide (y ∉ acc ++ [x]))
          = acc ++ (firstSeen (x :: xs)).filter (fun y => decide (y ∉ acc)) := by
        simp only [firstSeen, List.filter_cons, List.filter_filter]
        have hx : decide (x ∉ acc) = true := by simpa using hm
        rw [hx]
        simp only [if_true, List.append_assoc, List.singleton_append]
        congr 2
        apply List.filter_congr
        intro y _
        by_cases hy : y ∈ acc
        · simp [hy]
        · by_cases hyx : y = x
          · simp [hy, hyx]
          · simp [hy, hyx]
      rw [this]

theorem addAll_rankPairs (l : List Nat) : ((SparseSet.mk []).addAll l).pairs = rankPairs l := by
  have := addAll_ranked l []
  simpa [rankPairs] using this

theorem mem_firstSeen (l : List Nat) (id : Nat) : id ∈ firstSeen l ↔ id ∈ l := by
  induction l with
  | nil => simp [firstSeen]
  | cons x xs ih =>
    simp only [firstSeen, List.mem_cons, List.mem_filter, ih, decide_eq_true_eq]
    by_cases h : id = x
    · simp [h]
    · simp [h]

theorem firstSeen_nodup (l : List Nat) : (firstSeen l).Nodup := by
  induction l with
  | nil => simp [firstSeen]
  | cons x xs ih =>
    simp only [firstSeen, List.nodup_cons, List.mem_filter, decide_eq_true_eq]
    exact ⟨fun h => h.2 rfl, ih.filter _⟩

theorem add_dense_present (s : SparseSet) (id d : Nat) (h : s.to_dense id = some d) :
    s.add_dense id = (d, s) := by
  simp [SparseSet.add_dense, h]

theorem to_dense_rankPairs (l : List Nat) (id : Nat) (h : id ∈ l) :
    (SparseSet.mk (rankPairs l)).to_dense id = some ((firstSeen l).indexOf id) := by
  have := to_dense_zip id (firstSeen l) 0
  rw [← List.range_eq_range'] at this
  unfold SparseSet.to_dense rankPairs
  simp only [this, (mem_firstSeen l id).2 h, if_true, Nat.zero_add]

theorem tdiv_mul_ne_iff (a b : Int) (ha : 0 < a) (hb : 0 < b) :
    Int.tdiv a b * b ≠ a ↔ ¬ (b ∣ a) := by
  rw [Int.tdiv_eq_ediv (le_of_lt ha) (le_of_lt hb)]
  constructor
  · intro h hd; exact h (Int.ediv_mul_cancel hd)
  · intro h he; exact h ⟨a / b, by rw [mul_comm]; exact he.symm⟩

theorem main_run_check (imO jmO imI jmI : Int) (run_chunk : Bool)
    (h1 : 0 < imO) (h2 : 0 < jmO) (h3 : 0 < imI) (h4 : 0 < jmI) :
    ((main_run imO jmO imI jmI run_chunk).outcome = Outcome.configError ↔
      (¬ (imO ∣ imI) ∨ ¬ (jmO ∣ jmI))) ∧
    ((main_run imO jmO imI jmI run_chunk).outcome = Outcome.configError →
      (main_run imO jmO imI jmI run_chunk).stages = []) := by
  have e : (Int.tdiv imI imO * imO ≠ imI ∨ Int.tdiv jmI jmO * jmO ≠ jmI)
      ↔ (¬ (imO ∣ imI) ∨ ¬ (jmO ∣ jmI)) := by
    rw [tdiv_mul_ne_iff imI imO h3 h1, tdiv_mul_ne_iff jmI jmO h4 h2]
  unfold main_run
  by_cases h : Int.tdiv imI imO * imO ≠ imI ∨ Int.tdiv jmI jmO * jmO ≠ jmI
  · rw [if_pos h]
    exact ⟨⟨fun _ => e.1 h, fun _ => rfl⟩, fun _ => rfl⟩
  · rw [if_neg h]
    refine ⟨⟨fun hh => ?_, fun hh => absurd (e.2 hh) h⟩, fun hh => ?_⟩
    · exact absurd hh (by simp)
    · exact absurd hh (by simp)

theorem make_I2vX_wM {a b c : Nat} (I2vI : Matrix (Fin a) (Fin b) ℚ)
    (IvX : Weighted_Eigen b c) (scale : Bool) :
    (make_I2vX rowsum colsum I2vI IvX scale).wM
        = Matrix.mulVec (I2vI * Matrix.diagonal (colsum I2vI)) IvX.wM ∧
    (∀ i, (make_I2vX rowsum colsum I2vI IvX scale).wM i
        = ∑ j, I2vI i j * (∑ k, I2vI k j) * IvX.wM j) ∧
    (make_I2vX rowsum colsum I2vI IvX scale).Mw = IvX.Mw ∧
    (make_I2vX rowsum colsum I2vI IvX scale).conservative = IvX.conservative := by
  refine ⟨rfl, ?_, rfl, rfl⟩
  intro i
  simp only [make_I2vX, Matrix.mulVec, Matrix.dotProduct, Matrix.mul_diagonal, colsum]

theorem planLoop_mono (g : Grids) (thr : Int) :
    ∀ (fuel n jO iO : Nat) (chunks : List Chunk),
      planLoop g thr fuel n jO iO = some chunks →
      planLoop g thr (fuel + 1) n jO iO = some chunks := by
  intro fuel
  induction fuel with
  | zero => intro n jO iO chunks h; simp [planLoop] at h
  | succ fuel ih =>
    intro n jO iO chunks h
    rw [planLoop_succ] at h ⊢
    by_cases hc : jO < g.jm ∧ iO < g.im
    · rw [if_pos hc] at h ⊢
      obtain ⟨rest, hrest, rfl⟩ := Option.map_eq_some'.1 h
      rw [ih _ _ _ _ hrest]; rfl
    · rw [if_neg hc] at h ⊢
      exact h

theorem planLoop_terminates (g : Grids) (thr : Int) (hsmall : ∀ c, cellIce g c < thr) :
    ∀ (d n jO iO : Nat),
      (jO < g.jm ∧ iO < g.im → g.jm * g.im - pos g.im jO iO ≤ d) →
      (planLoop g thr (d + 1) n jO iO).isSome = true := by
  intro d
  induction d with
  | zero =>
    intro n jO iO h
    rw [planLoop_succ]
    by_cases hc : jO < g.jm ∧ iO < g.im
    · have := h hc
      have := pos_lt_total g.jm g.im jO iO hc.1 hc.2
      omega
    · rw [if_neg hc]; rfl
  | succ d ih =>
    intro n jO iO h
    rw [planLoop_succ]
    by_cases hc : jO < g.jm ∧ iO < g.im
    · rw [if_pos hc, Option.isSome_map']
      apply ih
      intro hc1
      obtain ⟨hp, hT, hF⟩ := scan_step g thr jO iO hc
      obtain ⟨sT, -, -⟩ := scanPos_spec g thr (g.jm * g.im - pos g.im jO iO) (pos g.im jO iO) 0
      rw [hp] at sT
      have hb : (scanRows g thr (g.jm - jO) jO iO 0).2.2.2 = true := by
        by_contra hb
        have hb2 : (scanRows g thr (g.jm - jO) jO iO 0).2.2.2 = false := by simpa using hb
        have := (hF hb2).1
        omega
      obtain ⟨a1, a2, a3, a4⟩ := sT hb
      simp only [zero_add] at a3
      dsimp only at a1 a2 a4
      have hne : pos g.im (scanRows g thr (g.jm - jO) jO iO 0).1
          (scanRows g thr (g.jm - jO) jO iO 0).2.1 ≠ pos g.im jO iO := by
        intro e
        rw [e] at a3
        have e2 : pos g.im jO iO + 1 - pos g.im jO iO = 0 + 1 := by omega
        rw [e2, sumIce_succ, sumIce_zero] at a3
        have := hsmall (cellAt g.im (pos g.im jO iO))
        omega
      have := h hc
      omega
    · rw [if_neg hc]; rfl

theorem planChunks_terminates (g : Grids) (thr : Int) (hsmall : ∀ c, cellIce g c < thr) :
    (planChunks g thr (g.jm * g.im + 1)).isSome = true := by
  apply planLoop_terminates g thr hsmall
  intro _; omega

theorem chunkMask_end_row (g : Grids) (c : Chunk) (jI iI : Nat) (h : c.j1 ≤ jI / g.mult_j) :
    chunkMask g c jI iI = none := by
  by_contra hne
  have := (chunkMask_ok g c jI iI hne).1.2
  omega

theorem fillBlock_keeps (g : Grids) (jO iO : Nat) (m : Mask) (jI iI : Nat)
    (h : Kept g m jI iI) : Kept g (fillBlock g jO iO m) jI iI := by
  unfold Kept at h ⊢
  rw [fillBlock_apply]
  split
  · rfl
  · exact h

theorem fillBlock_sets (g : Grids) (jO iO : Nat) (m : Mask) (jI iI : Nat)
    (hj : jO * g.mult_j ≤ jI ∧ jI < jO * g.mult_j + g.mult_j)
    (hi : iO * g.mult_i ≤ iI ∧ iI < iO * g.mult_i + g.mult_i)
    (hf : g.fgiceI jI iI ≠ 0) : Kept g (fillBlock g jO iO m) jI iI := by
  unfold Kept
  rw [fillBlock_apply, if_pos ⟨hj, hi, hf⟩]

theorem execRow_keeps (g : Grids) (ijO1 jO jI iI : Nat) :
    ∀ (k iO ijO : Nat) (m : Mask), Kept g m jI iI →
      Kept g (execRow g ijO1 jO k iO ijO m).1 jI iI := by
  intro k
  induction k with
  | zero => intro iO ijO m hm; simpa [execRow] using hm
  | succ k ih =>
    intro iO ijO m hm
    simp only [execRow]
    by_cases hx : ijO ≥ ijO1
    · rw [if_pos hx]; exact hm
    · rw [if_neg hx]
      apply ih
      by_cases h3 : g.fgiceO jO iO ≠ 0
      · rw [if_pos h3]; exact fillBlock_keeps g jO iO m jI iI hm
      · rw [if_neg h3]; exact hm

theorem execRow_no_exit (g : Grids) (ijO1 jO : Nat) :
    ∀ (k iO ijO : Nat) (m : Mask), ijO + k ≤ ijO1 →
      (execRow g ijO1 jO k iO ijO m).2 = (ijO + k, false) := by
  intro k
  induction k with
  | zero => intro iO ijO m _; simp [execRow]
  | succ k ih =>
    intro iO ijO m h
    simp only [execRow]
    rw [if_neg (by omega), ih _ _ _ (by omega)]
    congr 1; omega

theorem execRow_sets (g : Grids) (ijO1 jO iT jI iI : Nat)
    (hO : g.fgiceO jO iT ≠ 0)
    (hj : jO * g.mult_j ≤ jI ∧ jI < jO * g.mult_j + g.mult_j)
    (hi : iT * g.mult_i ≤ iI ∧ iI < iT * g.mult_i + g.mult_i)
    (hf : g.fgiceI jI iI ≠ 0) :
    ∀ (k iO ijO : Nat) (m : Mask), iO ≤ iT → iT < iO + k → ijO + k ≤ ijO1 →
      Kept g (execRow g ijO1 jO k iO ijO m).1 jI iI := by
  intro k
  induction k with
  | zero => intro iO ijO m h1 h2 _; omega
  | succ k ih =>
    intro iO ijO m h1 h2 h3
    simp only [execRow]
    rw [if_neg (by omega)]
    by_cases he : iT = iO
    · subst he
      apply execRow_keeps
      rw [if_pos hO]
      exact fillBlock_sets g jO iT m jI iI hj hi hf
    · exact ih _ _ _ (by omega) (by omega) (by omega)

theorem execRows_keeps (g : Grids) (ijO1 jI iI : Nat) :
    ∀ (k jO iO ijO : Nat) (m : Mask), Kept g m jI iI →
      Kept g (execRows g ijO1 k jO iO ijO m) jI iI := by
  intro k
  induction k with
  | zero => intro jO iO ijO m hm; simpa [execRows] using hm
  | succ k ih =>
    intro jO iO ijO m hm
    have hrow := execRow_keeps g ijO1 jO jI iI (g.im - iO) iO ijO m hm
    simp only [execRows]
    rcases hr : execRow g ijO1 jO (g.im - iO) iO ijO m with ⟨m1, ijO2, b⟩
    rw [hr] at hrow
    cases b with
    | true => exact hrow
    | false => exact ih _ _ _ _ hrow

theorem execRows_sets (g : Grids) (ijO1 jT iT jI iI : Nat) (hiT : iT < g.im)
    (hO : g.fgiceO jT iT ≠ 0)
    (hj : jT * g.mult_j ≤ jI ∧ jI < jT * g.mult_j + g.mult_j)
    (hi : iT * g.mult_i ≤ iI ∧ iI < iT * g.mult_i + g.mult_i)
    (hf : g.fgiceI jI iI ≠ 0) :
    ∀ (k jO iO : Nat) (m : Mask), iO ≤ g.im → rmLe (jO, iO) (jT, iT) → jT < jO + k →
      (jO + k) * g.im ≤ ijO1 →
      Kept g (execRows g ijO1 k jO iO (jO * g.im + iO) m) jI iI := by
  intro k
  induction k with
  | zero =>
    intro jO iO m _ h1 h2 _
    simp only [rmLe] at h1
    omega
  | succ k ih =>
    intro jO iO m hio h1 h2 h3
    have hle : (jO + 1) * g.im ≤ (jO + (k + 1)) * g.im :=
      Nat.mul_le_mul_right _ (by omega)
    have hsum : (jO * g.im + iO) + (g.im - iO) = (jO + 1) * g.im := by
      rw [Nat.add_mul, Nat.one_mul]; omega
    have hne := execRow_no_exit g ijO1 jO (g.im - iO) iO (jO * g.im + iO) m (by omega)
    simp only [execRows]
    rcases hr : execRow g ijO1 jO (g.im - iO) iO (jO * g.im + iO) m with ⟨m1, ijO2, b⟩
    rw [hr] at hne
    simp only [Prod.mk.injEq] at hne
    obtain ⟨e1, e2⟩ := hne
    subst e2
    simp only []
    by_cases hrow : jT = jO
    · subst hrow
      apply execRows_keeps
      have hs := execRow_sets g ijO1 jT iT jI iI hO hj hi hf (g.im - iO) iO
        (jT * g.im + iO) m (by simp only [rmLe] at h1; omega) (by omega) (by omega)
      rw [hr] at hs
      exact hs
    · have e3 : ijO2 = (jO + 1) * g.im + 0 := by omega
      rw [e3]
      apply ih
      · omega
      · simp only [rmLe] at h1 ⊢
        omega
      · omega
      · have : jO + 1 + k = jO + (k + 1) := by omega
        rw [this]; exact h3

/-- Execution mode does fill the cells selected in the rows before the end
row of the descriptor. -/
theorem chunkMask_rows_before_end (g : Grids) (c : Chunk) (jI iI : Nat)
    (hmj : 0 < g.mult_j) (hmi : 0 < g.mult_i) (hi0 : c.i0 ≤ g.im)
    (hcol : iI / g.mult_i < g.im) (hsel : Selected g c jI iI)
    (hrow : jI / g.mult_j < c.j1) :
    chunkMask g c jI iI = some (g.elevI jI iI) := by
  obtain ⟨s1, -, s3, s4⟩ := hsel
  have hj : jI / g.mult_j * g.mult_j ≤ jI ∧ jI < jI / g.mult_j * g.mult_j + g.mult_j := by
    have h1 := Nat.div_add_mod jI g.mult_j
    have h2 := Nat.mod_lt jI hmj
    rw [Nat.mul_comm (jI / g.mult_j) g.mult_j]
    constructor <;> omega
  have hi : iI / g.mult_i * g.mult_i ≤ iI ∧ iI < iI / g.mult_i * g.mult_i + g.mult_i := by
    have h1 := Nat.div_add_mod iI g.mult_i
    have h2 := Nat.mod_lt iI hmi
    rw [Nat.mul_comm (iI / g.mult_i) g.mult_i]
    constructor <;> omega
  have hj0 : c.j0 ≤ jI / g.mult_j := by
    simp only [rmLe] at s1; omega
  unfold chunkMask
  apply execRows_sets g _ (jI / g.mult_j) (iI / g.mult_i) jI iI hcol s3 hj hi s4
  · exact hi0
  · exact s1
  · omega
  · have : c.j0 + (c.j1 - c.j0) = c.j1 := by omega
    rw [this]; omega

theorem planLoop_stuck (g : Grids) (thr : Int) (jO iO : Nat) (hj : jO < g.jm) (hi : iO < g.im)
    (hO : g.fgiceO jO iO ≠ 0) (hheavy : thr ≤ cellIce g (jO, iO)) :
    ∀ (fuel n : Nat), planLoop g thr fuel n jO iO = none := by
  have hrow : scanRow g thr jO (g.im - iO) iO 0 = (iO, cellIce g (jO, iO), true) := by
    obtain ⟨k, hk⟩ : ∃ k, g.im - iO = k + 1 := ⟨g.im - iO - 1, by omega⟩
    rw [hk]
    simp only [scanRow]
    rw [if_pos hO, countBlock_cellIce g jO iO 0 hO, zero_add, if_pos hheavy]
  have hrows : scanRows g thr (g.jm - jO) jO iO 0 = (jO, iO, cellIce g (jO, iO), true) := by
    obtain ⟨k, hk⟩ : ∃ k, g.jm - jO = k + 1 := ⟨g.jm - jO - 1, by omega⟩
    rw [hk, scanRows_succ, hrow]
    simp
  intro fuel
  induction fuel with
  | zero => intro n; rfl
  | succ fuel ih =>
    intro n
    rw [planLoop_succ, if_pos ⟨hj, hi⟩, hrows]
    simp only []
    rw [ih]; rfl

theorem planLoop_mono_le (g : Grids) (thr : Int) (fuel n jO iO : Nat) (chunks : List Chunk)
    (h : planLoop g thr fuel n jO iO = some chunks) :
    ∀ d : Nat, planLoop g thr (fuel + d) n jO iO = some chunks := by
  intro d
  induction d with
  | zero => exact h
  | succ d ih => exact planLoop_mono g thr _ _ _ _ _ ih

/-- The result of planning mode does not depend on the fuel that lets it return. -/
theorem planChunks_fuel_irrelevant (g : Grids) (thr : Int) (f1 f2 : Nat) (a b : List Chunk)
    (h1 : planChunks g thr f1 = some a) (h2 : planChunks g thr f2 = some b) : a = b := by
  have e1 := planLoop_mono_le g thr f1 0 0 0 a h1 f2
  have e2 := planLoop_mono_le g thr f2 0 0 0 b h2 f1
  rw [Nat.add_comm] at e2
  rw [e1] at e2
  exact Option.some.inj e2

theorem make_I2vX_M_scaled {a b c : Nat}
    (sum0 : Matrix (Fin a) (Fin b) ℚ → Fin a → ℚ)
    (sum1 : Matrix (Fin a) (Fin b) ℚ → Fin b → ℚ)
    (I2vI : Matrix (Fin a) (Fin b) ℚ) (IvX : Weighted_Eigen b c) :
    (make_I2vX sum0 sum1 I2vI IvX true).M
      = Matrix.diagonal (sum0 I2vI) * I2vI * IvX.M := by
  simp [make_I2vX]

theorem make_I2vX_M_raw {a b c : Nat}
    (sum0 : Matrix (Fin a) (Fin b) ℚ → Fin a → ℚ)
    (sum1 : Matrix (Fin a) (Fin b) ℚ → Fin b → ℚ)
    (I2vI : Matrix (Fin a) (Fin b) ℚ) (IvX : Weighted_Eigen b c) :
    (make_I2vX sum0 sum1 I2vI IvX false).M
      = I2vI * Matrix.diagonal (fun i => 1 / IvX.wM i) * IvX.M := by
  simp [make_I2vX]

theorem scaled_entry {a b c : Nat}
    (sum0 : Matrix (Fin a) (Fin b) ℚ → Fin a → ℚ)
    (sum1 : Matrix (Fin a) (Fin b) ℚ → Fin b → ℚ)
    (I2vI : Matrix (Fin a) (Fin b) ℚ) (IvX : Weighted_Eigen b c) (i : Fin a) (k : Fin c) :
    (make_I2vX sum0 sum1 I2vI IvX true).M i k
      = sum0 I2vI i * ∑ j, I2vI i j * IvX.M j k := by
  rw [make_I2vX_M_scaled, Matrix.mul_assoc, Matrix.diagonal_mul, Matrix.mul_apply]

theorem raw_entry {a b c : Nat}
    (sum0 : Matrix (Fin a) (Fin b) ℚ → Fin a → ℚ)
    (sum1 : Matrix (Fin a) (Fin b) ℚ → Fin b → ℚ)
    (I2vI : Matrix (Fin a) (Fin b) ℚ) (IvX : Weighted_Eigen b c) (i : Fin a) (k : Fin c) :
    (make_I2vX sum0 sum1 I2vI IvX false).M i k
      = ∑ j, I2vI i j * (1 / IvX.wM j) * IvX.M j k := by
  rw [make_I2vX_M_raw, Matrix.mul_apply]
  simp only [Matrix.mul_diagonal]

theorem scaled_row_sum {a b c : Nat}
    (sum0 : Matrix (Fin a) (Fin b) ℚ → Fin a → ℚ)
    (sum1 : Matrix (Fin a) (Fin b) ℚ → Fin b → ℚ)
    (I2vI : Matrix (Fin a) (Fin b) ℚ) (IvX : Weighted_Eigen b c)
    (hrows : ∀ j, ∑ k, IvX.M j k = 1) (i : Fin a) :
    ∑ k, (make_I2vX sum0 sum1 I2vI IvX true).M i k = sum0 I2vI i * rowsum I2vI i := by
  simp only [scaled_entry, rowsum]
  rw [← Finset.mul_sum, Finset.sum_comm]
  congr 1
  apply Finset.sum_congr rfl
  intro j _
  rw [← Finset.mul_sum, hrows j, mul_one]

theorem runCmds_all_ok (ok : Op → Bool) (h : ∀ o, ok o = true) :
    ∀ l : List Cmd, runCmds ok l = l := by
  intro l
  induction l with
  | nil => rfl
  | cons c l ih =>
    cases c <;> simp [runCmds, ih, h]

theorem storeStep_grows (l : List Cmd) :
    ∀ s : List Item × List Item, ∃ rest, (l.foldl storeStep s).1 = s.1 ++ rest := by
  induction l with
  | nil => intro s; exact ⟨[], by simp⟩
  | cons c l ih =>
    intro s
    obtain ⟨rest, hrest⟩ := ih (storeStep s c)
    rw [List.foldl_cons, hrest]
    cases c <;> simp only [storeStep]
    all_goals first
      | exact ⟨rest, rfl⟩
      | exact ⟨s.2 ++ rest, by simp⟩

theorem stored_append (p r : List Cmd) : ∃ rest, stored (p ++ r) = stored p ++ rest := by
  unfold stored
  rw [List.foldl_append]
  exact storeStep_grows r _

theorem runCmds_before (ok : Op → Bool) (o : Op) (h : ok o = false) :
    ∀ l : List Cmd, ∃ rest, beforeBuild o l = runCmds ok l ++ rest := by
  intro l
  induction l with
  | nil => exact ⟨[], rfl⟩
  | cons c l ih =>
    obtain ⟨rest, hrest⟩ := ih
    unfold beforeBuild at hrest ⊢
    rw [List.takeWhile_cons]
    cases c with
    | matrix_d o2 =>
      by_cases e : o2 = o
      · subst e; exact ⟨[], by simp [runCmds, h, notBuild]⟩
      · have hn : notBuild o (Cmd.matrix_d o2) = true := by simp [notBuild, e]
        rw [hn, if_pos rfl, hrest]
        cases hok : ok o2
        · exact ⟨_, by simp only [runCmds, hok]; rfl⟩
        · exact ⟨rest, by simp [runCmds, hok]⟩
    | make_I2vX o2 =>
      by_cases e : o2 = o
      · subst e; exact ⟨[], by simp [runCmds, h, notBuild]⟩
      · have hn : notBuild o (Cmd.make_I2vX o2) = true := by simp [notBuild, e]
        rw [hn, if_pos rfl, hrest]
        cases hok : ok o2
        · exact ⟨_, by simp only [runCmds, hok]; rfl⟩
        · exact ⟨rest, by simp [runCmds, hok]⟩
    | openFile b => exact ⟨rest, by simp [runCmds, hrest, notBuild]⟩
    | putItem i => exact ⟨rest, by simp [runCmds, hrest, notBuild]⟩
    | flush => exact ⟨rest, by simp [runCmds, hrest, notBuild]⟩
    | matRelease => exact ⟨rest, by simp [runCmds, hrest, notBuild]⟩
    | closeScope => exact ⟨rest, by simp [runCmds, hrest, notBuild]⟩

theorem section_run_cases (ok : Op → Bool) :
    (firstFail ok = none ∧ (∀ o, ok o = true) ∧ global_ec_section ok = sectionScript) ∨
    (∃ o, firstFail ok = some o ∧ ok o = false ∧
      global_ec_section ok = beforeBuild o sectionScript) := by
  cases h1 : ok Op.AvI
  · exact Or.inr ⟨Op.AvI, by simp [firstFail, buildOrder, h1], h1,
      by simp [global_ec_section, sectionScript, runCmds, h1, beforeBuild, notBuild]⟩
  cases h2 : ok Op.EvI
  · exact Or.inr ⟨Op.EvI, by simp [firstFail, buildOrder, h1, h2], h2,
      by simp [global_ec_section, sectionScript, runCmds, h1, h2, beforeBuild, notBuild]⟩
  cases h3 : ok Op.IvE
  · exact Or.inr ⟨Op.IvE, by simp [firstFail, buildOrder, h1, h2, h3], h3,
      by simp [global_ec_section, sectionScript, runCmds, h1, h2, h3, beforeBuild, notBuild]⟩
  cases h4 : ok Op.I2vE
  · exact Or.inr ⟨Op.I2vE, by simp [firstFail, buildOrder, h1, h2, h3, h4], h4,
      by simp [global_ec_section, sectionScript, runCmds, h1, h2, h3, h4, beforeBuild,
        notBuild]⟩
  cases h5 : ok Op.IvA
  · exact Or.inr ⟨Op.IvA, by simp [firstFail, buildOrder, h1, h2, h3, h4, h5], h5,
      by simp [global_ec_section, sectionScript, runCmds, h1, h2, h3, h4, h5, beforeBuild,
        notBuild]⟩
  cases h6 : ok Op.I2vA
  · exact Or.inr ⟨Op.I2vA, by simp [firstFail, buildOrder, h1, h2, h3, h4, h5, h6], h6,
      by simp [global_ec_section, sectionScript, runCmds, h1, h2, h3, h4, h5, h6, beforeBuild,
        notBuild]⟩
  cases h7 : ok Op.AvE
  · exact Or.inr ⟨Op.AvE, by simp [firstFail, buildOrder, h1, h2, h3, h4, h5, h6, h7], h7,
      by simp [global_ec_section, sectionScript, runCmds, h1, h2, h3, h4, h5, h6, h7,
        beforeBuild, notBuild]⟩
  have hall : ∀ o, ok o = true := by
    intro o; cases o <;> assumption
  exact Or.inl ⟨by simp [firstFail, buildOrder, h1, h2, h3, h4, h5, h6, h7], hall,
    runCmds_all_ok ok hall sectionScript⟩

theorem storedBefore_table :
    storedBefore Op.AvI = [] ∧
    storedBefore Op.EvI = [Item.metadata, Item.matrix Op.AvI] ∧
    storedBefore Op.IvE = [Item.metadata, Item.matrix Op.AvI, Item.matrix Op.EvI] ∧
    storedBefore Op.I2vE
      = [Item.metadata, Item.matrix Op.AvI, Item.matrix Op.EvI, Item.matrix Op.IvE] ∧
    storedBefore Op.IvA
      = [Item.metadata, Item.matrix Op.AvI, Item.matrix Op.EvI, Item.matrix Op.IvE,
          Item.matrix Op.I2vE] ∧
    storedBefore Op.I2vA
      = [Item.metadata, Item.matrix Op.AvI, Item.matrix Op.EvI, Item.matrix Op.IvE,
          Item.matrix Op.I2vE, Item.matrix Op.IvA] ∧
    storedBefore Op.AvE
      = [Item.metadata, Item.matrix Op.AvI, Item.matrix Op.EvI, Item.matrix Op.IvE,
          Item.matrix Op.I2vE, Item.matrix Op.IvA, Item.matrix Op.I2vA] := by
  decide

theorem storedBefore_lacks (o : Op) :
    Item.matrix o ∉ storedBefore o ∧ Item.dimA ∉ storedBefore o ∧
    Item.dimE ∉ storedBefore o ∧ Item.dimI ∉ storedBefore o ∧
    Item.dimI2 ∉ storedBefore o := by
  cases o <;> decide

theorem beforeBuild_created (o : Op) : fileCreated (beforeBuild o sectionScript) = true := by
  cases o <;> decide

theorem digitChar_facts (k : Nat) (h : k < 10) :
    (Nat.digitChar k).isDigit = true ∧ digitVal (Nat.digitChar k) = k ∧
    Nat.digitChar k ≠ ',' ∧ (Nat.digitChar k).isWhitespace = false ∧
    Nat.digitChar k ≠ '-' ∧ Nat.digitChar k ≠ '+' := by
  interval_cases k <;> decide

theorem toDigitsCore_digits :
    ∀ (fuel n : Nat) (ds : List Char), n < fuel →
      ∃ l, Nat.toDigitsCore 10 fuel n ds = l ++ ds ∧ l ≠ [] ∧
        (∀ c ∈ l, c.isDigit = true) ∧ digitsValue l = n := by
  intro fuel
  induction fuel with
  | zero => intro n ds h; omega
  | succ fuel ih =>
    intro n ds h
    have hmod : n % 10 < 10 := Nat.mod_lt _ (by decide)
    obtain ⟨d1, d2, -⟩ := digitChar_facts (n % 10) hmod
    simp only [Nat.toDigitsCore]
    by_cases h0 : n / 10 = 0
    · rw [if_pos h0]
      refine ⟨[Nat.digitChar (n % 10)], rfl, by simp, ?_, ?_⟩
      · intro c hc
        rw [List.mem_singleton.1 hc]; exact d1
      · simp only [digitsValue, List.foldl_cons, List.foldl_nil, d2]
        omega
    · rw [if_neg h0]
      obtain ⟨l, hl, hne, hdig, hval⟩ := ih (n / 10) (Nat.digitChar (n % 10) :: ds) (by omega)
      refine ⟨l ++ [Nat.digitChar (n % 10)], by rw [hl]; simp, by simp, ?_, ?_⟩
      · intro c hc
        rcases List.mem_append.1 hc with hc | hc
        · exact hdig c hc
        · rw [List.mem_singleton.1 hc]; exact d1
      · unfold digitsValue at hval ⊢
        rw [List.foldl_append, hval]
        simp only [List.foldl_cons, List.foldl_nil, d2]
        omega

theorem showInt_digits (n : Nat) :
    showInt n ≠ [] ∧ (∀ c ∈ showInt n, c.isDigit = true) ∧ digitsValue (showInt n) = n := by
  obtain ⟨l, hl, hne, hdig, hval⟩ := toDigitsCore_digits (n + 1) n [] (by omega)
  have e : showInt n = l := by
    unfold showInt Nat.toDigits
    rw [hl]; simp
  rw [e]
  exact ⟨hne, hdig, hval⟩

theorem readDigits_all (l : List Char) (hdig : ∀ c ∈ l, c.isDigit = true) :
    ∀ v k : Nat, readDigits l v k
      = (l.foldl (fun a c => a * 10 + digitVal c) v, k + l.length, []) := by
  induction l with
  | nil => intro v k; simp [readDigits]
  | cons c cs ih =>
    intro v k
    have hc := hdig c (List.mem_cons_self _ _)
    simp only [readDigits, hc, if_true, List.foldl_cons, List.length_cons]
    rw [ih (fun x hx => hdig x (List.mem_cons_of_mem _ hx))]
    congr 2
    omega

theorem isDigit_facts (c : Char) (h : c.isDigit = true) :
    c ≠ ',' ∧ c.isWhitespace = false ∧ c ≠ '-' ∧ c ≠ '+' := by
  have h1 : 48 ≤ c.val ∧ c.val ≤ 57 := by
    simpa [Char.isDigit] using h
  refine ⟨?_, ?_, ?_, ?_⟩
  · rintro rfl; revert h; decide
  · cases hw : c.isWhitespace
    · rfl
    · exfalso
      simp only [Char.isWhitespace, Bool.or_eq_true, decide_eq_true_eq] at hw
      rcases hw with ((hw | hw) | hw) | hw <;> (subst hw; revert h; decide)
  · rintro rfl; revert h; decide
  · rintro rfl; revert h; decide

theorem readDouble_digits (l : List Char) (hne : l ≠ [])
    (hdig : ∀ c ∈ l, c.isDigit = true) : readDouble l = (digitsValue l : ℚ) := by
  obtain ⟨c, cs, rfl⟩ := List.exists_cons_of_ne_nil hne
  obtain ⟨-, hw, hm, hp⟩ := isDigit_facts c (hdig c (List.mem_cons_self _ _))
  have hrd := readDigits_all (c :: cs) hdig 0 0
  unfold readDouble
  have e1 : (c :: cs).dropWhile Char.isWhitespace = c :: cs := by
    simp [List.dropWhile, hw]
  simp only [e1, List.head?_cons, Option.some.injEq, hm, hp, or_self, if_false, hrd,
    List.head?_nil]
  simp [digitsValue]

theorem readDouble_showInt (n : Nat) : readDouble (showInt n) = (n : ℚ) := by
  obtain ⟨hne, hdig, hval⟩ := showInt_digits n
  rw [readDouble_digits _ hne hdig, hval]

theorem toInt_natCast (n : Nat) : toInt (n : ℚ) = (n : Int) := by
  unfold toInt
  rw [if_pos (Nat.cast_nonneg n)]
  exact Int.floor_natCast n

theorem runchunkValue_eq (c : Chunk) :
    runchunkValue c = [','].intercalate (c.fields.map showInt) := by
  simp [runchunkValue, Chunk.fields, List.intercalate, List.intersperse]

theorem parse_csv_runchunkValue (c : Chunk) :
    parse_csv (runchunkValue c) = c.fields.map (fun n => (n : ℚ)) := by
  unfold parse_csv
  rw [runchunkValue_eq, List.splitOn_intercalate]
  · rw [List.map_map]
    apply List.map_congr_left
    intro n _
    exact readDouble_showInt n
  · intro l hl hmem
    obtain ⟨n, -, rfl⟩ := List.mem_map.1 hl
    exact (isDigit_facts ',' ((showInt_digits n).2.1 ',' hmem)).1 rfl
  · simp [Chunk.fields]

theorem runchunkValue_ne_nil (c : Chunk) : runchunkValue c ≠ [] := by
  intro h
  have := parse_csv_runchunkValue c
  rw [h] at this
  simp [parse_csv, Chunk.fields] at this

theorem parse_runchunk_roundtrip (c : Chunk) :
    parse_runchunk (runchunkValue c)
      = Except.ok ⟨true, (c.chunkno : Int),
          some (((c.j0 : Int), (c.i0 : Int)), ((c.j1 : Int), (c.i1 : Int)))⟩ := by
  unfold parse_runchunk
  rw [if_neg (runchunkValue_ne_nil c), parse_csv_runchunkValue]
  simp [Chunk.fields, toInt_natCast]

theorem foldl_append_flatMap {α : Type} (f : α → List Char) (l : List α) :
    ∀ t : List Char, l.foldl (fun t c => t ++ f c) t = t ++ l.flatMap f := by
  induction l with
  | nil => intro t; simp
  | cons a l ih => intro t; rw [List.foldl_cons, ih]; simp

theorem joinWords_cons (w : List Char) (ws : List (List Char)) :
    joinWords (w :: ws) = w ++ ws.flatMap (fun x => " ".toList ++ x) := by
  unfold joinWords
  induction ws generalizing w with
  | nil => simp [List.intercalate]
  | cons a ws ih =>
    have := ih a
    simp only [List.intercalate, List.intersperse, List.flatten_cons, List.flatMap_cons] at this ⊢
    rw [this]
    simp only [List.append_assoc]

theorem joinWords_append_two (ws : List (List Char)) (a b : List Char) :
    joinWords (ws ++ [a, b]) = ws.flatMap (fun x => x ++ " ".toList) ++ a ++ " ".toList ++ b := by
  induction ws with
  | nil => simp [joinWords, List.intercalate]
  | cons w ws ih =>
    rw [List.cons_append, joinWords_cons]
    cases ws with
    | nil => simp
    | cons w2 ws =>
      rw [List.cons_append, joinWords_cons] at ih
      rw [List.cons_append, List.flatMap_cons, List.append_assoc, ih]
      simp

theorem write_chunk_makefile_layout (ofname : List Char) (arg_strings : List (List Char))
    (chunks : List Chunk) :
    write_chunk_makefile ofname arg_strings chunks = makefileLayout ofname arg_strings chunks := by
  have h1 := foldl_append_flatMap
    (fun c : Chunk => " ".toList ++ ofname ++ "-".toList ++ fmt02 c.chunkno) chunks
  have h2 := foldl_append_flatMap
    (fun c : Chunk =>
      ofname ++ "-".toList ++ fmt02 c.chunkno ++ " : ".toList ++ ofname ++ ".mk".toList
        ++ [nl] ++ [tab] ++ arg_strings.flatMap (fun x => x ++ " ".toList)
        ++ "--runchunk ".toList ++ runchunkValue c ++ [nl]) chunks
  have h3 : ∀ t : List Char, arg_strings.foldl (fun u arg => u ++ arg ++ " ".toList) t
      = t ++ arg_strings.flatMap (fun x => x ++ " ".toList) := by
    intro t
    have := foldl_append_flatMap (fun x : List Char => x ++ " ".toList) arg_strings t
    simpa [List.append_assoc] using this
  unfold write_chunk_makefile makefileLayout renderRule
  simp only [h3]
  simp only [List.append_assoc] at h1 h2 ⊢
  rw [h1, h1, h2]
  simp only [joinWords_cons, joinWords_append_two, List.flatMap_map, chunkTarget,
    List.append_assoc, List.flatMap_nil, List.append_nil]
  simp [joinWords, List.intercalate]

theorem digitsValue_fmt02 (n : Nat) : digitsValue (fmt02 n) = n := by
  unfold fmt02
  by_cases h : n < 10
  · rw [if_pos h]
    have := (showInt_digits n).2.2
    unfold digitsValue at this ⊢
    rw [List.foldl_cons]
    have e : 0 * 10 + digitVal '0' = 0 := by decide
    rw [e]; exact this
  · rw [if_neg h]; exact (showInt_digits n).2.2

theorem chunkTarget_injective (ofname : List Char) (a b : Chunk)
    (h : chunkTarget ofname a = chunkTarget ofname b) : a.chunkno = b.chunkno := by
  unfold chunkTarget at h
  rw [List.append_assoc, List.append_assoc] at h
  have h2 := List.append_cancel_left (List.append_cancel_left h)
  rw [← digitsValue_fmt02 a.chunkno, ← digitsValue_fmt02 b.chunkno, h2]

theorem chunkTargets_nodup (ofname : List Char) (chunks : List Chunk)
    (h : (chunks.map (fun c => c.chunkno)).Nodup) :
    (chunks.map (chunkTarget ofname)).Nodup := by
  rw [List.nodup_map_iff_inj_on (List.Nodup.of_map _ h)]
  intro x hx y hy hxy
  have e := chunkTarget_injective ofname x y hxy
  exact List.inj_on_of_nodup_map h hx hy e

theorem chunkTarget_not_artifact (ofname : List Char) (c : Chunk) :
    chunkTarget ofname c ∉ artifactFiles ofname c.chunkno := by
  intro h
  simp only [artifactFiles, List.mem_cons, List.mem_singleton, List.not_mem_nil, or_false] at h
  rcases h with h | h
  · have := congrArg List.length h
    simp [chunkTarget, sectionFile] at this
  · have := congrArg List.length h
    simp [chunkTarget, sectionFile] at this

theorem hcdefs_out_of_bounds (args : EcArgs) (fuel : Nat)
    (h : args.ec_range.1 ≤ args.ec_range.2) :
    new_gcmA_standard_hcdefs args (fuel + 1) = HcResult.outOfBounds [args.ec_range.1] := by
  simp [new_gcmA_standard_hcdefs, hcLoop, array2_get, h]

theorem readDouble_minus_digits (l : List Char) (hne : l ≠ [])
    (hdig : ∀ c ∈ l, c.isDigit = true) : readDouble ('-' :: l) = -(digitsValue l : ℚ) := by
  have hrd := readDigits_all l hdig 0 0
  have hlen : l.length ≠ 0 := by
    intro h; exact hne (List.length_eq_zero.1 h)
  unfold readDouble
  have e1 : ('-' :: l).dropWhile Char.isWhitespace = '-' :: l := by
    have : Char.isWhitespace '-' = false := by decide
    simp [List.dropWhile, this]
  simp only [e1, List.head?_cons, true_or, if_true, List.tail_cons, hrd, List.head?_nil]
  simp [digitsValue, hlen]

theorem parse_ec_default :
    parse_ec "-100,3700,200".toList = Except.ok ⟨(-100, 3700), 200⟩ := by
  have h : parse_csv "-100,3700,200".toList = [-100, 3700, 200] := by
    have e : "-100,3700,200".toList.splitOn ','
        = ['-' :: "100".toList, "3700".toList, "200".toList] := by decide
    unfold parse_csv
    rw [e]
    have d1 := readDouble_minus_digits "100".toList (by decide) (by decide)
    have d2 := readDouble_digits "3700".toList (by decide) (by decide)
    have d3 := readDouble_digits "200".toList (by decide) (by decide)
    have v1 : digitsValue "100".toList = 100 := by decide
    have v2 : digitsValue "3700".toList = 3700 := by decide
    have v3 : digitsValue "200".toList = 200 := by decide
    rw [v1] at d1
    rw [v2] at d2
    rw [v3] at d3
    simp only [List.map_cons, List.map_nil, d1, d2, d3]
    norm_num
  unfold parse_ec
  rw [h]
  simp

theorem hcdefs_ignores_ec_skip (args : EcArgs) (s : ℚ) (fuel : Nat) :
    new_gcmA_standard_hcdefs { ec_range := args.ec_range, ec_skip := s } fuel
      = new_gcmA_standard_hcdefs args fuel := rfl

theorem planLoop_nil (g : Grids) (thr : Int) (fuel n jO iO : Nat)
    (h : planLoop g thr fuel n jO iO = some []) : ¬ (jO < g.jm ∧ iO < g.im) := by
  cases fuel with
  | zero => simp [planLoop] at h
  | succ fuel =>
    rw [planLoop_succ] at h
    intro hc
    rw [if_pos hc] at h
    obtain ⟨rest, -, hrest⟩ := Option.map_eq_some'.1 h
    simp at hrest

theorem planLoop_chain (g : Grids) (thr : Int) :
    ∀ (fuel n jO iO : Nat) (chunks : List Chunk),
      planLoop g thr fuel n jO iO = some chunks →
      chunks.map (fun c => c.chunkno) = List.range' n chunks.length ∧
      (∀ c, chunks.head? = some c → c.j0 = jO ∧ c.i0 = iO) ∧
      List.Chain' (fun a b : Chunk => b.j0 = a.j1 ∧ b.i0 = a.i1) chunks ∧
      (∀ c, chunks.getLast? = some c → c.j1 = g.jm ∧ c.i1 = 0) := by
  intro fuel
  induction fuel with
  | zero => intro n jO iO chunks h; simp [planLoop] at h
  | succ fuel ih =>
    intro n jO iO chunks h
    rw [planLoop_succ] at h
    by_cases hc : jO < g.jm ∧ iO < g.im
    · rw [if_pos hc] at h
      obtain ⟨rest, hrest, rfl⟩ := Option.map_eq_some'.1 h
      obtain ⟨i1, i2, i3, i4⟩ := ih _ _ _ _ hrest
      obtain ⟨-, hT, hF⟩ := scan_step g thr jO iO hc
      refine ⟨?_, ?_, ?_, ?_⟩
      · simp only [List.map_cons, List.length_cons, List.range'_succ, i1]
      · intro c hcm
        simp only [List.head?_cons, Option.some.injEq] at hcm
        subst hcm
        exact ⟨rfl, rfl⟩
      · rw [List.chain'_cons']
        refine ⟨?_, i3⟩
        intro y hy
        exact i2 y hy
      · intro c hcm
        cases rest with
        | nil =>
          simp only [List.getLast?_singleton, Option.some.injEq] at hcm
          subst hcm
          have hn := planLoop_nil g thr _ _ _ _ hrest
          have hb : (scanRows g thr (g.jm - jO) jO iO 0).2.2.2 = false := by
            cases hbb : (scanRows g thr (g.jm - jO) jO iO 0).2.2.2
            · rfl
            · exact absurd (hT hbb) hn
          exact hF hb
        | cons r rest =>
          rw [List.getLast?_cons_cons] at hcm
          exact i4 c hcm
    · rw [if_neg hc] at h
      have : chunks = [] := by simpa using h.symm
      subst this
      simp

theorem copyFields_fields (fields : List CoupledField) :
    ∀ c : CouplingContract, (copyFields fields c).fields = c.fields ++ fields := by
  induction fields with
  | nil => intro c; simp [copyFields]
  | cons f fs ih =>
    intro c
    have h := ih (c.add f)
    simp only [copyFields, List.foldl_cons] at h ⊢
    rw [h]
    simp [CouplingContract.add]

theorem copyRecipes_spec (fields : List CoupledField) :
    ∀ vt : VarTransformer,
      copyRecipes fields vt =
        { vt with recipes := vt.recipes ++
            fields.map (fun f => (⟨f.name, f.name, "unit", 1⟩ : Recipe)) } := by
  induction fields with
  | nil => intro vt; simp [copyRecipes]
  | cons f fs ih =>
    intro vt
    have h := ih (vt.set f.name f.name "unit" 1)
    simp only [copyRecipes, List.foldl_cons] at h ⊢
    rw [h]
    simp [VarTransformer.set]

theorem entry_copy (inputs outputs scalars : List String) (fields : List CoupledField)
    (out inp s : String) :
    (⟨inputs, outputs, scalars,
        fields.map (fun f => (⟨f.name, f.name, "unit", 1⟩ : Recipe))⟩ : VarTransformer).entry
        out inp s
      = if out ∈ fields.map (fun f => f.name) ∧ inp = out ∧ s = "unit" then 1 else 0 := by
  unfold VarTransformer.entry
  simp only
  cases hf : (fields.map (fun f => (⟨f.name, f.name, "unit", 1⟩ : Recipe))).reverse.find?
      (fun r => decide (r.output = out ∧ r.input = inp ∧ r.scalar = s)) with
  | some r =>
    have hp := List.find?_some hf
    have hm := List.mem_of_find?_eq_some hf
    simp only [decide_eq_true_eq] at hp
    rw [List.mem_reverse, List.mem_map] at hm
    obtain ⟨f, hfm, rfl⟩ := hm
    simp only at hp
    obtain ⟨h1, h2, h3⟩ := hp
    have hmem : out ∈ fields.map (fun f => f.name) := by
      rw [List.mem_map]; exact ⟨f, hfm, h1⟩
    rw [if_pos ⟨hmem, by rw [← h2, h1], h3.symm⟩]
  | none =>
    rw [List.find?_eq_none] at hf
    rw [if_neg]
    rintro ⟨hmem, h2, h3⟩
    rw [List.mem_map] at hmem
    obtain ⟨f, hfm, h1⟩ := hmem
    have := hf ⟨f.name, f.name, "unit", 1⟩ (by
      rw [List.mem_reverse, List.mem_map]; exact ⟨f, hfm, rfl⟩)
    simp only [decide_eq_true_eq] at this
    exact this ⟨h1, by rw [h1, h2], h3.symm⟩

theorem scanned_empty (k : ZConsts) (I J : Nat) (h : k.I2M I J < k.J21 J) :
    scanned k I J = [] := by
  have h0 : k.I2M I J + 1 - k.J21 J = 0 := by omega
  simp [scanned, h0]

theorem mem_scanned (k : ZConsts) (I J : Nat) (p : Nat × Nat) :
    p ∈ scanned k I J ↔
      (k.J21 J ≤ p.1 ∧ p.1 ≤ k.I2M I J) ∧ (k.J21 J ≤ p.2 ∧ p.2 ≤ k.J2M J) := by
  obtain ⟨x, y⟩ := p
  simp only [scanned, List.mem_flatMap, List.mem_map, List.mem_range'_1, Prod.mk.injEq]
  constructor
  · rintro ⟨J2, hJ, I2, hI, rfl, rfl⟩
    omega
  · rintro ⟨hI, hJ⟩
    exact ⟨y, by omega, x, by omega, rfl, rfl⟩

theorem ocean_fold_le (a : ZArrays) (l : List (Nat × Nat)) :
    ∀ z : ℚ, l.foldl (oceanStep a) z ≤ z := by
  induction l with
  | nil => intro z; exact le_refl z
  | cons p l ih =>
    intro z
    rw [List.foldl_cons]
    refine le_trans (ih _) ?_
    unfold oceanStep
    split
    · rename_i h; exact le_of_lt h.1
    · exact le_refl z

theorem ocean_fold_eq_iff (a : ZArrays) (l : List (Nat × Nat)) :
    ∀ z : ℚ, l.foldl (oceanStep a) z = z ↔
      ∀ p ∈ l, ¬ (a.FOCEN2 p.1 p.2 = 1 ∧ a.ZSOLD2 p.1 p.2 < z) := by
  induction l with
  | nil => intro z; simp
  | cons p l ih =>
    intro z
    rw [List.foldl_cons]
    by_cases h : z > a.ZSOLD2 p.1 p.2 ∧ a.FOCEN2 p.1 p.2 = 1
    · have hs : oceanStep a z p = a.ZSOLD2 p.1 p.2 := by
        unfold oceanStep; rw [if_pos h]
      rw [hs]
      constructor
      · intro he
        have := ocean_fold_le a l (a.ZSOLD2 p.1 p.2)
        rw [he] at this
        exact absurd h.1 (not_lt.2 this)
      · intro hall
        exact absurd ⟨h.2, h.1⟩ (hall p (List.mem_cons_self _ _))
    · have hs : oceanStep a z p = z := by
        unfold oceanStep; rw [if_neg h]
      rw [hs, ih z]
      constructor
      · intro hall q hq
        rcases List.mem_cons.1 hq with rfl | hq
        · intro hq2; exact h ⟨hq2.2, hq2.1⟩
        · exact hall q hq
      · intro hall q hq
        exact hall q (List.mem_cons_of_mem _ hq)

theorem gather_fold (a : ZArrays) (l : List (Nat × Nat)) :
    ∀ acc : List AreaDepth × ℚ × ℚ,
      l.foldl (gatherStep a) acc =
        (acc.1 ++ (l.filter (fun p => decide (a.FOCEN2 p.1 p.2 ≠ 1))).map
            (fun p => (⟨a.dxyp p.2, a.ZSOLD2 p.1 p.2⟩ : AreaDepth)),
          acc.2.1 + ((l.filter (fun p => decide (a.FOCEN2 p.1 p.2 ≠ 1))).map
            (fun p => a.dxyp p.2)).sum,
          acc.2.2 + ((l.filter (fun p => decide (a.FOCEN2 p.1 p.2 ≠ 1))).map
            (fun p => a.dxyp p.2 * a.ZSOLG2 p.1 p.2)).sum) := by
  induction l with
  | nil => intro acc; simp
  | cons p l ih =>
    intro acc
    rw [List.foldl_cons, ih]
    by_cases h : a.FOCEN2 p.1 p.2 = 1
    · simp [gatherStep, h]
    · simp [gatherStep, h, add_assoc]

theorem gather_spec (a : ZArrays) (l : List (Nat × Nat)) :
    gather a l =
      ((l.filter (fun p => decide (a.FOCEN2 p.1 p.2 ≠ 1))).map
          (fun p => (⟨a.dxyp p.2, a.ZSOLD2 p.1 p.2⟩ : AreaDepth)),
        ((l.filter (fun p => decide (a.FOCEN2 p.1 p.2 ≠ 1))).map (fun p => a.dxyp p.2)).sum,
        ((l.filter (fun p => decide (a.FOCEN2 p.1 p.2 ≠ 1))).map
          (fun p => a.dxyp p.2 * a.ZSOLG2 p.1 p.2)).sum) := by
  unfold gather
  rw [gather_fold]
  simp

theorem gather_cells_ne_nil (a : ZArrays) (l : List (Nat × Nat))
    (h : (gather a l).2.1 ≠ 0) : (gather a l).1 ≠ [] := by
  rw [gather_spec] at h ⊢
  intro hn
  simp only [List.map_eq_nil_iff] at hn
  apply h
  simp only [hn, List.map_nil, List.sum_nil]

theorem sum_pos_of_pos (l : List ℚ) (hne : l ≠ []) (hp : ∀ x ∈ l, 0 < x) : 0 < l.sum := by
  induction l with
  | nil => exact absurd rfl hne
  | cons x l ih =>
    rw [List.sum_cons]
    by_cases hl : l = []
    · subst hl
      simpa using hp x (List.mem_cons_self _ _)
    · have h1 := hp x (List.mem_cons_self _ _)
      have h2 := ih hl (fun y hy => hp y (List.mem_cons_of_mem _ hy))
      linarith

theorem gather_area_zero_iff (a : ZArrays) (l : List (Nat × Nat))
    (hpos : ∀ p ∈ l, 0 < a.dxyp p.2) :
    (gather a l).2.1 = 0 ↔ ∀ p ∈ l, a.FOCEN2 p.1 p.2 = 1 := by
  rw [gather_spec]
  simp only
  constructor
  · intro h p hp
    by_contra hne
    have hmem : p ∈ l.filter (fun p => decide (a.FOCEN2 p.1 p.2 ≠ 1)) := by
      rw [List.mem_filter]; exact ⟨hp, by simpa using hne⟩
    have hnn : (l.filter (fun p => decide (a.FOCEN2 p.1 p.2 ≠ 1))).map
        (fun p => a.dxyp p.2) ≠ [] := by
      intro hn
      rw [List.map_eq_nil_iff] at hn
      rw [hn] at hmem
      exact List.not_mem_nil _ hmem
    have := sum_pos_of_pos _ hnn (by
      intro x hx
      rw [List.mem_map] at hx
      obtain ⟨q, hq, rfl⟩ := hx
      exact hpos q (List.mem_filter.1 hq).1)
    linarith
  · intro h
    have : l.filter (fun p => decide (a.FOCEN2 p.1 p.2 ≠ 1)) = [] := by
      rw [List.filter_eq_nil_iff]
      intro p hp
      simpa using h p hp
    rw [this]
    simp

theorem cellsAt_some (l : List AreaDepth) (i : Int) (h0 : 0 ≤ i) (h1 : i < l.length) :
    ∃ h : i.toNat < l.length, cellsAt l i = some (l.get ⟨i.toNat, h⟩) := by
  have h : i.toNat < l.length := by omega
  refine ⟨h, ?_⟩
  unfold cellsAt
  rw [if_pos h0, List.getElem?_eq_getElem h]
  rfl

theorem lakeLoop_spec (cells2 : List AreaDepth) (limit : ℚ) :
    ∀ (fuel : Nat) (N : Int) (A V : ℚ), 0 ≤ N → N ≤ cells2.length →
      (cells2.length : Int) - N < fuel →
      ∃ N1 A1 V1, lakeLoop cells2 limit fuel N A V = LoopEnd.done N1 A1 V1 ∧
        N - 1 ≤ N1 ∧ N1 ≤ (cells2.length : Int) - 1 ∧ (N < cells2.length → N ≤ N1) := by
  intro fuel
  induction fuel with
  | zero => intro N A V h0 h1 h2; simp only [Nat.cast_zero] at h2; omega
  | succ fuel ih =>
    intro N A V h0 h1 h2
    rw [lakeLoop]
    by_cases he : N = (cells2.length : Int)
    · rw [if_pos he]
      exact ⟨N - 1, A, V, rfl, le_refl _, by omega, by omega⟩
    · rw [if_neg he]
      have hlt : N < cells2.length := lt_of_le_of_ne h1 he
      obtain ⟨hb, hc⟩ := cellsAt_some cells2 N h0 hlt
      rw [hc]
      simp only
      split
      · exact ⟨N, _, _, rfl, by omega, by omega, fun _ => le_refl _⟩
      · obtain ⟨N1, A1, V1, e, b1, b2, b3⟩ := ih (N + 1) _ _ (by omega) (by omega)
          (by push_cast at h2 ⊢; omega)
        exact ⟨N1, A1, V1, e, by omega, b2, fun _ => by omega⟩

theorem groundLoop_spec (cells2 : List AreaDepth) (limit : ℚ) :
    ∀ (fuel : Nat) (N : Int) (A : ℚ), 0 ≤ N → N ≤ cells2.length →
      (cells2.length : Int) - N < fuel →
      ∃ N1 A1 V1, groundLoop cells2 limit fuel N A = LoopEnd.done N1 A1 V1 ∧
        N - 1 ≤ N1 ∧ N1 ≤ (cells2.length : Int) - 1 ∧ (N < cells2.length → N ≤ N1) := by
  intro fuel
  induction fuel with
  | zero => intro N A h0 h1 h2; simp only [Nat.cast_zero] at h2; omega
  | succ fuel ih =>
    intro N A h0 h1 h2
    rw [groundLoop]
    by_cases he : N = (cells2.length : Int)
    · rw [if_pos he]
      exact ⟨N - 1, A, 0, rfl, le_refl _, by omega, by omega⟩
    · rw [if_neg he]
      have hlt : N < cells2.length := lt_of_le_of_ne h1 he
      obtain ⟨hb, hc⟩ := cellsAt_some cells2 N h0 hlt
      rw [hc]
      simp only
      split
      · exact ⟨N, _, _, rfl, by omega, by omega, fun _ => le_refl _⟩
      · obtain ⟨N1, A1, V1, e, b1, b2, b3⟩ := ih (N + 1) _ (by omega) (by omega)
          (by push_cast at h2 ⊢; omega)
        exact ⟨N1, A1, V1, e, by omega, b2, fun _ => by omega⟩

theorem sortCells_sorted (l : List AreaDepth) :
    (sortCells l).Sorted (fun x y => x.depth ≤ y.depth) :=
  List.sorted_insertionSort _ l

theorem sortCells_perm (l : List AreaDepth) : (sortCells l).Perm l :=
  List.perm_insertionSort _ l

theorem sortCells_get_le (l : List AreaDepth) (i j : Nat) (hi : i < (sortCells l).length)
    (hj : j < (sortCells l).length) (hij : i ≤ j) :
    ((sortCells l).get ⟨i, hi⟩).depth ≤ ((sortCells l).get ⟨j, hj⟩).depth := by
  rcases Nat.eq_or_lt_of_le hij with h | h
  · subst h; exact le_refl _
  · exact List.Sorted.rel_get_of_lt (sortCells_sorted l) (by simpa using h)

theorem continentalCell_ok (k : ZConsts) (a : ZArrays) (I J : Nat)
    (h : (gather a (scanned k I J)).2.1 ≠ 0) :
    ∃ c, continentalCell k a I J = Except.ok c ∧
      c.cells2 = sortCells (gather a (scanned k I J)).1 ∧
      0 ≤ c.NLAKE ∧ c.NLAKE ≤ c.NGRND ∧ c.NGRND ≤ (c.cells2.length : Int) - 1 ∧
      c.out.ZSGLO ≤ c.out.ZLAKE ∧ c.out.ZLAKE ≤ c.out.ZGRND ∧ c.out.ZGRND ≤ c.out.ZSGHI ∧
      (∀ x ∈ (gather a (scanned k I J)).1, c.out.ZSGLO ≤ x.depth ∧ x.depth ≤ c.out.ZSGHI) ∧
      (∃ x ∈ (gather a (scanned k I J)).1, x.depth = c.out.ZSGLO) ∧
      (∃ x ∈ (gather a (scanned k I J)).1, x.depth = c.out.ZSGHI) := by
  have hne := gather_cells_ne_nil a (scanned k I J) h
  have hperm := sortCells_perm (gather a (scanned k I J)).1
  have hlen : 0 < (sortCells (gather a (scanned k I J)).1).length := by
    rw [hperm.length_eq]
    exact List.length_pos.2 hne
  generalize hG : (gather a (scanned k I J)).1 = G at hne hperm hlen
  obtain ⟨b0, e0⟩ := cellsAt_some (sortCells G) 0 (le_refl 0) (by exact_mod_cast hlen)
  obtain ⟨N1, A1, V1, e1, -, u1, l1⟩ :=
    lakeLoop_spec (sortCells G) ((gather a (scanned k I J)).2.1 * a.FLAKE I J)
      ((sortCells G).length + 1) 0 0 0 (le_refl 0) (by omega) (by push_cast; omega)
  have l1p : 0 ≤ N1 := l1 (by exact_mod_cast hlen)
  obtain ⟨b1, c1⟩ := cellsAt_some (sortCells G) N1 l1p (by omega)
  obtain ⟨N2, A2, V2, e2, -, u2, l2⟩ :=
    groundLoop_spec (sortCells G)
      ((gather a (scanned k I J)).2.1 * (a.FLAKE I J + a.FGRND I J))
      ((sortCells G).length + 1) N1 (A1 - ((sortCells G).get ⟨N1.toNat, b1⟩).area)
      l1p (by omega) (by push_cast; omega)
  have l2p : N1 ≤ N2 := l2 (by omega)
  obtain ⟨b2, c2⟩ := cellsAt_some (sortCells G) N2 (by omega) (by omega)
  obtain ⟨b3, c3⟩ := cellsAt_some (sortCells G) (((sortCells G).length : Int) - 1)
    (by omega) (by omega)
  have hbetween : ∀ x ∈ G,
      ((sortCells G).get ⟨(0 : Int).toNat, b0⟩).depth ≤ x.depth ∧
      x.depth ≤ ((sortCells G).get ⟨(((sortCells G).length : Int) - 1).toNat, b3⟩).depth := by
    intro x hx
    have hx2 : x ∈ sortCells G := hperm.mem_iff.2 hx
    obtain ⟨n, hn⟩ := List.mem_iff_get.1 hx2
    rw [← hn]
    exact ⟨sortCells_get_le G _ _ _ _ (by simp), sortCells_get_le G _ _ _ _ (by omega)⟩
  unfold continentalCell
  rw [if_neg h]
  simp only [hG, e0, e1, afterLake, c1, e2, c2, c3]
  refine ⟨_, rfl, rfl, l1p, l2p, u2, ?_, ?_, ?_, hbetween, ?_, ?_⟩
  · exact sortCells_get_le G _ _ _ _ (by simp)
  · exact sortCells_get_le G _ _ _ _ (by omega)
  · exact sortCells_get_le G _ _ _ _ (by omega)
  · exact ⟨_, hperm.mem_iff.1 (List.get_mem _ _ _), rfl⟩
  · exact ⟨_, hperm.mem_iff.1 (List.get_mem _ _ _), rfl⟩

theorem callZ_cell_ocean (k : ZConsts) (a : ZArrays) (I J : Nat) (h : a.FOCEAN I J ≠ 0) :
    callZ_cell k a I J = oceanCell k a I J := by
  unfold callZ_cell; rw [if_pos h]

theorem callZ_cell_continental (k : ZConsts) (a : ZArrays) (I J : Nat)
    (h : a.FOCEAN I J = 0) :
    callZ_cell k a I J = (continentalCell k a I J).map (fun c => c.out) := by
  unfold callZ_cell; rw [if_neg (not_not.2 h)]

theorem continentalCell_no_area (k : ZConsts) (a : ZArrays) (I J : Nat)
    (h : (gather a (scanned k I J)).2.1 = 0) :
    continentalCell k a I J = Except.error (ZError.continentalNoArea I J) := by
  unfold continentalCell; rw [if_pos h]

theorem callZ_ocean_raises_iff (k : ZConsts) (a : ZArrays) (I J : Nat) :
    callZ_cell k a I J = Except.error (ZError.oceanNoOcean I J) ↔
      (a.FOCEAN I J ≠ 0 ∧
        ∀ p ∈ scanned k I J, ¬ (a.FOCEN2 p.1 p.2 = 1 ∧ a.ZSOLD2 p.1 p.2 < 999999)) := by
  by_cases hO : a.FOCEAN I J ≠ 0
  · rw [callZ_cell_ocean k a I J hO, ← ocean_fold_eq_iff]
    unfold oceanCell
    by_cases hz : (scanned k I J).foldl (oceanStep a) 999999 = 999999
    · rw [if_pos hz]; exact ⟨fun _ => ⟨hO, hz⟩, fun _ => rfl⟩
    · rw [if_neg hz]
      constructor
      · intro h; cases h
      · intro h; exact absurd h.2 hz
  · rw [callZ_cell_continental k a I J (not_not.1 hO)]
    constructor
    · intro h
      by_cases hs : (gather a (scanned k I J)).2.1 = 0
      · rw [continentalCell_no_area k a I J hs] at h
        cases h
      · obtain ⟨c, hc, -⟩ := continentalCell_ok k a I J hs
        rw [hc] at h
        cases h
    · intro h; exact absurd h.1 hO

theorem callZ_continental_raises_iff (k : ZConsts) (a : ZArrays) (I J : Nat) :
    callZ_cell k a I J = Except.error (ZError.continentalNoArea I J) ↔
      (a.FOCEAN I J = 0 ∧ (gather a (scanned k I J)).2.1 = 0) := by
  by_cases hO : a.FOCEAN I J ≠ 0
  · rw [callZ_cell_ocean k a I J hO]
    unfold oceanCell
    constructor
    · intro h
      split at h <;> cases h
    · intro h; exact absurd h.1 hO
  · rw [callZ_cell_continental k a I J (not_not.1 hO)]
    by_cases hs : (gather a (scanned k I J)).2.1 = 0
    · rw [continentalCell_no_area k a I J hs]
      exact ⟨fun _ => ⟨not_not.1 hO, hs⟩, fun _ => rfl⟩
    · obtain ⟨c, hc, -⟩ := continentalCell_ok k a I J hs
      rw [hc]
      constructor
      · intro h; cases h
      · intro h; exact absurd h.2 hs

theorem mem_gather_cells (a : ZArrays) (l : List (Nat × Nat)) (x : AreaDepth) :
    x ∈ (gather a l).1 ↔
      ∃ p ∈ l, a.FOCEN2 p.1 p.2 ≠ 1 ∧ x = ⟨a.dxyp p.2, a.ZSOLD2 p.1 p.2⟩ := by
  rw [gather_spec]
  simp only [List.mem_map, List.mem_filter, decide_eq_true_eq]
  constructor
  · rintro ⟨p, ⟨hp, hne⟩, rfl⟩; exact ⟨p, hp, hne, rfl⟩
  · rintro ⟨p, hp, hne, rfl⟩; exact ⟨p, ⟨hp, hne⟩, rfl⟩

theorem updateAt_fold (J2 : Nat) (g : Nat → Cell2 → Cell2) (l : List Nat) (hl : l.Nodup) :
    ∀ (s : Nat → Nat → Cell2) (i j : Nat),
      (l.foldl (fun s I2 => updateAt s I2 J2 (g I2)) s) i j
        = if i ∈ l ∧ j = J2 then g i (s i j) else s i j := by
  induction l with
  | nil => intro s i j; simp
  | cons x xs ih =>
    intro s i j
    rw [List.nodup_cons] at hl
    rw [List.foldl_cons, ih hl.2]
    by_cases hx : i = x ∧ j = J2
    · obtain ⟨rfl, rfl⟩ := hx
      simp [updateAt, hl.1]
    · by_cases hm : i ∈ xs ∧ j = J2
      · have hne : i ≠ x := fun h => hx ⟨h, hm.2⟩
        have e : updateAt s x J2 (g x) i j = s i j := by
          unfold updateAt; rw [if_neg hx]
        rw [if_pos hm, if_pos ⟨List.mem_cons_of_mem _ hm.1, hm.2⟩, e]
      · have e : updateAt s x J2 (g x) i j = s i j := by
          unfold updateAt; rw [if_neg hx]
        rw [if_neg hm, e, if_neg]
        rintro ⟨h1, h2⟩
        rcases List.mem_cons.1 h1 with h | h
        · exact hx ⟨h, h2⟩
        · exact hm ⟨h, h2⟩

theorem antarcticRow_apply (k : ZConsts) (ZETOP2 : Nat → Nat → ℚ) (J2 : Nat)
    (s : Nat → Nat → Cell2) (i j : Nat) :
    antarcticRow k ZETOP2 J2 s i j
      = if (1 ≤ i ∧ i ≤ k.JM2) ∧ j = J2 then antarcticBody (ZETOP2 i j) (s i j) else s i j := by
  unfold antarcticRow
  rw [updateAt_fold J2 (fun I2 => antarcticBody (ZETOP2 I2 J2)) _ (List.nodup_range' 1 k.JM2)]
  have e : i ∈ List.range' 1 k.JM2 ↔ (1 ≤ i ∧ i ≤ k.JM2) := by
    rw [List.mem_range'_1]; omega
  by_cases h : (1 ≤ i ∧ i ≤ k.JM2) ∧ j = J2
  · rw [if_pos h, if_pos ⟨e.2 h.1, h.2⟩, h.2]
  · rw [if_neg h, if_neg]
    rintro ⟨h1, h2⟩
    exact h ⟨e.1 h1, h2⟩

theorem rows_fold (k : ZConsts) (ZETOP2 : Nat → Nat → ℚ) (l : List Nat) (hl : l.Nodup) :
    ∀ (s : Nat → Nat → Cell2) (i j : Nat),
      (l.foldl (fun s J2 => antarcticRow k ZETOP2 J2 s) s) i j
        = if (1 ≤ i ∧ i ≤ k.JM2) ∧ j ∈ l then antarcticBody (ZETOP2 i j) (s i j)
          else s i j := by
  induction l with
  | nil => intro s i j; simp
  | cons x xs ih =>
    intro s i j
    rw [List.nodup_cons] at hl
    rw [List.foldl_cons, ih hl.2, antarcticRow_apply]
    by_cases hi : 1 ≤ i ∧ i ≤ k.JM2
    · by_cases hx : j = x
      · subst hx
        simp [hi, hl.1]
      · by_cases hm : j ∈ xs
        · simp [hi, hx, hm]
        · simp [hi, hx, hm]
    · simp [hi]

theorem antarcticArea_apply (k : ZConsts) (ZETOP2 : Nat → Nat → ℚ) (s : Nat → Nat → Cell2)
    (i j : Nat) :
    antarcticArea k ZETOP2 s i j
      = if (1 ≤ i ∧ i ≤ k.JM2) ∧ (1 ≤ j ∧ j ≤ k.JM2 / 6)
        then antarcticBody (ZETOP2 i j) (s i j) else s i j := by
  unfold antarcticArea
  rw [rows_fold k ZETOP2 _ (List.nodup_range' 1 (k.JM2 / 6))]
  have e : j ∈ List.range' 1 (k.JM2 / 6) ↔ (1 ≤ j ∧ j ≤ k.JM2 / 6) := by
    rw [List.mem_range'_1]; omega
  simp only [e]

theorem antarcticBody_zero_one (zetop2 : ℚ) (c : Cell2) (h : c.FOCEN2 = 0 ∨ c.FOCEN2 = 1) :
    ((antarcticBody zetop2 c).FOCEN2 = 0 ∨ (antarcticBody zetop2 c).FOCEN2 = 1) ∧
    ((antarcticBody zetop2 c).FCONT2 = 0 ∨ (antarcticBody zetop2 c).FCONT2 = 1) ∧
    ((antarcticBody zetop2 c).FGICE2 = 0 ∨ (antarcticBody zetop2 c).FGICE2 = 1) ∧
    (antarcticBody zetop2 c).FCONT2 = 1 - (antarcticBody zetop2 c).FOCEN2 := by
  unfold antarcticBody
  by_cases h0 : c.FOCEN2 = 0
  · rw [if_pos h0]
    simp [h0]
  · rw [if_neg h0]
    have h1 : c.FOCEN2 = 1 := h.resolve_left h0
    by_cases hg : c.FGICE2 ≤ 1 / 2
    · rw [if_pos hg]
      simp [h1]
    · rw [if_neg hg, if_pos (not_le.1 hg)]
      simp

theorem planPasses_succ (g : Grids) (thr : Int) (n k jO iO : Nat) :
    planPasses g thr (n + 1) k jO iO =
      if jO < g.jm ∧ iO < g.im then
        ⟨k, jO, iO, (scanRows g thr (g.jm - jO) jO iO 0).1,
            (scanRows g thr (g.jm - jO) jO iO 0).2.1⟩ ::
          planPasses g thr n (k + 1) (scanRows g thr (g.jm - jO) jO iO 0).1
            (scanRows g thr (g.jm - jO) jO iO 0).2.1
      else [] := by
  simp only [planPasses]

theorem planPasses_ne_nil (g : Grids) (thr : Int) (n k jO iO : Nat)
    (h : planPasses g thr n k jO iO ≠ []) : jO < g.jm ∧ iO < g.im := by
  cases n with
  | zero => exact absurd rfl h
  | succ n =>
    rw [planPasses_succ] at h
    by_contra hc
    rw [if_neg hc] at h
    exact h rfl

theorem planPasses_of_planLoop (g : Grids) (thr : Int) :
    ∀ (fuel k jO iO : Nat) (chunks : List Chunk),
      planLoop g thr fuel k jO iO = some chunks → planPasses g thr fuel k jO iO = chunks := by
  intro fuel
  induction fuel with
  | zero => intro k jO iO chunks h; simp [planLoop] at h
  | succ fuel ih =>
    intro k jO iO chunks h
    rw [planLoop_succ] at h
    rw [planPasses_succ]
    by_cases hc : jO < g.jm ∧ iO < g.im
    · rw [if_pos hc] at h ⊢
      obtain ⟨rest, hrest, rfl⟩ := Option.map_eq_some'.1 h
      rw [ih _ _ _ _ hrest]
    · rw [if_neg hc] at h ⊢
      simpa using h

theorem planPasses_extend (g : Grids) (thr : Int) :
    ∀ (n k jO iO : Nat),
      ∃ rest, planPasses g thr (n + 1) k jO iO = planPasses g thr n k jO iO ++ rest := by
  intro n
  induction n with
  | zero => intro k jO iO; exact ⟨_, (List.nil_append _).symm⟩
  | succ n ih =>
    intro k jO iO
    have e1 := planPasses_succ g thr (n + 1) k jO iO
    have e2 := planPasses_succ g thr n k jO iO
    by_cases hc : jO < g.jm ∧ iO < g.im
    · rw [if_pos hc] at e1 e2
      obtain ⟨rest, hrest⟩ := ih (k + 1) (scanRows g thr (g.jm - jO) jO iO 0).1
        (scanRows g thr (g.jm - jO) jO iO 0).2.1
      exact ⟨rest, by rw [e1, e2, hrest, List.cons_append]⟩
    · rw [if_neg hc] at e1 e2
      exact ⟨[], by rw [e1, e2, List.append_nil]⟩

theorem planPasses_crossing (g : Grids) (thr : Int) (hthr : 1 ≤ thr) :
    ∀ (n k jO iO : Nat), ∀ c ∈ (planPasses g thr n k jO iO).dropLast, Crossing g thr c := by
  intro n
  induction n with
  | zero => intro k jO iO c hcm; simp [planPasses] at hcm
  | succ n ih =>
    intro k jO iO c hcm
    rw [planPasses_succ] at hcm
    by_cases hc : jO < g.jm ∧ iO < g.im
    · rw [if_pos hc] at hcm
      obtain ⟨hp, hT, hF⟩ := scan_step g thr jO iO hc
      obtain ⟨sT, -, sLt⟩ :=
        scanPos_spec g thr (g.jm * g.im - pos g.im jO iO) (pos g.im jO iO) 0
      rw [hp] at sT sLt
      cases hrest : planPasses g thr n (k + 1) (scanRows g thr (g.jm - jO) jO iO 0).1
          (scanRows g thr (g.jm - jO) jO iO 0).2.1 with
      | nil => rw [hrest] at hcm; simp at hcm
      | cons r rest =>
        have hnext := planPasses_ne_nil g thr n (k + 1) _ _ (by rw [hrest]; simp)
        rw [hrest, List.dropLast_cons₂, List.mem_cons] at hcm
        rcases hcm with rfl | hcm
        · have hb : (scanRows g thr (g.jm - jO) jO iO 0).2.2.2 = true := by
            by_contra hb
            have hb2 : (scanRows g thr (g.jm - jO) jO iO 0).2.2.2 = false := by
              simpa using hb
            obtain ⟨e1, -⟩ := hF hb2
            have := hnext.1
            omega
          obtain ⟨a1, -, a3, a4⟩ := sT hb
          refine ⟨(hT hb).1, (hT hb).2, a1, ?_, ?_⟩
          · simp only [runCount_eq]
            simp only [zero_add] at a3
            rw [← a3]; exact a4
          · intro q h1 h2
            have := sLt (by omega) q h1 h2
            simpa [runCount_eq] using this
        · have := ih (k + 1) (scanRows g thr (g.jm - jO) jO iO 0).1
            (scanRows g thr (g.jm - jO) jO iO 0).2.1 c
          rw [hrest] at this
          exact this hcm
    · rw [if_neg hc] at hcm
      simp at hcm

theorem cellIce_all_ice (g : Grids) (c : Nat × Nat) (hO : g.fgiceO c.1 c.2 ≠ 0)
    (hI : ∀ j i, g.fgiceI j i ≠ 0) : cellIce g c = ((g.mult_j * g.mult_i : Nat) : Int) := by
  unfold cellIce
  rw [if_pos hO]
  have hf : ∀ l : List (Nat × Nat),
      l.filter (fun f => decide (g.fgiceI f.1 f.2 ≠ 0)) = l := by
    intro l
    rw [List.filter_eq_self]
    intro f _
    simpa using hI f.1 f.2
  rw [hf]
  have hl : ∀ (rows : List Nat) (m s : Nat),
      (rows.flatMap (fun jI => (List.range' s m).map (fun iI => (jI, iI)))).length
        = rows.length * m := by
    intro rows m s
    induction rows with
    | nil => simp
    | cons a rows ih =>
      rw [List.flatMap_cons, List.length_append, ih]
      simp only [List.length_map, List.length_range', List.length_cons]
      ring
  rw [hl]
  simp

/-! ## The claims -/

/-- C1 (as stated, refuted).  On the grid `g12` (one row of two coarse cells,
all ice) with threshold 2, planning mode returns the two descriptors
`(0,0)..(0,1)` and `(0,1)..(1,0)`.  Read as closed ranges, start through end
inclusive, they list coarse cell `(0,1)` twice and the position `(1,0)`
outside the grid, so their concatenation is not the scan order. -/
theorem C1_inclusive_reading_overlaps :
    planChunks g12 2 5 = some [⟨0, 0, 0, 0, 1⟩, ⟨1, 0, 1, 1, 0⟩] ∧
    (([⟨0, 0, 0, 0, 1⟩, ⟨1, 0, 1, 1, 0⟩] : List Chunk).map (coveredIncl g12.im)).flatten
      = [(0, 0), (0, 1), (0, 1), (1, 0)] ∧
    ¬ ((([⟨0, 0, 0, 0, 1⟩, ⟨1, 0, 1, 1, 0⟩] : List Chunk).map
        (coveredIncl g12.im)).flatten).Nodup ∧
    (([⟨0, 0, 0, 0, 1⟩, ⟨1, 0, 1, 1, 0⟩] : List Chunk).map (coveredIncl g12.im)).flatten
      ≠ scanOrder g12.jm g12.im := by
  decide

/-- C1 (amended).  Whenever planning mode returns, its descriptors, each read
as the half-open range from its start up to but not including its end in
row-major order, cover every coarse cell exactly once: the concatenation of
the ranges in chunk order is the full scan order, it has no repeated cell,
and a cell lies in it exactly when it is a cell of the coarse grid. -/
theorem C1_half_open_ranges_partition (g : Grids) (thr : Int) (fuel : Nat)
    (chunks : List Chunk) (h : planChunks g thr fuel = some chunks) :
    (chunks.map (coveredExcl g.im)).flatten = scanOrder g.jm g.im ∧
    ((chunks.map (coveredExcl g.im)).flatten).Nodup ∧
    ∀ j i, (j, i) ∈ (chunks.map (coveredExcl g.im)).flatten ↔ (j < g.jm ∧ i < g.im) := by
  have hc := planChunks_cover g thr fuel chunks h
  rw [hc]
  exact ⟨rfl, scanOrder_nodup _ _, fun j i => mem_scanOrder _ _ j i⟩

/-- Witness for C1 (amended): the two descriptors planned on `g12` with
threshold 2, read half-open, concatenate to the scan order of `g12`. -/
theorem C1_half_open_ranges_partition_witness :
    planChunks g12 2 5 = some [⟨0, 0, 0, 0, 1⟩, ⟨1, 0, 1, 1, 0⟩] ∧
    (([⟨0, 0, 0, 0, 1⟩, ⟨1, 0, 1, 1, 0⟩] : List Chunk).map (coveredExcl g12.im)).flatten
      = scanOrder g12.jm g12.im :=
  ⟨by decide, (C1_half_open_ranges_partition g12 2 5 _ (by decide)).1⟩

/-- C2 (code defect, evaluated).  On `g12` with threshold 2 planning mode
emits the descriptors `(0,0)..(0,1)` and `(0,1)..(1,0)`.  Fine cell `(0,0)` is
selected by the first one (its coarse cell `(0,0)` is at the start and before
the end, `fgiceO` and `fgiceI` are nonzero there), yet the mask built for
that descriptor holds the sentinel at `(0,0)`: the row loop
`jO < chunk_range[1][0]` never enters the end row.  The mask of the second
descriptor holds the sentinel there as well.  In general, for every grid and
descriptor, every fine cell whose coarse row is the end row of the
descriptor (or a later one) holds the sentinel. -/
theorem C2_end_row_left_sentinel :
    (planChunks g12 2 5 = some [⟨0, 0, 0, 0, 1⟩, ⟨1, 0, 1, 1, 0⟩] ∧
      Selected g12 ⟨0, 0, 0, 0, 1⟩ 0 0 ∧
      g12.elevI 0 0 = 500 ∧
      chunkMask g12 ⟨0, 0, 0, 0, 1⟩ 0 0 = none ∧
      chunkMask g12 ⟨1, 0, 1, 1, 0⟩ 0 0 = none) ∧
    (∀ (g : Grids) (c : Chunk) (jI iI : Nat),
      c.j1 ≤ jI / g.mult_j → chunkMask g c jI iI = none) := by
  refine ⟨⟨by decide, ?_, by decide, by decide, by decide⟩, chunkMask_end_row⟩
  unfold Selected
  decide

/-- C3.  In execution mode, for every descriptor and every fine cell, the
mask value is non-sentinel only if the cell is selected (its coarse cell lies
at or after the start and before the end of the descriptor in row-major
order, `fgiceO` is nonzero there and `fgiceI` is nonzero at the cell), and it
then is the elevation `elevI` of the cell; every other fine cell holds the
sentinel. -/
theorem C3_nonsentinel_only_if_selected (g : Grids) (c : Chunk) (jI iI : Nat) :
    (chunkMask g c jI iI ≠ none →
      Selected g c jI iI ∧ chunkMask g c jI iI = some (g.elevI jI iI)) ∧
    (¬ Selected g c jI iI → chunkMask g c jI iI = none) := by
  have h := chunkMask_ok g c jI iI
  refine ⟨fun hne => ⟨(h hne).1.1, (h hne).2⟩, fun hn => ?_⟩
  by_contra hne
  exact hn (h hne).1.1

/-- Witness for C3: in the mask of descriptor `(0,1)..(1,0)` on `g12` the
fine cell `(0,1)` is non-sentinel, and it is a selected cell. -/
theorem C3_nonsentinel_only_if_selected_witness :
    chunkMask g12 ⟨1, 0, 1, 1, 0⟩ 0 1 ≠ none ∧ Selected g12 ⟨1, 0, 1, 1, 0⟩ 0 1 :=
  ⟨by decide, ((C3_nonsentinel_only_if_selected g12 ⟨1, 0, 1, 1, 0⟩ 0 1).1 (by decide)).1⟩

/-- C4.  For a threshold of at least 1 and however many passes the chunk loop
of planning mode has made, whether or not it ever ends: every descriptor
emitted so far that is followed by another one ends at a coarse cell of the
grid, at or after its start, at which the running count taken from the
start up to and including that cell reaches the threshold, while the
running count up to every earlier cell of the scan is below the threshold:
the end is the first crossing.  The descriptors emitted in `n` passes
are kept by the next pass, and they are the list planning mode returns
when it returns within `n` passes. -/
theorem C4_nonfinal_end_is_first_crossing (g : Grids) (thr : Int) (n : Nat)
    (hthr : 1 ≤ thr) :
    (∀ c ∈ (planPasses g thr n 0 0 0).dropLast,
      c.j1 < g.jm ∧ c.i1 < g.im ∧
      pos g.im c.j0 c.i0 ≤ pos g.im c.j1 c.i1 ∧
      thr ≤ runCount g (pos g.im c.j0 c.i0) (pos g.im c.j1 c.i1) ∧
      ∀ q, pos g.im c.j0 c.i0 ≤ q → q < pos g.im c.j1 c.i1 →
        runCount g (pos g.im c.j0 c.i0) q < thr) ∧
    (∃ rest, planPasses g thr (n + 1) 0 0 0 = planPasses g thr n 0 0 0 ++ rest) ∧
    (∀ chunks, planChunks g thr n = some chunks → planPasses g thr n 0 0 0 = chunks) :=
  ⟨planPasses_crossing g thr hthr n 0 0 0, planPasses_extend g thr n 0 0 0,
    fun chunks h => planPasses_of_planLoop g thr n 0 0 0 chunks h⟩

/-- Witness for C4: on `g12` with threshold 1, the ice-cell count under one
coarse cell, planning mode never returns; its first three passes emit three
descriptors `(0,0)..(0,0)`, and the first of them ends where the running
count first reaches 1. -/
theorem C4_nonfinal_end_is_first_crossing_witness :
    (1 : Int) ≤ 1 ∧
    planPasses g12 1 3 0 0 0 = [⟨0, 0, 0, 0, 0⟩, ⟨1, 0, 0, 0, 0⟩, ⟨2, 0, 0, 0, 0⟩] ∧
    (1 : Int) ≤ runCount g12 (pos g12.im 0 0) (pos g12.im 0 0) :=
  ⟨by decide, by decide,
    ((C4_nonfinal_end_is_first_crossing g12 1 3 (by decide)).1 ⟨0, 0, 0, 0, 0⟩
      (by decide)).2.2.2.1⟩

/-- C5 (code defect, evaluated).  On `gHeavy` (one coarse cell over 2000 x 2000
fine cells, all ice) the ice-cell count under the coarse cell is 4,000,000,
equal to the threshold `chunk_size` built into the program, and the chunk
loop never ends: the scan leaves `(jO, iO)` at the crossing cell `(0,0)`, the
loop condition stays true and the next pass crosses at the same cell again.
Whatever the fuel, planning mode does not return.  In general the chunk
loop never leaves a coarse cell of the grid that is flagged in `fgiceO` and
alone holds at least threshold ice cells. -/
theorem C5_threshold_equal_cell_count_diverges :
    (cellIce gHeavy (0, 0) = chunk_size ∧
      ∀ fuel : Nat, planChunks gHeavy chunk_size fuel = none) ∧
    (∀ (g : Grids) (thr : Int) (jO iO : Nat), jO < g.jm → iO < g.im →
      g.fgiceO jO iO ≠ 0 → thr ≤ cellIce g (jO, iO) →
      ∀ fuel n : Nat, planLoop g thr fuel n jO iO = none) := by
  have hc : cellIce gHeavy (0, 0) = chunk_size := by
    rw [cellIce_all_ice gHeavy (0, 0) (by simp [gHeavy]) (by simp [gHeavy])]
    simp [gHeavy, chunk_size]
  refine ⟨⟨hc, fun fuel => ?_⟩, planLoop_stuck⟩
  exact planLoop_stuck gHeavy chunk_size 0 0 (by decide) (by decide) (by simp [gHeavy])
    (by rw [hc]) fuel 0

/-- C6.  For positive grid dimensions, `main` ends with the configuration
error exactly when `hspecI.im` is not a multiple of `hspecO.im` or `hspecI.jm`
is not a multiple of `hspecO.jm`; and when it does, none of the later stages
(field reading, regridding, mask construction, overlap and matrix
generation, planning) has been performed. -/
theorem C6_config_error_iff_not_multiple (imO jmO imI jmI : Int) (run_chunk : Bool)
    (h1 : 0 < imO) (h2 : 0 < jmO) (h3 : 0 < imI) (h4 : 0 < jmI) :
    ((main_run imO jmO imI jmI run_chunk).outcome = Outcome.configError ↔
      (¬ (imO ∣ imI) ∨ ¬ (jmO ∣ jmI))) ∧
    ((main_run imO jmO imI jmI run_chunk).outcome = Outcome.configError →
      (main_run imO jmO imI jmI run_chunk).stages = []) :=
  main_run_check imO jmO imI jmI run_chunk h1 h2 h3 h4

/-- Witness for C6: a 5 x 4 fine grid over a 2 x 2 coarse grid is rejected
before any stage, since 2 does not divide 5. -/
theorem C6_config_error_iff_not_multiple_witness :
    ((0 : Int) < 2 ∧ (0 : Int) < 5 ∧ (0 : Int) < 4) ∧
    (main_run 2 2 5 4 true).outcome = Outcome.configError ∧
    (main_run 2 2 5 4 true).stages = [] :=
  ⟨by decide,
    (C6_config_error_iff_not_multiple 2 2 5 4 true (by decide) (by decide) (by decide)
      (by decide)).1.2 (Or.inl (by decide)),
    (C6_config_error_iff_not_multiple 2 2 5 4 true (by decide) (by decide) (by decide)
      (by decide)).2 (by decide)⟩

/-- C7.  For every finite sequence of overlap events and every mask, the
exchange grid that `ExchAccum::add` builds from the empty grid is exactly the
subsequence of the events whose I-side index has a non-sentinel mask value,
in event order and with the areas unchanged (from any grid, those events are
appended to it); an event whose I-side mask value is the sentinel leaves the
exchange grid and both registries unchanged. -/
theorem C7_exgrid_is_retained_subsequence (mask : Nat → Option Int) (events : List Event) :
    (ExchAccum.addAll mask ExchAccum.empty events).exgrid.entries = retained mask events ∧
    (∀ st : ExchAccum, (ExchAccum.addAll mask st events).exgrid.entries
        = st.exgrid.entries ++ retained mask events) ∧
    (∀ (st : ExchAccum) (index : Nat × Nat) (area : ℚ),
      mask index.2 = none → ExchAccum.add mask st index area = st) := by
  refine ⟨?_, addAll_entries mask events, add_sentinel mask⟩
  have := addAll_entries mask events ExchAccum.empty
  simpa [ExchAccum.empty] using this

/-- Witness for C7: with a mask that is non-sentinel only at I-cell 7, of
three events the two at I-cell 7 are kept, in order. -/
theorem C7_exgrid_is_retained_subsequence_witness :
    (ExchAccum.addAll (fun i => if i = 7 then some 500 else none) ExchAccum.empty
        [((1, 7), 3), ((1, 8), 2), ((2, 7), 5)]).exgrid.entries
      = [((1, 7), 3), ((2, 7), 5)] :=
  (C7_exgrid_is_retained_subsequence (fun i => if i = 7 then some 500 else none)
    [((1, 7), 3), ((1, 8), 2), ((2, 7), 5)]).1.trans (by decide)

/-- C8 (as stated, refuted).  An event of area 0 at an I-cell whose mask
value is non-sentinel is recorded by `ExchAccum::add`: the exchange grid then
holds an entry whose overlap area is not strictly positive. -/
theorem C8_zero_area_entry_recorded :
    (ExchAccum.addAll (fun _ => some 500) ExchAccum.empty [((0, 0), 0)]).exgrid.entries
      = [((0, 0), 0)] ∧
    ¬ (∀ e ∈ (ExchAccum.addAll (fun _ => some 500) ExchAccum.empty
        [((0, 0), 0)]).exgrid.entries, 0 < e.2) := by
  decide

/-- C8 (amended).  Every entry that `ExchAccum` records in the exchange grid
has a non-sentinel mask value at its I-side index and is one of the events of
the stream, area unchanged; so its area is strictly positive whenever every
event of the stream has strictly positive area. -/
theorem C8_entries_masked_and_from_stream (mask : Nat → Option Int) (events : List Event)
    (e : Event) (he : e ∈ (ExchAccum.addAll mask ExchAccum.empty events).exgrid.entries) :
    mask e.1.2 ≠ none ∧ e ∈ events ∧ ((∀ ev ∈ events, 0 < ev.2) → 0 < e.2) := by
  have h := addAll_entries mask events ExchAccum.empty
  simp only [ExchAccum.empty, List.nil_append] at h
  rw [show ExchAccum.empty = ⟨⟨[]⟩, ⟨[]⟩, ⟨[]⟩⟩ from rfl, h, retained, List.mem_filter] at he
  refine ⟨?_, he.1, fun hpos => hpos e he.1⟩
  intro hn
  rw [hn] at he
  simp at he

/-- Witness for C8 (amended): the entry kept at I-cell 7 has a non-sentinel
mask value. -/
theorem C8_entries_masked_and_from_stream_witness :
    (((1, 7), 3) : Event) ∈ (ExchAccum.addAll (fun i => if i = 7 then some 500 else none)
        ExchAccum.empty [((1, 7), 3), ((1, 8), 2)]).exgrid.entries ∧
    (fun i => if i = 7 then some (500 : Int) else none) (((1, 7), 3) : Event).1.2 ≠ none :=
  ⟨by decide,
    (C8_entries_masked_and_from_stream (fun i => if i = 7 then some 500 else none)
      [((1, 7), 3), ((1, 8), 2)] ((1, 7), 3) (by decide)).1⟩

/-- C9.  Starting from empty registries, after `ExchAccum` has processed an
event sequence, `dimO` (resp. `dimI`) consists of the distinct O-side (resp.
I-side) ids of the retained events in the order of their first occurrence,
paired with the dense indices 0, 1, 2, ... without holes; adding a retained
id again returns its rank of first occurrence and leaves the registry
unchanged; and in any registry, `add_dense` on an id already present returns
the recorded index and leaves the registry, hence its size, unchanged. -/
theorem C9_registries_rank_first_occurrence (mask : Nat → Option Int) (events : List Event) :
    ((ExchAccum.addAll mask ExchAccum.empty events).dimO.pairs
        = rankPairs (retainedO mask events) ∧
      (ExchAccum.addAll mask ExchAccum.empty events).dimI.pairs
        = rankPairs (retainedI mask events)) ∧
    (∀ ids : List Nat, (firstSeen ids).Nodup ∧ (∀ id, id ∈ firstSeen ids ↔ id ∈ ids) ∧
      (rankPairs ids).map Prod.fst = firstSeen ids ∧
      (rankPairs ids).map Prod.snd = List.range (firstSeen ids).length) ∧
    (∀ id ∈ retainedO mask events,
      (ExchAccum.addAll mask ExchAccum.empty events).dimO.add_dense id
        = ((firstSeen (retainedO mask events)).indexOf id,
            (ExchAccum.addAll mask ExchAccum.empty events).dimO)) ∧
    (∀ id ∈ retainedI mask events,
      (ExchAccum.addAll mask ExchAccum.empty events).dimI.add_dense id
        = ((firstSeen (retainedI mask events)).indexOf id,
            (ExchAccum.addAll mask ExchAccum.empty events).dimI)) ∧
    (∀ (s : SparseSet) (id d : Nat), s.to_dense id = some d →
      s.add_dense id = (d, s) ∧ (s.add_dense id).2.dense_extent = s.dense_extent) := by
  obtain ⟨hO, hI⟩ := addAll_dims mask events ExchAccum.empty
  have eO : (ExchAccum.addAll mask ExchAccum.empty events).dimO
      = SparseSet.mk (rankPairs (retainedO mask events)) := by
    rw [hO]
    show (SparseSet.mk []).addAll _ = _
    rw [← addAll_rankPairs]
  have eI : (ExchAccum.addAll mask ExchAccum.empty events).dimI
      = SparseSet.mk (rankPairs (retainedI mask events)) := by
    rw [hI]
    show (SparseSet.mk []).addAll _ = _
    rw [← addAll_rankPairs]
  refine ⟨⟨by rw [eO], by rw [eI]⟩, ?_, ?_, ?_, ?_⟩
  · intro ids
    refine ⟨firstSeen_nodup ids, mem_firstSeen ids, ?_, ?_⟩
    · unfold rankPairs
      exact List.map_fst_zip _ _ (by simp)
    · unfold rankPairs
      exact List.map_snd_zip _ _ (by simp)
  · intro id hid
    rw [eO]
    exact add_dense_present _ _ _ (to_dense_rankPairs _ _ hid)
  · intro id hid
    rw [eI]
    exact add_dense_present _ _ _ (to_dense_rankPairs _ _ hid)
  · intro s id d h
    have := add_dense_present s id d h
    exact ⟨this, by rw [this]⟩

/-- Witness for C9: retained O-side ids 5, 3, 5 give the registry
5 -> 0, 3 -> 1, and adding 5 again returns 0 and changes nothing. -/
theorem C9_registries_rank_first_occurrence_witness :
    (ExchAccum.addAll (fun _ => some 500) ExchAccum.empty
        [((5, 1), 1), ((3, 1), 1), ((5, 2), 1)]).dimO.pairs = [(5, 0), (3, 1)] ∧
    ((ExchAccum.addAll (fun _ => some 500) ExchAccum.empty
        [((5, 1), 1), ((3, 1), 1), ((5, 2), 1)]).dimO.add_dense 5).1 = 0 :=
  ⟨(C9_registries_rank_first_occurrence (fun _ => some 500)
      [((5, 1), 1), ((3, 1), 1), ((5, 2), 1)]).1.1.trans (by decide),
    (congrArg Prod.fst
      ((C9_registries_rank_first_occurrence (fun _ => some 500)
        [((5, 1), 1), ((3, 1), 1), ((5, 2), 1)]).2.2.1 5 (by decide))).trans (by decide)⟩

/-- C10.  Whatever the absent helper `sum(., ., '-')` returns, the operator
returned by `make_I2vX` has the destination weight vector
`I2vI * diag(sum(I2vI,1,'-')) * wM(IvX)`, and its source-column weight vector
`Mw` and flag `conservative` are those of `IvX`.  With the helper read as the
spec reads it (the vector of column sums), the destination weight vector is
`I2vI * diag(colsum(I2vI)) * wM(IvX)`, entry by entry
`sum_j I2vI(i,j) * colsum(I2vI)(j) * wM(IvX)(j)`. -/
theorem C10_make_I2vX_weights {a b c : Nat} (I2vI : Matrix (Fin a) (Fin b) ℚ)
    (IvX : Weighted_Eigen b c) (scale : Bool) :
    (∀ (sum0 : Matrix (Fin a) (Fin b) ℚ → Fin a → ℚ)
        (sum1 : Matrix (Fin a) (Fin b) ℚ → Fin b → ℚ),
      (make_I2vX sum0 sum1 I2vI IvX scale).wM
          = Matrix.mulVec (I2vI * Matrix.diagonal (sum1 I2vI)) IvX.wM ∧
      (make_I2vX sum0 sum1 I2vI IvX scale).Mw = IvX.Mw ∧
      (make_I2vX sum0 sum1 I2vI IvX scale).conservative = IvX.conservative) ∧
    (make_I2vX rowsum colsum I2vI IvX scale).wM
        = Matrix.mulVec (I2vI * Matrix.diagonal (colsum I2vI)) IvX.wM ∧
    (∀ i, (make_I2vX rowsum colsum I2vI IvX scale).wM i
        = ∑ j, I2vI i j * (∑ k, I2vI k j) * IvX.wM j) ∧
    (make_I2vX rowsum colsum I2vI IvX scale).Mw = IvX.Mw ∧
    (make_I2vX rowsum colsum I2vI IvX scale).conservative = IvX.conservative :=
  ⟨fun _ _ => ⟨rfl, rfl, rfl⟩, make_I2vX_wM I2vI IvX scale⟩

/-- C11.  With `params.scale` true, whatever the absent helper
`sum(., ., '-')` returns, the matrix of the operator returned by `make_I2vX`
is `diag(sum(I2vI,0,'-')) * I2vI * M(IvX)`.  With the helper read as the spec
reads it (the vector of row sums) the matrix is
`diag(rowsum(I2vI)) * I2vI * M(IvX)`, entry by entry
`rowsum(I2vI)(i) * sum_j I2vI(i,j) * M(IvX)(j,k)`. -/
theorem C11_make_I2vX_matrix_scaled {a b c : Nat} (I2vI : Matrix (Fin a) (Fin b) ℚ)
    (IvX : Weighted_Eigen b c) :
    (∀ (sum0 : Matrix (Fin a) (Fin b) ℚ → Fin a → ℚ)
        (sum1 : Matrix (Fin a) (Fin b) ℚ → Fin b → ℚ),
      (make_I2vX sum0 sum1 I2vI IvX true).M
        = Matrix.diagonal (sum0 I2vI) * I2vI * IvX.M) ∧
    (make_I2vX rowsum colsum I2vI IvX true).M
      = Matrix.diagonal (rowsum I2vI) * I2vI * IvX.M ∧
    (∀ i k, (make_I2vX rowsum colsum I2vI IvX true).M i k
      = (∑ j, I2vI i j) * ∑ j, I2vI i j * IvX.M j k) :=
  ⟨fun sum0 sum1 => make_I2vX_M_scaled sum0 sum1 I2vI IvX,
    make_I2vX_M_scaled rowsum colsum I2vI IvX,
    fun i k => scaled_entry rowsum colsum I2vI IvX i k⟩

/-- C12.  With `params.scale` false, the matrix of the operator returned by
`make_I2vX` is `I2vI * diag(1/wM(IvX)) * M(IvX)`, the reciprocal taken entry
by entry over the row-weight vector of `IvX`; entry by entry it is
`sum_j I2vI(i,j) * (1/wM(IvX)(j)) * M(IvX)(j,k)`.  The absent helper plays no
part in it. -/
theorem C12_make_I2vX_matrix_raw {a b c : Nat}
    (sum0 : Matrix (Fin a) (Fin b) ℚ → Fin a → ℚ)
    (sum1 : Matrix (Fin a) (Fin b) ℚ → Fin b → ℚ)
    (I2vI : Matrix (Fin a) (Fin b) ℚ) (IvX : Weighted_Eigen b c) :
    (make_I2vX sum0 sum1 I2vI IvX false).M
      = I2vI * Matrix.diagonal (fun i => 1 / IvX.wM i) * IvX.M ∧
    (∀ i k, (make_I2vX sum0 sum1 I2vI IvX false).M i k
      = ∑ j, I2vI i j * (1 / IvX.wM j) * IvX.M j k) :=
  ⟨make_I2vX_M_raw sum0 sum1 I2vI IvX, fun i k => raw_entry sum0 sum1 I2vI IvX i k⟩

/-- C14.  When every operator builds, `global_ec_section` requests and
persists the operators in exactly this sequence: metadata, build AvI, write
AvI, build EvI, write EvI, build IvE, write IvE, derive I2vE, write I2vE,
build IvA, write IvA, derive I2vA, write I2vA, build AvE, write AvE, and
only then the dimension maps dimA, dimE, dimI, dimI2; at every request to
the regridder all operators built before have been written and flushed; and
the artifact ends up holding these items in this order. -/
theorem C14_operator_sequence (ok : Op → Bool) (h : ∀ o, ok o = true) :
    buildsAndPuts (global_ec_section ok)
      = [ Cmd.putItem Item.metadata,
          Cmd.matrix_d Op.AvI, Cmd.putItem (Item.matrix Op.AvI),
          Cmd.matrix_d Op.EvI, Cmd.putItem (Item.matrix Op.EvI),
          Cmd.matrix_d Op.IvE, Cmd.putItem (Item.matrix Op.IvE),
          Cmd.make_I2vX Op.I2vE, Cmd.putItem (Item.matrix Op.I2vE),
          Cmd.matrix_d Op.IvA, Cmd.putItem (Item.matrix Op.IvA),
          Cmd.make_I2vX Op.I2vA, Cmd.putItem (Item.matrix Op.I2vA),
          Cmd.matrix_d Op.AvE, Cmd.putItem (Item.matrix Op.AvE),
          Cmd.putItem Item.dimA, Cmd.putItem Item.dimE, Cmd.putItem Item.dimI,
          Cmd.putItem Item.dimI2 ] ∧
    requestsAfterWrites (global_ec_section ok) [] [] = true ∧
    stored (global_ec_section ok)
      = [ Item.metadata, Item.matrix Op.AvI, Item.matrix Op.EvI, Item.matrix Op.IvE,
          Item.matrix Op.I2vE, Item.matrix Op.IvA, Item.matrix Op.I2vA, Item.matrix Op.AvE,
          Item.dimA, Item.dimE, Item.dimI, Item.dimI2 ] := by
  have e : global_ec_section ok = sectionScript := runCmds_all_ok ok h sectionScript
  rw [e]
  decide

/-- Witness for C14: the run in which every build succeeds. -/
theorem C14_operator_sequence_witness :
    (∀ o : Op, (fun _ => true) o = true) ∧
    requestsAfterWrites (global_ec_section (fun _ => true)) [] [] = true :=
  ⟨fun _ => rfl, (C14_operator_sequence (fun _ => true) (fun _ => rfl)).2.1⟩

/-- C15 (as stated, refuted).  When building EvI fails (all other builds
succeed), the artifact has been created and already holds the metadata and
the operator AvI, written and flushed before EvI was requested. -/
theorem C15_partial_artifact_left :
    (fun o => decide (o ≠ Op.EvI)) Op.EvI = false ∧
    fileCreated (global_ec_section (fun o => decide (o ≠ Op.EvI))) = true ∧
    stored (global_ec_section (fun o => decide (o ≠ Op.EvI)))
      = [Item.metadata, Item.matrix Op.AvI] := by
  decide

/-- C15 (amended).  If building an operator `o` fails while
`global_ec_section` processes a chunk, then there is a first failing
operator `f`; the artifact has been created, and it holds exactly what was
written and flushed before the build of `f`: nothing when `f` is AvI,
otherwise the metadata and the operators built before `f`.  Neither the
operator `o` nor any dimension map is written. -/
theorem C15_artifact_after_failure (ok : Op → Bool) (o : Op) (hfail : ok o = false) :
    (∃ f, firstFail ok = some f ∧ ok f = false ∧
      stored (global_ec_section ok) = storedBefore f) ∧
    fileCreated (global_ec_section ok) = true ∧
    Item.matrix o ∉ stored (global_ec_section ok) ∧
    Item.dimA ∉ stored (global_ec_section ok) ∧
    Item.dimE ∉ stored (global_ec_section ok) ∧
    Item.dimI ∉ stored (global_ec_section ok) ∧
    Item.dimI2 ∉ stored (global_ec_section ok) ∧
    (storedBefore Op.AvI = [] ∧
      storedBefore Op.EvI = [Item.metadata, Item.matrix Op.AvI] ∧
      storedBefore Op.IvE = [Item.metadata, Item.matrix Op.AvI, Item.matrix Op.EvI] ∧
      storedBefore Op.I2vE
        = [Item.metadata, Item.matrix Op.AvI, Item.matrix Op.EvI, Item.matrix Op.IvE] ∧
      storedBefore Op.IvA
        = [Item.metadata, Item.matrix Op.AvI, Item.matrix Op.EvI, Item.matrix Op.IvE,
            Item.matrix Op.I2vE] ∧
      storedBefore Op.I2vA
        = [Item.metadata, Item.matrix Op.AvI, Item.matrix Op.EvI, Item.matrix Op.IvE,
            Item.matrix Op.I2vE, Item.matrix Op.IvA] ∧
      storedBefore Op.AvE
        = [Item.metadata, Item.matrix Op.AvI, Item.matrix Op.EvI, Item.matrix Op.IvE,
            Item.matrix Op.I2vE, Item.matrix Op.IvA, Item.matrix Op.I2vA]) := by
  obtain ⟨rest, hrest⟩ := runCmds_before ok o hfail sectionScript
  obtain ⟨rest2, hrest2⟩ := stored_append (runCmds ok sectionScript) rest
  rw [← hrest] at hrest2
  have hsub : ∀ i, i ∈ stored (global_ec_section ok) → i ∈ storedBefore o := by
    intro i hi
    show i ∈ stored (beforeBuild o sectionScript)
    rw [hrest2]
    exact List.mem_append_left _ hi
  obtain ⟨l1, l2, l3, l4, l5⟩ := storedBefore_lacks o
  rcases section_run_cases ok with ⟨-, hall, -⟩ | ⟨f, hf, hokf, hrun⟩
  · rw [hall o] at hfail
    exact absurd hfail (by simp)
  · refine ⟨⟨f, hf, hokf, ?_⟩, ?_, fun hm => l1 (hsub _ hm), fun hm => l2 (hsub _ hm),
      fun hm => l3 (hsub _ hm), fun hm => l4 (hsub _ hm), fun hm => l5 (hsub _ hm),
      storedBefore_table⟩
    · rw [hrun]; rfl
    · rw [hrun]; exact beforeBuild_created f

/-- Witness for C15 (amended): with the build of IvA failing, the first
failing operator is IvA and the artifact holds the metadata, AvI, EvI, IvE
and I2vE. -/
theorem C15_artifact_after_failure_witness :
    (fun o => decide (o ≠ Op.IvA)) Op.IvA = false ∧
    Item.matrix Op.IvA ∉ stored (global_ec_section (fun o => decide (o ≠ Op.IvA))) ∧
    fileCreated (global_ec_section (fun o => decide (o ≠ Op.IvA))) = true :=
  ⟨by decide,
    (C15_artifact_after_failure (fun o => decide (o ≠ Op.IvA)) Op.IvA (by decide)).2.2.1,
    (C15_artifact_after_failure (fun o => decide (o ≠ Op.IvA)) Op.IvA (by decide)).2.1⟩

/-- C16 (code defect, evaluated).  In the run of `global_ec_section` in which
every build succeeds, AvI and EvI are gone when the next operator is
requested, but IvE is still alive when IvA is requested: `mat.release()`
makes the `unique_ptr` give the object up without deleting it.  Right after
the request of IvA two fine-grid operators are alive, both are still alive
when AvE is requested, and both are alive when the function returns. -/
theorem C16_fine_operators_never_freed :
    liveBefore Op.EvI (global_ec_section (fun _ => true)) = [] ∧
    liveBefore Op.IvE (global_ec_section (fun _ => true)) = [] ∧
    liveBefore Op.IvA (global_ec_section (fun _ => true)) = [Op.IvE] ∧
    liveRightAfter Op.IvA (global_ec_section (fun _ => true)) = [Op.IvE, Op.IvA] ∧
    liveBefore Op.AvE (global_ec_section (fun _ => true)) = [Op.IvE, Op.IvA] ∧
    liveAfter (global_ec_section (fun _ => true)) = [Op.IvE, Op.IvA] := by
  decide

/-- C17.  Round trip: for every chunk descriptor of non-negative integers, the
value `id,j0,i0,j1,i1` that `write_chunk_makefile` writes after `--runchunk`,
read by `ParseArgs`, gives `run_chunk = true`, `chunk_no = id` and
`chunk_range = {{j0,i0},{j1,i1}}`, without error. -/
theorem C17_runchunk_round_trip (c : Chunk) :
    parse_runchunk (runchunkValue c)
      = Except.ok ⟨true, (c.chunkno : Int),
          some (((c.j0 : Int), (c.i0 : Int)), ((c.j1 : Int), (c.i1 : Int)))⟩ :=
  parse_runchunk_roundtrip c

/-- C18.  For every output name, argument list and list of chunks, the text
produced by `write_chunk_makefile` is the build script laid out as: the
marker line `.NOTPARALLEL:`; one aggregate rule whose prerequisites are the
script itself and then the target of every chunk, once per chunk in chunk
order, and whose recipe is `combine_global_ec` followed by the same targets;
a blank line; and one rule per chunk, in chunk order, whose recipe is the
original argument list followed by `--runchunk` and the descriptor of that
chunk.  The text starts with the marker line, and chunks with distinct ids
have distinct targets. -/
theorem C18_makefile_layout (ofname : List Char) (arg_strings : List (List Char))
    (chunks : List Chunk) :
    write_chunk_makefile ofname arg_strings chunks
      = ".NOTPARALLEL:".toList ++ [nl]
        ++ renderRule ofname ((ofname ++ ".mk".toList) :: chunks.map (chunkTarget ofname))
            ("combine_global_ec".toList :: chunks.map (chunkTarget ofname))
        ++ [nl]
        ++ chunks.flatMap (fun c =>
            renderRule (chunkTarget ofname c) [ofname ++ ".mk".toList]
              (arg_strings ++ ["--runchunk".toList, runchunkValue c])) ∧
    (∃ rest, write_chunk_makefile ofname arg_strings chunks
      = ".NOTPARALLEL:".toList ++ [nl] ++ rest) ∧
    ((chunks.map (fun c => c.chunkno)).Nodup → (chunks.map (chunkTarget ofname)).Nodup) := by
  have h := write_chunk_makefile_layout ofname arg_strings chunks
  refine ⟨h, ?_, chunkTargets_nodup ofname chunks⟩
  rw [h]
  unfold makefileLayout
  exact ⟨renderRule ofname ((ofname ++ ".mk".toList) :: chunks.map (chunkTarget ofname))
      ("combine_global_ec".toList :: chunks.map (chunkTarget ofname)) ++ [nl]
    ++ chunks.flatMap (fun c =>
        renderRule (chunkTarget ofname c) [ofname ++ ".mk".toList]
          (arg_strings ++ ["--runchunk".toList, runchunkValue c])),
    by simp only [List.append_assoc]⟩

/-- Witness for C18: the script for output name `o`, the argument `p` and the
first chunk planned on `g12`. -/
theorem C18_makefile_layout_witness :
    String.mk (write_chunk_makefile "o".toList ["p".toList] [⟨0, 0, 0, 0, 1⟩])
      = String.mk (".NOTPARALLEL:".toList ++ [nl]
        ++ "o : o.mk o-00".toList ++ [nl]
        ++ [tab] ++ "combine_global_ec o-00".toList ++ [nl] ++ [nl]
        ++ "o-00 : o.mk".toList ++ [nl]
        ++ [tab] ++ "p --runchunk 0,0,0,0,1".toList ++ [nl]) :=
  congrArg String.mk
    ((C18_makefile_layout "o".toList ["p".toList] [⟨0, 0, 0, 0, 1⟩]).1.trans (by decide))

/-- C19 (code defect, evaluated).  For output name `global_ec.nc` and chunk 0
execution mode writes the artifacts `global_ec.nc-mismatched-00` and
`global_ec.nc-standard-00`, while the build script names the chunk
`global_ec.nc-00`, as target and as argument of the combiner.  For every
output name and chunk, the name used by the script is none of the artifacts
written for that chunk. -/
theorem C19_script_names_no_artifact :
    (artifactFiles "global_ec.nc".toList 0
        = ["global_ec.nc-mismatched-00".toList, "global_ec.nc-standard-00".toList] ∧
      chunkTarget "global_ec.nc".toList ⟨0, 0, 0, 0, 1⟩ = "global_ec.nc-00".toList) ∧
    (∀ (ofname : List Char) (c : Chunk),
      chunkTarget ofname c ∉ artifactFiles ofname c.chunkno) :=
  ⟨by decide, chunkTarget_not_artifact⟩

/-- C20 (code defect, evaluated).  The default value `-100,3700,200` of
`--elev-classes` is accepted by `ParseArgs` as `ec_range = {-100, 3700}`,
`ec_skip = 200`.  The loop of `new_gcmA_standard` then pushes -100 and, for
its increment, reads `args.ec_range[2]`, an element outside the two-element
array.  The same happens for every configuration with low at most high: the
step is never taken from `ec_skip`, which the loop does not read at all. -/
theorem C20_step_read_outside_array :
    (parse_ec "-100,3700,200".toList = Except.ok ⟨(-100, 3700), 200⟩ ∧
      new_gcmA_standard_hcdefs ⟨(-100, 3700), 200⟩ 1 = HcResult.outOfBounds [-100]) ∧
    (∀ (args : EcArgs) (fuel : Nat), args.ec_range.1 ≤ args.ec_range.2 →
      new_gcmA_standard_hcdefs args (fuel + 1) = HcResult.outOfBounds [args.ec_range.1]) ∧
    (∀ (args : EcArgs) (s : ℚ) (fuel : Nat),
      new_gcmA_standard_hcdefs { ec_range := args.ec_range, ec_skip := s } fuel
        = new_gcmA_standard_hcdefs args fuel) := by
  refine ⟨⟨parse_ec_default, ?_⟩, hcdefs_out_of_bounds, hcdefs_ignores_ec_skip⟩
  exact hcdefs_out_of_bounds ⟨(-100, 3700), 200⟩ 0 (by norm_num)

/-- C21 (counterexample).  The value `a,b,c,d,e` has five fields, none of them
a number, and the value `,,,,` has five empty fields; `ParseArgs` reports no
error for either: each field is read as 0 and the run goes on in execution
mode with chunk 0 and the range `(0,0)..(0,0)`. -/
theorem C21_non_numeric_fields_accepted :
    parse_runchunk "a,b,c,d,e".toList = Except.ok ⟨true, 0, some ((0, 0), (0, 0))⟩ ∧
    parse_runchunk ",,,,".toList = Except.ok ⟨true, 0, some ((0, 0), (0, 0))⟩ := by
  have h1 : parse_csv "a,b,c,d,e".toList = [0, 0, 0, 0, 0] := by decide
  have h2 : parse_csv ",,,,".toList = [0, 0, 0, 0, 0] := by decide
  have h3 : toInt 0 = 0 := by decide
  constructor
  · unfold parse_runchunk
    rw [if_neg (by decide), h1]
    simp [h3]
  · unfold parse_runchunk
    rw [if_neg (by decide), h2]
    simp [h3]

/-- C21 (amended).  `ParseArgs` reports the configuration error for a
`--runchunk` value exactly when the value is not empty and the number of its
comma-separated fields is not five.  The content of the fields is not
examined, so a value with five fields raises no error, whether the fields
are integers or not; the empty value stands for an absent option and raises
no error either. -/
theorem C21_error_iff_field_count (srunchunk : List Char) :
    ((parse_runchunk srunchunk = Except.error ArgError.runchunkCount) ↔
      (srunchunk ≠ [] ∧ (srunchunk.splitOn ',').length ≠ 5)) ∧
    ((∃ a, parse_runchunk srunchunk = Except.ok a) ↔
      (srunchunk = [] ∨ (srunchunk.splitOn ',').length = 5)) := by
  have hl : (parse_csv srunchunk).length = (srunchunk.splitOn ',').length := by
    simp [parse_csv]
  unfold parse_runchunk
  by_cases h0 : srunchunk = []
  · rw [if_pos h0]
    simp [h0]
  · rw [if_neg h0]
    by_cases h5 : (parse_csv srunchunk).length ≠ 5
    · rw [if_pos h5]
      rw [hl] at h5
      simp [h0, h5]
    · rw [if_neg h5]
      rw [hl] at h5
      have h6 : (srunchunk.splitOn ',').length = 5 := not_not.1 h5
      simp [h0, h6]

/-- C22 (code defect, evaluated).  On the 288 x 180 model grid over the
10800 x 5400 2-minute grid, model cell `(1,3)` is visited and holds the
2-minute columns 1..37 of rows 61..90.  The column loop of `callZ` starts at
`J21 = 61` and ends at `I2M = 37`, so it scans nothing: with every 2-minute
cell ocean, the ocean cell `(1,3)` is reported as having no ocean area,
although cell `(1,61)` of its block has `FOCEN2 = 1`.  In general the error is
decided on the cells of columns `J21..I2M`, not `I21..I2M`: an ocean cell
raises exactly when none of them has `FOCEN2 = 1` with `ZSOLD2` below
999999, and, with positive areas, a continental cell raises exactly when
all of them have `FOCEN2 = 1`. -/
theorem C22_error_decided_on_shifted_columns :
    (visited zconsts_1qx1 1 3 ∧ insideCell zconsts_1qx1 1 3 (1, 61) ∧
      zOcean.FOCEAN 1 3 ≠ 0 ∧ zOcean.FOCEN2 1 61 = 1 ∧
      scanned zconsts_1qx1 1 3 = [] ∧
      callZ_cell zconsts_1qx1 zOcean 1 3 = Except.error (ZError.oceanNoOcean 1 3)) ∧
    (∀ (k : ZConsts) (a : ZArrays) (I J : Nat),
      (∀ p : Nat × Nat, p ∈ scanned k I J ↔
        (k.J21 J ≤ p.1 ∧ p.1 ≤ k.I2M I J) ∧ (k.J21 J ≤ p.2 ∧ p.2 ≤ k.J2M J)) ∧
      (callZ_cell k a I J = Except.error (ZError.oceanNoOcean I J) ↔
        (a.FOCEAN I J ≠ 0 ∧
          ∀ p ∈ scanned k I J, ¬ (a.FOCEN2 p.1 p.2 = 1 ∧ a.ZSOLD2 p.1 p.2 < 999999))) ∧
      ((∀ p ∈ scanned k I J, 0 < a.dxyp p.2) →
        (callZ_cell k a I J = Except.error (ZError.continentalNoArea I J) ↔
          (a.FOCEAN I J = 0 ∧ ∀ p ∈ scanned k I J, a.FOCEN2 p.1 p.2 = 1)))) := by
  have hs : scanned zconsts_1qx1 1 3 = [] := scanned_empty zconsts_1qx1 1 3 (by decide)
  refine ⟨⟨by decide, by decide, by decide, rfl, hs, ?_⟩, ?_⟩
  · rw [callZ_ocean_raises_iff, hs]
    exact ⟨by decide, fun p hp => absurd hp (List.not_mem_nil p)⟩
  · intro k a I J
    refine ⟨mem_scanned k I J, callZ_ocean_raises_iff k a I J, ?_⟩
    intro hpos
    rw [callZ_continental_raises_iff, gather_area_zero_iff a _ hpos]

/-- C23 (code defect, evaluated).  On the 10800 x 5400 2-minute grid the
Antarctic area is rows 1..900, and the column loop of the correction runs to
`JM2 = 5400`, not to `IM2 = 10800`.  Cell `(5401, 1)` is therefore left as
it was: with ETOPO2 ocean there, an interpolated ice fraction 1/4 and a
stray value 7 in `FCONT2`, afterwards `FGICE2` is still 1/4, neither 0 nor
1, and `FCONT2` is still 7, not `1 - FOCEN2`; the neighbouring cell
`(5400, 1)` is corrected to ocean without ice.  In general no cell of a
column beyond `JM2` is changed, while every cell of columns `1..JM2` in rows
`1..JM2/6` with `FOCEN2` 0 or 1 on entry ends with `FOCEN2`, `FCONT2`, `FGICE2`
each 0 or 1 and `FCONT2 = 1 - FOCEN2`. -/
theorem C23_columns_beyond_JM2_untouched :
    (zconsts_1qx1.JM2 / 6 = 900 ∧ 5401 ≤ zconsts_1qx1.IM2 ∧
      (fineShelf 5401 1).FOCEN2 = 1 ∧
      (antarcticArea zconsts_1qx1 (fun _ _ => 0) fineShelf 5401 1).FGICE2 = 1 / 4 ∧
      (antarcticArea zconsts_1qx1 (fun _ _ => 0) fineShelf 5401 1).FCONT2 = 7 ∧
      (antarcticArea zconsts_1qx1 (fun _ _ => 0) fineShelf 5401 1).FOCEN2 = 1 ∧
      (antarcticArea zconsts_1qx1 (fun _ _ => 0) fineShelf 5400 1).FGICE2 = 0 ∧
      (antarcticArea zconsts_1qx1 (fun _ _ => 0) fineShelf 5400 1).FCONT2 = 0 ∧
      (antarcticArea zconsts_1qx1 (fun _ _ => 0) fineShelf 5400 1).FOCEN2 = 1) ∧
    (∀ (k : ZConsts) (ZETOP2 : Nat → Nat → ℚ) (s : Nat → Nat → Cell2) (i j : Nat),
      k.JM2 < i → antarcticArea k ZETOP2 s i j = s i j) ∧
    (∀ (k : ZConsts) (ZETOP2 : Nat → Nat → ℚ) (s : Nat → Nat → Cell2) (i j : Nat),
      1 ≤ i → i ≤ k.JM2 → 1 ≤ j → j ≤ k.JM2 / 6 →
      ((s i j).FOCEN2 = 0 ∨ (s i j).FOCEN2 = 1) →
      ((antarcticArea k ZETOP2 s i j).FOCEN2 = 0 ∨ (antarcticArea k ZETOP2 s i j).FOCEN2 = 1) ∧
      ((antarcticArea k ZETOP2 s i j).FCONT2 = 0 ∨ (antarcticArea k ZETOP2 s i j).FCONT2 = 1) ∧
      ((antarcticArea k ZETOP2 s i j).FGICE2 = 0 ∨ (antarcticArea k ZETOP2 s i j).FGICE2 = 1) ∧
      (antarcticArea k ZETOP2 s i j).FCONT2 = 1 - (antarcticArea k ZETOP2 s i j).FOCEN2) := by
  have hout : ∀ (k : ZConsts) (ZETOP2 : Nat → Nat → ℚ) (s : Nat → Nat → Cell2) (i j : Nat),
      k.JM2 < i → antarcticArea k ZETOP2 s i j = s i j := by
    intro k Z s i j h
    rw [antarcticArea_apply, if_neg]
    rintro ⟨⟨-, h2⟩, -⟩
    omega
  have hin : antarcticArea zconsts_1qx1 (fun _ _ => 0) fineShelf 5400 1
      = antarcticBody 0 (fineShelf 5400 1) := by
    rw [antarcticArea_apply, if_pos (by decide)]
  have hb : antarcticBody 0 (fineShelf 5400 1)
      = { FOCEN2 := 1, FCONT2 := 0, FGICE2 := 0, dZGIC2 := 0, ZSOLD2 := 0, ZSOLG2 := 0 } := by
    unfold antarcticBody fineShelf
    norm_num
  refine ⟨⟨by decide, by decide, rfl, ?_, ?_, ?_, ?_, ?_, ?_⟩, hout, ?_⟩
  · rw [hout _ _ _ _ _ (by decide)]; rfl
  · rw [hout _ _ _ _ _ (by decide)]; rfl
  · rw [hout _ _ _ _ _ (by decide)]; rfl
  · rw [hin, hb]
  · rw [hin, hb]
  · rw [hin, hb]
  · intro k Z s i j h1 h2 h3 h4 h
    rw [antarcticArea_apply, if_pos ⟨⟨h1, h2⟩, h3, h4⟩]
    exact antarcticBody_zero_one _ _ h

/-- C24.  After `setup_contract_modele`, for either coupling type and whatever
the contracts on entry, the GCM-input contract has the fields of the
ice-output contract, in the same order; the Ice->GCM transformer takes its
inputs from the ice-output contract, its outputs from the GCM-input contract
and has the one scalar `unit`; the recipes set on it are, field by field,
the copy of a field to the field of the same name with coefficient 1 on
`unit`; so an element of the transformer is 1 when its output is a field, its
input has the same name and its scalar is `unit`, and 0 otherwise. -/
theorem C24_ice_output_is_pure_copy (coupling_type : ModelE_CouplingType)
    (contract_input contract_output gcm_outputs ice_input_scalars : CouplingContract)
    (C2K : ℚ) :
    (setup_contract_modele coupling_type contract_input contract_output gcm_outputs
        ice_input_scalars C2K).gcm_inputs.fields
      = (setup_contract_modele coupling_type contract_input contract_output gcm_outputs
        ice_input_scalars C2K).ice_output.fields ∧
    (setup_contract_modele coupling_type contract_input contract_output gcm_outputs
        ice_input_scalars C2K).ice_output_vt.inputs
      = (setup_contract_modele coupling_type contract_input contract_output gcm_outputs
        ice_input_scalars C2K).ice_output.names ∧
    (setup_contract_modele coupling_type contract_input contract_output gcm_outputs
        ice_input_scalars C2K).ice_output_vt.outputs
      = (setup_contract_modele coupling_type contract_input contract_output gcm_outputs
        ice_input_scalars C2K).gcm_inputs.names ∧
    (setup_contract_modele coupling_type contract_input contract_output gcm_outputs
        ice_input_scalars C2K).ice_output_vt.scalars = ["unit"] ∧
    (setup_contract_modele coupling_type contract_input contract_output gcm_outputs
        ice_input_scalars C2K).ice_output_vt.recipes
      = (setup_contract_modele coupling_type contract_input contract_output gcm_outputs
        ice_input_scalars C2K).ice_output.fields.map
          (fun f => (⟨f.name, f.name, "unit", 1⟩ : Recipe)) ∧
    (∀ out inp s : String,
      (setup_contract_modele coupling_type contract_input contract_output gcm_outputs
        ice_input_scalars C2K).ice_output_vt.entry out inp s
      = if out ∈ (setup_contract_modele coupling_type contract_input contract_output
            gcm_outputs ice_input_scalars C2K).gcm_inputs.names ∧ inp = out ∧ s = "unit"
        then 1 else 0) := by
  have hg : ∀ c : CouplingContract, (copyFields c.fields new_CouplingContract) = c := by
    intro c
    have := copyFields_fields c.fields new_CouplingContract
    cases c with
    | mk fs =>
      simp only [new_CouplingContract, List.nil_append] at this
      cases hc : copyFields fs ⟨[]⟩ with
      | mk gs =>
        simp only [new_CouplingContract] at this ⊢
        rw [hc] at this
        simp only at this
        rw [hc, this]
  simp only [setup_contract_modele, hg, copyRecipes_spec, VarTransformer.set_names,
    List.nil_append]
  refine ⟨trivial, trivial, trivial, ?_, trivial, ?_⟩
  · simp [CouplingContract.names, CouplingContract.add_field, CouplingContract.add,
      new_CouplingContract]
  · intro out inp s
    exact entry_copy _ _ _ _ out inp s

/-- C25.  Whenever planning mode returns, the descriptors form a chain over
the scan: the first one starts at `(0,0)`, every later one starts at the
(row, col) where the one before it ends, the chunk ids are `0, 1, 2, ...` in
emission order, and the last one ends at `(jm, 0)`. -/
theorem C25_descriptors_chain (g : Grids) (thr : Int) (fuel : Nat) (chunks : List Chunk)
    (h : planChunks g thr fuel = some chunks) :
    (∀ c, chunks.head? = some c → c.j0 = 0 ∧ c.i0 = 0) ∧
    List.Chain' (fun a b : Chunk => b.j0 = a.j1 ∧ b.i0 = a.i1) chunks ∧
    chunks.map (fun c => c.chunkno) = List.range chunks.length ∧
    (∀ c, chunks.getLast? = some c → c.j1 = g.jm ∧ c.i1 = 0) := by
  obtain ⟨h1, h2, h3, h4⟩ := planLoop_chain g thr fuel 0 0 0 chunks h
  refine ⟨h2, h3, ?_, h4⟩
  rw [h1, List.range_eq_range']

/-- Witness for C25: on `g12` with threshold 2 planning returns the two
descriptors `0: (0,0)..(0,1)` and `1: (0,1)..(1,0)`, which chain and carry
the ids `[0, 1]`. -/
theorem C25_descriptors_chain_witness :
    planChunks g12 2 5 = some [⟨0, 0, 0, 0, 1⟩, ⟨1, 0, 1, 1, 0⟩] ∧
    ([⟨0, 0, 0, 0, 1⟩, ⟨1, 0, 1, 1, 0⟩] : List Chunk).map (fun c => c.chunkno)
      = List.range 2 :=
  ⟨by decide,
    (C25_descriptors_chain g12 2 5 [⟨0, 0, 0, 0, 1⟩, ⟨1, 0, 1, 1, 0⟩] (by decide)).2.2.1⟩

/-- C27.  For a continental model cell `(I,J)` on which `callZ` does not raise
its data error, the continental branch runs to its end with every index
into the sorted list `cells2` in bounds: `0 <= NLAKE <= NGRND <= size-1`.
Its outputs satisfy `ZSGLO <= ZLAKE <= ZGRND <= ZSGHI`, and `ZSGLO` and
`ZSGHI` are the least and the greatest `ZSOLD2` among the 2-minute cells the
scan collected (those with `FOCEN2` other than 1). -/
theorem C27_continental_indices_in_bounds (k : ZConsts) (a : ZArrays) (I J : Nat)
    (hcont : a.FOCEAN I J = 0)
    (hok : callZ_cell k a I J ≠ Except.error (ZError.continentalNoArea I J)) :
    ∃ c, continentalCell k a I J = Except.ok c ∧ callZ_cell k a I J = Except.ok c.out ∧
      c.cells2 = sortCells (gather a (scanned k I J)).1 ∧
      0 ≤ c.NLAKE ∧ c.NLAKE ≤ c.NGRND ∧ c.NGRND ≤ (c.cells2.length : Int) - 1 ∧
      c.out.ZSGLO ≤ c.out.ZLAKE ∧ c.out.ZLAKE ≤ c.out.ZGRND ∧ c.out.ZGRND ≤ c.out.ZSGHI ∧
      (∀ p ∈ scanned k I J, a.FOCEN2 p.1 p.2 ≠ 1 →
        c.out.ZSGLO ≤ a.ZSOLD2 p.1 p.2 ∧ a.ZSOLD2 p.1 p.2 ≤ c.out.ZSGHI) ∧
      (∃ p ∈ scanned k I J, a.FOCEN2 p.1 p.2 ≠ 1 ∧ a.ZSOLD2 p.1 p.2 = c.out.ZSGLO) ∧
      (∃ p ∈ scanned k I J, a.FOCEN2 p.1 p.2 ≠ 1 ∧ a.ZSOLD2 p.1 p.2 = c.out.ZSGHI) := by
  have hs : (gather a (scanned k I J)).2.1 ≠ 0 := by
    intro h0
    exact hok ((callZ_continental_raises_iff k a I J).2 ⟨hcont, h0⟩)
  obtain ⟨c, hc, h1, h2, h3, h4, h5, h6, h7, h8, h9, h10⟩ := continentalCell_ok k a I J hs
  refine ⟨c, hc, ?_, h1, h2, h3, h4, h5, h6, h7, ?_, ?_, ?_⟩
  · rw [callZ_cell_continental k a I J hcont, hc]; rfl
  · intro p hp hne
    exact h8 ⟨a.dxyp p.2, a.ZSOLD2 p.1 p.2⟩
      ((mem_gather_cells a _ _).2 ⟨p, hp, hne, rfl⟩)
  · obtain ⟨x, hx, hxe⟩ := h9
    obtain ⟨p, hp, hne, rfl⟩ := (mem_gather_cells a _ _).1 hx
    exact ⟨p, hp, hne, hxe⟩
  · obtain ⟨x, hx, hxe⟩ := h10
    obtain ⟨p, hp, hne, rfl⟩ := (mem_gather_cells a _ _).1 hx
    exact ⟨p, hp, hne, hxe⟩

/-- Witness for C27: on the small grids with all-land arrays, the polar model
cell `(1,1)` is continental and does not raise, and its indices and outputs
are as C27 states. -/
theorem C27_continental_indices_in_bounds_witness :
    zLand.FOCEAN 1 1 = 0 ∧
    callZ_cell zconsts_small zLand 1 1 ≠ Except.error (ZError.continentalNoArea 1 1) ∧
    ∃ c, continentalCell zconsts_small zLand 1 1 = Except.ok c ∧
      0 ≤ c.NLAKE ∧ c.NLAKE ≤ c.NGRND ∧ c.NGRND ≤ (c.cells2.length : Int) - 1 ∧
      c.out.ZSGLO ≤ c.out.ZLAKE ∧ c.out.ZLAKE ≤ c.out.ZGRND ∧ c.out.ZGRND ≤ c.out.ZSGHI := by
  have hok : callZ_cell zconsts_small zLand 1 1
      ≠ Except.error (ZError.continentalNoArea 1 1) := by
    rw [Ne, callZ_continental_raises_iff,
      gather_area_zero_iff zLand _ (fun _ _ => by simp [zLand])]
    rintro ⟨-, h⟩
    have hm : ((1, 1) : Nat × Nat) ∈ scanned zconsts_small 1 1 := by
      rw [mem_scanned]; decide
    have := h (1, 1) hm
    simp [zLand] at this
  obtain ⟨c, hc, -, -, h3, h4, h5, h6, h7, h8, -⟩ :=
    C27_continental_indices_in_bounds zconsts_small zLand 1 1 rfl hok
  exact ⟨rfl, hok, c, hc, h3, h4, h5, h6, h7, h8⟩

/-- C28 (code defect, evaluated).  With `NEUMANN_BC` and the contracts of the
ice model empty on entry, `setup_contract_modele` builds the ice-input
contract with the sensible heat flux in place of the surface temperature, and
still sets the two recipes whose output is `surface_temperature`: a recipe is
set for a name that is not a field of the contract the transformer takes its
outputs from.  With `DIRICHLET_BC` every recipe names a field of the contract,
and with either type every field other than the sensible heat flux has a
recipe. -/
theorem C28_neumann_recipe_outside_contract
    (gcm_outputs ice_input_scalars : CouplingContract) (C2K : ℚ) :
    ((setup_contract_modele ModelE_CouplingType.NEUMANN_BC new_CouplingContract
        new_CouplingContract gcm_outputs ice_input_scalars C2K).ice_input.names
      = ["land_ice_surface_specific_mass_balance_flux", "surface_downward_latent_heat_flux",
          "surface_downward_sensible_heat_flux"] ∧
      (setup_contract_modele ModelE_CouplingType.NEUMANN_BC new_CouplingContract
        new_CouplingContract gcm_outputs ice_input_scalars C2K).ice_input_vt.outputs
      = (setup_contract_modele ModelE_CouplingType.NEUMANN_BC new_CouplingContract
        new_CouplingContract gcm_outputs ice_input_scalars C2K).ice_input.names ∧
      (setup_contract_modele ModelE_CouplingType.NEUMANN_BC new_CouplingContract
        new_CouplingContract gcm_outputs ice_input_scalars C2K).ice_input_vt.recipes
      = [⟨"land_ice_surface_specific_mass_balance_flux", "smb", "by_dt", 1⟩,
          ⟨"surface_downward_latent_heat_flux", "seb", "by_dt", 1⟩,
          ⟨"surface_temperature", "tg2", "unit", 1⟩,
          ⟨"surface_temperature", "unit", "unit", C2K⟩] ∧
      "surface_temperature" ∉
        (setup_contract_modele ModelE_CouplingType.NEUMANN_BC new_CouplingContract
          new_CouplingContract gcm_outputs ice_input_scalars C2K).ice_input.names) ∧
    (∀ r ∈ (setup_contract_modele ModelE_CouplingType.DIRICHLET_BC new_CouplingContract
        new_CouplingContract gcm_outputs ice_input_scalars C2K).ice_input_vt.recipes,
      r.output ∈ (setup_contract_modele ModelE_CouplingType.DIRICHLET_BC new_CouplingContract
        new_CouplingContract gcm_outputs ice_input_scalars C2K).ice_input.names) ∧
    (∀ (coupling_type : ModelE_CouplingType),
      ∀ n ∈ (setup_contract_modele coupling_type new_CouplingContract
          new_CouplingContract gcm_outputs ice_input_scalars C2K).ice_input.names,
        n ≠ "surface_downward_sensible_heat_flux" →
        n ∈ (setup_contract_modele coupling_type new_CouplingContract
          new_CouplingContract gcm_outputs ice_input_scalars C2K).ice_input_vt.recipes.map
            (fun r => r.output)) := by
  refine ⟨⟨?_, ?_, ?_, ?_⟩, ?_, ?_⟩
  · simp [setup_contract_modele, CouplingContract.names, CouplingContract.add_cfname,
      CouplingContract.add, new_CouplingContract]
  · simp [setup_contract_modele, VarTransformer.set_names, VarTransformer.set]
  · simp [setup_contract_modele, VarTransformer.set_names, VarTransformer.set]
  · simp [setup_contract_modele, CouplingContract.names, CouplingContract.add_cfname,
      CouplingContract.add, new_CouplingContract]
  · simp [setup_contract_modele, CouplingContract.names, CouplingContract.add_cfname,
      CouplingContract.add, new_CouplingContract, VarTransformer.set_names,
      VarTransformer.set]
  · intro coupling_type
    cases coupling_type <;>
    simp [setup_contract_modele, CouplingContract.names, CouplingContract.add_cfname,
      CouplingContract.add, new_CouplingContract, VarTransformer.set_names,
      VarTransformer.set]

end GlobalEc
